import Mathlib

/-!
# ckb-daemon: `devnode.c` and the main loop of `main.c`

A shallow embedding of `readcmd` (and of the C library scanning calls it is
built from), of `readlines`, of `updateconnected` and of the parameter loop
and the main loop of `main`, together with the properties that the daemon's
specification states about them.

Conventions of the embedding.

* A C string is a `List Char`; the terminating NUL is implicit.
* Pointers into the device table and the storage table are indices; a null
  pointer is `none`.
* `int` variables hold mathematical integers that are reduced to 32 bits
  where a C library conversion stores them.
* Functions that `readcmd` calls but whose bodies live in other translation
  units (`cmd_bind`, `cmd_ledrgb`, `updateleds`, ...) are recorded as events
  of a call trace, in call order, with their arguments.
* The buffer of `readlines` is a memory of cells, a function from offsets to
  bytes; a file descriptor is the list of the chunks that its reads are going
  to deliver.
-/

namespace Ckb

/-- C strings: the characters before the terminating NUL. -/
abbrev Str := List Char

/-! ## Constants of `usb.h` -/

/-- Value of `MODE_MAX` in usb.h. -/
def MODE_MAX : Nat := 16

/-- Value of `SERIAL_LEN` in usb.h (32 characters and the terminator). -/
def SERIAL_LEN : Nat := 33

/-- Value of `DEV_MAX` in usb.h. -/
def DEV_MAX : Nat := 10

/-! ## The C library calls used by `readcmd` -/

/-- The `isspace` class of the C locale: space, `\t`, `\n`, `\v`, `\f`, `\r`. -/
def isspace (c : Char) : Bool :=
  c == ' ' || c == Char.ofNat 9 || c == Char.ofNat 10 || c == Char.ofNat 11 ||
    c == Char.ofNat 12 || c == Char.ofNat 13

/-- Value of a decimal digit. -/
def decVal (c : Char) : Option Nat :=
  if 48 ≤ c.toNat ∧ c.toNat ≤ 57 then some (c.toNat - 48) else none

/-- Value of a hexadecimal digit, either case. -/
def hexVal (c : Char) : Option Nat :=
  if 48 ≤ c.toNat ∧ c.toNat ≤ 57 then some (c.toNat - 48)
  else if 97 ≤ c.toNat ∧ c.toNat ≤ 102 then some (c.toNat - 87)
  else if 65 ≤ c.toNat ∧ c.toNat ≤ 70 then some (c.toNat - 55)
  else none

/-- Digit value in base 10 or 16. -/
def digitVal (base : Nat) (c : Char) : Option Nat :=
  if base = 16 then hexVal c else decVal c

/-- Reads at most `width` digits of the base from the front of the input:
the accumulated value, the number of digits read and the unread input. -/
def scanDigits (base : Nat) : Nat → Nat → Nat → Str → Nat × Nat × Str
  | 0, acc, n, s => (acc, n, s)
  | _ + 1, acc, n, [] => (acc, n, [])
  | w + 1, acc, n, c :: t =>
    match digitVal base c with
    | some v => scanDigits base w (acc * base + v) (n + 1) t
    | none => (acc, n, c :: t)

/-- Outcome of one numeric conversion of `sscanf`. -/
inductive Conv where
  /-- The input ended before the conversion could start (input failure). -/
  | eof : Conv
  /-- The input does not start with a number (matching failure). -/
  | fail : Conv
  /-- A number was read: its sign, its magnitude and the unread input. -/
  | ok (neg : Bool) (mag : Nat) (rest : Str) : Conv
deriving DecidableEq, Repr

/-- Whether the input starts with `0x` or `0X`. -/
def hexPrefix (s : Str) : Bool :=
  match s with
  | a :: b :: _ => a == '0' && (b == 'x' || b == 'X')
  | _ => false

/-- One integer conversion (`%d`, `%u`, `%x`) with a maximum field width.
White space is skipped first and does not count towards the width; then an
optional sign, for base 16 an optional `0x`, and the digits.  The input item
is the longest prefix of the input, no longer than the width, that is a
prefix of a number; the conversion fails when that item is not a number
(no digit read).  This is the reading of ISO C, under which a `0x` that the
field width or the input cuts off from its digits is a matching failure; C
libraries that store 0 for such an item are described by `scanNumLax`. -/
def scanNum (base : Nat) (width : Nat) (s : Str) : Conv :=
  match s.dropWhile isspace with
  | [] => Conv.eof
  | c :: t =>
    let signed : Bool := (c == '-' || c == '+') && decide (1 ≤ width)
    let neg : Bool := signed && c == '-'
    let s2 : Str := if signed then t else c :: t
    let w2 : Nat := if signed then width - 1 else width
    let pre : Bool := decide (base = 16) && decide (2 ≤ w2) && hexPrefix s2
    let s3 : Str := if pre then s2.drop 2 else s2
    let w3 : Nat := if pre then w2 - 2 else w2
    match scanDigits base w3 0 0 s3 with
    | (_, 0, _) => Conv.fail
    | (v, _ + 1, rest) => Conv.ok neg v rest

/-- Reduction of an integer to the value of a 32-bit `int` with the same low
32 bits. -/
def toInt32 (n : Int) : Int := (n + 2147483648) % 4294967296 - 2147483648

/-- The `int` stored by a `%d` conversion: `strtol` semantics (saturating at
the range of `long`), then the low 32 bits. -/
def valD (neg : Bool) (mag : Nat) : Int :=
  let v : Int := if neg then - (mag : Int) else (mag : Int)
  let l : Int := max (-9223372036854775808) (min 9223372036854775807 v)
  toInt32 l

/-- The `int` that holds the result of a `%u` or `%x` conversion: `strtoul`
semantics (a magnitude that does not fit in `unsigned long` gives its
maximum; a minus sign negates modulo 2^64), then the low 32 bits, read back
as an `int`. -/
def valU (neg : Bool) (mag : Nat) : Int :=
  let u : Nat :=
    if 18446744073709551616 ≤ mag then 18446744073709551615
    else if neg then (18446744073709551616 - mag) % 18446744073709551616 else mag
  toInt32 (u : Int)

/-- The call `sscanf(line, "%s%n", word, &wordlen)`: `none` when it does not
return 1 (nothing but white space is left), otherwise the word and the
number of characters consumed. -/
def sscanf_word (line : Str) : Option (Str × Nat) :=
  let rest := line.dropWhile isspace
  match rest with
  | [] => none
  | _ :: _ =>
    let word := rest.takeWhile (fun c => !isspace c)
    some (word, (line.length - rest.length) + word.length)

/-- The call `sscanf(word, "%u", &newmode)`: the stored `int` when the call
returns 1. -/
def sscanf_u (word : Str) : Option Int :=
  match scanNum 10 word.length word with
  | Conv.ok neg mag _ => some (valU neg mag)
  | _ => none

/-- The test `sscanf(word, "%02x%02x%02x", &r, &g, &b) == 3`. -/
def sscanf_rgb3 (word : Str) : Bool :=
  match scanNum 16 2 word with
  | Conv.ok _ _ r1 =>
    match scanNum 16 2 r1 with
    | Conv.ok _ _ r2 =>
      match scanNum 16 2 r2 with
      | Conv.ok _ _ _ => true
      | _ => false
    | _ => false
  | _ => false

/-- The conversion `scanNum` as C libraries carry it out that accept a `0x`
with no hexadecimal digit after it inside the field width: where `scanNum`
reports a matching failure for such an input item (the reading of ISO C),
this conversion stores 0 and goes on behind the `0x` (glibc).  On every other
input the two agree. -/
def scanNumLax (base : Nat) (width : Nat) (s : Str) : Conv :=
  match s.dropWhile isspace with
  | [] => Conv.eof
  | c :: t =>
    let signed : Bool := (c == '-' || c == '+') && decide (1 ≤ width)
    let neg : Bool := signed && c == '-'
    let s2 : Str := if signed then t else c :: t
    let w2 : Nat := if signed then width - 1 else width
    let pre : Bool := decide (base = 16) && decide (2 ≤ w2) && hexPrefix s2
    let s3 : Str := if pre then s2.drop 2 else s2
    let w3 : Nat := if pre then w2 - 2 else w2
    match scanDigits base w3 0 0 s3 with
    | (_, 0, _) => if pre then Conv.ok neg 0 s3 else Conv.fail
    | (v, _ + 1, rest) => Conv.ok neg v rest

/-- The test `sscanf(word, "%02x%02x%02x", &r, &g, &b) == 3` with the
conversions of `scanNumLax`. -/
def sscanf_rgb3_lax (word : Str) : Bool :=
  match scanNumLax 16 2 word with
  | Conv.ok _ _ r1 =>
    match scanNumLax 16 2 r1 with
    | Conv.ok _ _ r2 =>
      match scanNumLax 16 2 r2 with
      | Conv.ok _ _ _ => true
      | _ => false
    | _ => false
  | _ => false

/-- The call `sscanf(word, "%*[^:]%n", &left)` on `left = -1`: the final
value of `left`.  The scanset needs at least one character, so a word that
starts with a colon leaves `left` at -1. -/
def sscanf_left (word : Str) : Int :=
  match word.takeWhile (fun c => c != ':') with
  | [] => -1
  | c :: t => ((c :: t).length : Int)

/-- The call `sscanf(s, "%10[^:,]%n", keyname, &field)`: `none` when it does
not return 1, otherwise `keyname` and `field`. -/
def sscanf_keyname (s : Str) : Option (Str × Nat) :=
  match (s.takeWhile (fun c => c != ':' && c != ',')).take 10 with
  | [] => none
  | c :: t => some (c :: t, (c :: t).length)

/-- Return value and stored number of `sscanf(keyname, "#%d", &keycode)`:
the return value is 1 with the number stored, 0 on a matching failure and
-1 (`EOF`) when the input ends right after the `#`. -/
def sscanf_hashd (keyname : Str) : Int × Option Int :=
  match keyname with
  | [] => (-1, none)
  | c :: t =>
    if c == '#' then
      match scanNum 10 t.length t with
      | Conv.eof => (-1, none)
      | Conv.fail => (0, none)
      | Conv.ok neg mag _ => (1, some (valD neg mag))
    else (0, none)

/-- Return value and stored number of `sscanf(keyname, "#x%x", &keycode)`. -/
def sscanf_hashx (keyname : Str) : Int × Option Int :=
  match keyname with
  | [] => (-1, none)
  | c :: t =>
    if c == '#' then
      match t with
      | [] => (-1, none)
      | x :: u =>
        if x == 'x' then
          match scanNum 16 u.length u with
          | Conv.eof => (-1, none)
          | Conv.fail => (0, none)
          | Conv.ok neg mag _ => (1, some (valU neg mag))
        else (0, none)
    else (0, none)

/-! ## Data model (usb.h) -/

/-- The `cmd` enumeration of the interpreter: the active command of a line. -/
inductive cmd where
  | NONE | DEVICE | MODE | NAME | PROFILENAME | BIND | UNBIND | REBIND | MACRO | RGB
deriving DecidableEq, Repr

/-- The per-key handler functions a verb can install (`cmdhandler` values). -/
inductive cmdhandler where
  | cmd_bind | cmd_unbind | cmd_rebind | cmd_ledrgb
deriving DecidableEq, Repr

/-- A non-null `usbsetting*` (equally the `usbprofile*` of its `profile`
field): the settings of the device in slot `i` of `keyboard[]`, or entry `j`
of the storage table. -/
inductive SetRef where
  | dev (i : Nat) : SetRef
  | stored (j : Nat) : SetRef
deriving DecidableEq, Repr

/-- A non-null `usbmode*`: element `index` of the mode array of a profile. -/
structure ModeRef where
  owner : SetRef
  index : Nat
deriving DecidableEq, Repr

/-- The fields of `usbprofile` that `readcmd` reads or assigns itself: the
number of modes and the `currentmode` pointer.  The contents of the modes
are only touched through calls, which the trace records. -/
structure usbprofile where
  modecount : Nat
  currentmode : Option ModeRef
deriving DecidableEq, Repr

/-- Type `usbsetting`: a profile and the serial number it belongs to. -/
structure usbsetting where
  profile : usbprofile
  serial : Str
deriving DecidableEq, Repr

/-- The fields of `usbdevice` used here: whether `handle` is non-null, the
settings and the device name. -/
structure usbdevice where
  handle : Bool
  setting : usbsetting
  name : Str
deriving DecidableEq, Repr

/-- The process-wide tables: `keyboard[]` and the storage list. -/
structure Daemon where
  keyboard : List usbdevice
  store : List usbsetting
deriving DecidableEq, Repr

/-- A call made by `readcmd` to a function of another translation unit, with
its arguments.  A pointer argument that may be null is an `Option`. -/
inductive Event where
  | hwloadprofile (kb : Option Nat) : Event
  | hwsaveprofile (kb : Option Nat) : Event
  | erasemode (mode : ModeRef) : Event
  | eraseprofile (profile : SetRef) : Event
  | getusbmode (id : Int) (profile : Option SetRef) : Event
  | addstore (serial : Str) : Event
  | updatemod_mode (mode : ModeRef) : Event
  | updatemod_profile (profile : SetRef) : Event
  | setmodename (mode : ModeRef) (name : Str) : Event
  | setprofilename (profile : Option SetRef) (name : Str) : Event
  | cmd_ledon (mode : ModeRef) : Event
  | cmd_ledoff (mode : ModeRef) : Event
  | cmd_macroclear (mode : ModeRef) : Event
  | cmd_macro_call (mode : ModeRef) (keys : Str) (assignment : Str) : Event
  | call (handler : Option cmdhandler) (mode : ModeRef) (key : Nat) (right : Str) : Event
  | updateleds (kb : Option Nat) : Event
deriving DecidableEq, Repr

/-- What `keyboard.h` supplies to `readcmd`: the number of keys, the names of
the key map (`keymap[i].name`, `none` for a null name), and the
indeterminate value of the uninitialised `keycode` in the selector scan that
starts at a given position. -/
structure Env where
  N_KEYS : Nat
  keymap : Nat → Option Str
  indet : Nat → Int

/-- The profile a settings pointer leads to. -/
def getProfile (d : Daemon) : SetRef → Option usbprofile
  | SetRef.dev i => (d.keyboard.get? i).map (fun k => k.setting.profile)
  | SetRef.stored j => (d.store.get? j).map (fun s => s.profile)

/-- Stores a profile through a settings pointer. -/
def setProfile (d : Daemon) (r : SetRef) (p : usbprofile) : Daemon :=
  match r with
  | SetRef.dev i =>
    { d with
      keyboard :=
        d.keyboard.modify (fun k => { k with setting := { k.setting with profile := p } }) i }
  | SetRef.stored j =>
    { d with store := d.store.modify (fun s => { s with profile := p }) j }

/-- The value of `profile->currentmode` for a possibly null profile pointer:
`(profile ? profile->currentmode : 0)`. -/
def currentmodeOf (d : Daemon) (profile : Option SetRef) : Option ModeRef :=
  match profile with
  | none => none
  | some r => (getProfile d r).bind (fun p => p.currentmode)

/-- The assignment `profile->currentmode = mode`. -/
def setCurrentmode (d : Daemon) (r : SetRef) (mode : Option ModeRef) : Daemon :=
  match getProfile d r with
  | none => d
  | some p => setProfile d r { p with currentmode := mode }

/-! ## Functions of usb.c, declared in usb.h -/

/-- Modelled from the spec: the body of `findusb` is not part of the sources;
usb.h declares it as "Find a connected USB device. Returns 0 if not found"
and the specification says the target becomes "a live device (by matching
serial) if present".  The first slot with a live handle and that serial. -/
def findusb (d : Daemon) (serial : Str) : Option Nat :=
  d.keyboard.findIdx? (fun k => k.handle && decide (k.setting.serial = serial))

/-- Modelled from the spec: the body of `findstore` is not part of the
sources; usb.h declares it as "Find a USB device from storage. Returns 0 if
not found". -/
def findstore (d : Daemon) (serial : Str) : Option Nat :=
  d.store.findIdx? (fun s => decide (s.serial = serial))

/-- Modelled from the spec: the profile of a freshly created storage entry,
stored at index `j`.  The specification requires of every storage entry that
`currentmode` is one of its own modes at all times, so the new profile has
one mode, mode 0, which is current. -/
def newprofile (j : Nat) : usbprofile :=
  { modecount := 1, currentmode := some { owner := SetRef.stored j, index := 0 } }

/-- Modelled from the spec: the body of `addstore` is not part of the
sources; usb.h declares it as "Add a USB device to storage. Returns an
existing device if found or a new one if not." -/
def addstore (d : Daemon) (serial : Str) : Daemon × Option SetRef :=
  match findstore d serial with
  | some j => (d, some (SetRef.stored j))
  | none =>
    ({ d with store := d.store ++ [{ profile := newprofile d.store.length, serial := serial }] },
      some (SetRef.stored d.store.length))

/-- Modelled from the spec: the body of `getusbmode` is not part of the
sources; usb.h declares it as "Get a mode from a profile. The mode will be
created if it didn't already exist."  Modes are created up to the requested
index, within the cap of `MODE_MAX` modes per profile; a null profile or an
index outside the cap yields a null mode. -/
def getusbmode (d : Daemon) (id : Int) (profile : Option SetRef) : Daemon × Option ModeRef :=
  match profile with
  | none => (d, none)
  | some r =>
    match getProfile d r with
    | none => (d, none)
    | some p =>
      if 0 ≤ id ∧ id < (MODE_MAX : Int) then
        (setProfile d r { p with modecount := max p.modecount (id.toNat + 1) },
          some { owner := r, index := id.toNat })
      else (d, none)

/-- Modelled from the spec: the body of `eraseprofile` is not part of the
sources; usb.h declares it as "Erases a profile, deleting all of its modes."
No mode is left, hence no current mode either. -/
def eraseprofile (d : Daemon) (r : SetRef) : Daemon :=
  match getProfile d r with
  | none => d
  | some _ => setProfile d r { modecount := 0, currentmode := none }

/-! ## The interpreter: `readcmd` (devnode.c) -/

/-- The variables of `readcmd` together with the tables it works on and the
calls made so far. -/
structure State where
  daemon : Daemon
  kb : Option Nat
  set : Option SetRef
  profile : Option SetRef
  mode : Option ModeRef
  command : cmd
  handler : Option cmdhandler
  rgbchange : Bool
  trace : List Event
deriving DecidableEq, Repr

/-- The calls `handler(mode, i, right)` for all `i` from 0 to `N_KEYS - 1`. -/
def allKeys (env : Env) (handler : Option cmdhandler) (mode : ModeRef) (right : Str) :
    List Event :=
  (List.range env.N_KEYS).map (fun i => Event.call handler mode i right)

/-- The look-up of a key name in the key map: the first index below `N_KEYS`
whose name is non-null and equal to `keyname`. -/
def keymapFind (env : Env) (keyname : Str) : Option Nat :=
  (List.range env.N_KEYS).find? (fun i => decide (env.keymap i = some keyname))

/-- Body of the selector loop for one `keyname` (lines 323-340): the handler
calls it makes.  `keycode` starts indeterminate and keeps that value when a
scan stores nothing. -/
def keyEvents (env : Env) (handler : Option cmdhandler) (mode : ModeRef) (right : Str)
    (position : Nat) (keyname : Str) : List Event :=
  if keyname = "all".toList then allKeys env handler mode right
  else
    let r1 := sscanf_hashd keyname
    let keycode1 : Int := r1.2.getD (env.indet position)
    if r1.1 ≠ 0 ∧ 0 ≤ keycode1 ∧ keycode1 < (env.N_KEYS : Int) then
      [Event.call handler mode keycode1.toNat right]
    else
      let r2 := sscanf_hashx keyname
      let keycode2 : Int := r2.2.getD keycode1
      if r2.1 ≠ 0 ∧ 0 ≤ keycode2 ∧ keycode2 < (env.N_KEYS : Int) then
        [Event.call handler mode keycode2.toNat right]
      else
        match keymapFind env keyname with
        | some i => [Event.call handler mode i right]
        | none => []

/-- The selector loop (lines 320-343),
`while(position < left && sscanf(word + position, "%10[^:,]%n", keyname, &field) == 1)`,
from a given `position`: the handler calls it makes, or `none` when the fuel
does not suffice. -/
def keyloop (env : Env) (handler : Option cmdhandler) (mode : ModeRef) (word : Str)
    (left : Nat) (right : Str) : Nat → Nat → Option (List Event)
  | 0, position => if position < left then none else some []
  | fuel + 1, position =>
    if position < left then
      match sscanf_keyname (word.drop position) with
      | none => some []
      | some (keyname, field) =>
        let position1 := position + field
        let position2 := if word.get? position1 = some ',' then position1 + 1 else position1
        (keyloop env handler mode word left right fuel position2).map
          (fun evs => keyEvents env handler mode right position keyname ++ evs)
    else some []

/-- Adds calls to the trace. -/
def State.emit (st : State) (evs : List Event) : State :=
  { st with trace := st.trace ++ evs }

/-- Lines 255-267: the word after `device`.  A word of `SERIAL_LEN - 1`
characters retargets the line, to the live device with that serial or else
to the storage entry for it. -/
def readcmd_device (st : State) (word : Str) : State :=
  if word.length = SERIAL_LEN - 1 then
    match findusb st.daemon word with
    | some i =>
      { st with
        kb := some i, set := some (SetRef.dev i), profile := some (SetRef.dev i),
        mode := currentmodeOf st.daemon (some (SetRef.dev i)) }
    | none =>
      let r := addstore st.daemon word
      { st with
        daemon := r.1, kb := none, set := r.2, profile := r.2,
        mode := currentmodeOf r.1 r.2,
        trace := st.trace ++ [Event.addstore word] }
  else st

/-- Lines 274-276: the word after `mode`,
`if(sscanf(word, "%u", &newmode) == 1 && newmode > 0 && newmode < MODE_MAX)
mode = getusbmode(newmode - 1, profile);`. -/
def readcmd_mode (st : State) (word : Str) : State :=
  match sscanf_u word with
  | some newmode =>
    if 0 < newmode ∧ newmode < (MODE_MAX : Int) then
      let r := getusbmode st.daemon (newmode - 1) st.profile
      { st with
        daemon := r.1, mode := r.2,
        trace := st.trace ++ [Event.getusbmode (newmode - 1) st.profile] }
    else st
  | none => st

/-- Start of the right-hand side: `right = word + left`, moved past a colon
that stands there (lines 310-312). -/
def rightOf (word : Str) (left : Nat) : Str :=
  match word.drop left with
  | c :: t => if c == ':' then t else c :: t
  | [] => []

/-- Lines 305-343: the word is split at the colon; for `macro` the two sides
go to `cmd_macro`, otherwise the selector loop runs over the left side. -/
def readcmd_colon (env : Env) (st : State) (mode : ModeRef) (word : Str) : Option State :=
  let left := sscanf_left word
  if left ≤ 0 then some st
  else
    let right := rightOf word left.toNat
    if st.command = cmd.MACRO then
      some (st.emit [Event.cmd_macro_call mode (word.take left.toNat) right])
    else
      (keyloop env st.handler mode word left.toNat right (left.toNat + 1) 0).map
        (fun evs => st.emit evs)

/-- Lines 252-343 of `readcmd`: what is done with a word once the chain of
verb comparisons is over. -/
def readcmd_param (env : Env) (st : State) (word : Str) : Option State :=
  if st.command = cmd.NONE then some st
  else if st.command = cmd.DEVICE then some (readcmd_device st word)
  else
    match st.mode with
    | none => some st
    | some mode =>
      if st.command = cmd.MODE then some (readcmd_mode st word)
      else if st.command = cmd.NAME then
        some (st.emit [Event.setmodename mode word])
      else if st.command = cmd.PROFILENAME then
        some (st.emit [Event.setprofilename st.profile word])
      else if st.command = cmd.RGB then
        if word = "on".toList then some (st.emit [Event.cmd_ledon mode])
        else if word = "off".toList then some (st.emit [Event.cmd_ledoff mode])
        else if sscanf_rgb3 word = true then
          some (st.emit (allKeys env (some cmdhandler.cmd_ledrgb) mode word))
        else readcmd_colon env st mode word
      else if st.command = cmd.MACRO ∧ word = "clear".toList then
        some (st.emit [Event.cmd_macroclear mode])
      else readcmd_colon env st mode word

/-- Body of the word loop of `readcmd` (lines 172-343) for one word: the
chain of verb comparisons, then `readcmd_param` for a word that is no verb
and for the two verbs whose branch has no `continue`. -/
def readcmd_word (env : Env) (st : State) (word : Str) : Option State :=
  if word = "device".toList then
    some { st with command := cmd.DEVICE, handler := none }
  else if word = "mode".toList then
    some { st with command := cmd.MODE, handler := none }
  else if word = "switch".toList then
    some { st with
      command := cmd.NONE, handler := none,
      daemon :=
        (match st.profile with
         | some p => setCurrentmode st.daemon p st.mode
         | none => st.daemon),
      rgbchange := true }
  else if word = "hwload".toList then
    readcmd_param env
      { st with
        command := cmd.NONE, handler := none,
        trace := st.trace ++ (if st.profile.isSome then [Event.hwloadprofile st.kb] else []),
        rgbchange := true } word
  else if word = "hwsave".toList then
    readcmd_param env
      { st with
        command := cmd.NONE, handler := none,
        trace := st.trace ++ (if st.profile.isSome then [Event.hwsaveprofile st.kb] else []) }
      word
  else if word = "erase".toList then
    some { st with
      command := cmd.NONE, handler := none,
      trace :=
        st.trace ++
          (match st.mode with
           | some m => [Event.erasemode m]
           | none => []),
      rgbchange := true }
  else if word = "eraseprofile".toList then
    match st.profile with
    | some p =>
      let d1 := eraseprofile st.daemon p
      let r := getusbmode d1 0 (some p)
      some { st with
        command := cmd.NONE, handler := none,
        daemon := setCurrentmode r.1 p r.2, mode := r.2,
        trace := st.trace ++ [Event.eraseprofile p, Event.getusbmode 0 (some p)],
        rgbchange := true }
    | none => some { st with command := cmd.NONE, handler := none, rgbchange := true }
  else if word = "name".toList then
    some { st with
      command := cmd.NAME, handler := none,
      trace :=
        st.trace ++
          (match st.mode with
           | some m => [Event.updatemod_mode m]
           | none => []) }
  else if word = "profilename".toList then
    some { st with
      command := cmd.PROFILENAME, handler := none,
      trace :=
        st.trace ++
          (match st.profile with
           | some p => [Event.updatemod_profile p]
           | none => []) }
  else if word = "bind".toList then
    some { st with command := cmd.BIND, handler := some cmdhandler.cmd_bind }
  else if word = "unbind".toList then
    some { st with command := cmd.UNBIND, handler := some cmdhandler.cmd_unbind }
  else if word = "rebind".toList then
    some { st with command := cmd.REBIND, handler := some cmdhandler.cmd_rebind }
  else if word = "macro".toList then
    some { st with command := cmd.MACRO, handler := none }
  else if word = "rgb".toList then
    some { st with
      command := cmd.RGB, handler := some cmdhandler.cmd_ledrgb, rgbchange := true,
      trace :=
        st.trace ++
          (match st.mode with
           | some m => [Event.updatemod_mode m]
           | none => []) }
  else readcmd_param env st word

/-- The word loop `while(sscanf(line, "%s%n", word, &wordlen) == 1)` with
`line += wordlen`; `none` when the fuel does not suffice. -/
def readcmd_loop (env : Env) : Nat → State → Str → Option State
  | 0, _, _ => none
  | fuel + 1, st, line =>
    match sscanf_word line with
    | none => some st
    | some (word, wordlen) =>
      match readcmd_word env st word with
      | none => none
      | some st1 => readcmd_loop env fuel st1 (line.drop wordlen)

/-- The state in which `readcmd(keyboard + kb, line)` enters its word loop
(lines 164-169). -/
def readcmd_init (d : Daemon) (kb : Nat) : State :=
  let set : Option SetRef :=
    if ((d.keyboard.get? kb).map (fun k => k.handle)).getD false then some (SetRef.dev kb)
    else none
  { daemon := d, kb := some kb, set := set, profile := set, mode := currentmodeOf d set,
    command := cmd.NONE, handler := none, rgbchange := false, trace := [] }

/-- The final test `if(mode && rgbchange) updateleds(kb);` (lines 345-346). -/
def readcmd_finish (st : State) : State :=
  if st.mode.isSome ∧ st.rgbchange = true then st.emit [Event.updateleds st.kb] else st

/-- The function `readcmd(keyboard + kb, line)`: the state it ends in, with
the tables as it leaves them and the trace of its calls, or `none` when a
loop does not finish within its fuel (each loop consumes at least one
character per round, and the fuel is the number of characters plus one). -/
def readcmd (env : Env) (d : Daemon) (kb : Nat) (line : Str) : Option State :=
  (readcmd_loop env (line.length + 1) (readcmd_init d kb) line).map readcmd_finish

/-! ## Words of a line -/

/-- The successive values of `word` in the word loop of `readcmd`: the words
that `sscanf(line, "%s%n", ...)` reads one after the other. -/
def wordsOf : Nat → Str → List Str
  | 0, _ => []
  | fuel + 1, line =>
    match sscanf_word line with
    | none => []
    | some (word, wordlen) => word :: wordsOf fuel (line.drop wordlen)

/-- The words of a command line, in order. -/
def words (line : Str) : List Str := wordsOf (line.length + 1) line

/-- The words that `readcmd` compares every word with (lines 174-251). -/
def verbs : List Str :=
  ["device".toList, "mode".toList, "switch".toList, "hwload".toList, "hwsave".toList,
   "erase".toList, "eraseprofile".toList, "name".toList, "profilename".toList,
   "bind".toList, "unbind".toList, "rebind".toList, "macro".toList, "rgb".toList]

/-- The verbs whose branch sets `rgbchange`. -/
def ledVerbs : List Str :=
  ["switch".toList, "hwload".toList, "erase".toList, "eraseprofile".toList, "rgb".toList]

/-- The words of a line are applied one after the other, then the final test. -/
def readcmd_words (env : Env) (st : State) (ws : List Str) : Option State :=
  ws.foldlM (readcmd_word env) st

/-! ## Example tables -/

/-- An example key map: a few named keys, all other names null. -/
def sampleKeymap : Nat → Option Str
  | 0 => some "esc".toList
  | 1 => some "f1".toList
  | 2 => some "g1".toList
  | 3 => some "g2".toList
  | 4 => some "a".toList
  | 5 => some "lctrl".toList
  | _ => none

/-- An example of what keyboard.h supplies: 144 keys. -/
def sampleEnv : Env := { N_KEYS := 144, keymap := sampleKeymap, indet := fun _ => 0 }

/-- The root device of slot 0: no USB handle, no mode. -/
def sampleRoot : usbdevice :=
  { handle := false,
    setting := { profile := { modecount := 0, currentmode := none }, serial := [] },
    name := [] }

/-- A plugged-in keyboard for slot 1, with two modes of which mode 0 is current. -/
def sampleKeyboard : usbdevice :=
  { handle := true,
    setting :=
      { profile := { modecount := 2, currentmode := some { owner := SetRef.dev 1, index := 0 } },
        serial := "ABCDEF0123456789ABCDEF0123456789".toList },
    name := "K70".toList }

/-- Example tables: the root device, one keyboard, an empty storage list. -/
def sampleDaemon : Daemon := { keyboard := [sampleRoot, sampleKeyboard], store := [] }

/-- Mode 0 of the keyboard in slot 1. -/
def sampleMode : ModeRef := { owner := SetRef.dev 1, index := 0 }

/-! ## Key selectors as the specification describes them -/

/-- A key selector of the command language: `all`, `#<decimal>`, `#x<hex>`
or the name of a key. -/
inductive Selector where
  | all : Selector
  | dec (digits : Str) : Selector
  | hex (digits : Str) : Selector
  | name (keyname : Str) : Selector
deriving DecidableEq, Repr

/-- The number written by a string of digits in a base. -/
def digitsValue (base : Nat) (digits : Str) : Nat :=
  digits.foldl (fun acc c => acc * base + (digitVal base c).getD 0) 0

/-- The selector as it is written in a command. -/
def Selector.text : Selector → Str
  | Selector.all => "all".toList
  | Selector.dec digits => '#' :: digits
  | Selector.hex digits => '#' :: 'x' :: digits
  | Selector.name keyname => keyname

/-- Well-formed selectors: at least one digit after `#` or `#x`, all of them
digits of the base; a key name is not empty, has no colon or comma, is not
`all` and does not start with `#`. -/
def Selector.wf : Selector → Prop
  | Selector.all => True
  | Selector.dec digits => digits ≠ [] ∧ ∀ c ∈ digits, (decVal c).isSome = true
  | Selector.hex digits => digits ≠ [] ∧ ∀ c ∈ digits, (hexVal c).isSome = true
  | Selector.name keyname =>
    keyname ≠ [] ∧ (∀ c ∈ keyname, c ≠ ':' ∧ c ≠ ',') ∧ keyname ≠ "all".toList ∧
      keyname.head? ≠ some '#'

/-- Well-formedness of a selector can be checked. -/
instance Selector.decidableWf (s : Selector) : Decidable s.wf := by
  cases s <;> unfold Selector.wf <;> infer_instance

/-- The keys a selector stands for, in the order the specification gives:
every index in ascending order for `all`, the index itself when it is below
`N_KEYS` for the numeric forms, the first key-map entry of that name for a
name. -/
def Selector.resolve (env : Env) : Selector → List Nat
  | Selector.all => List.range env.N_KEYS
  | Selector.dec digits =>
    if digitsValue 10 digits < env.N_KEYS then [digitsValue 10 digits] else []
  | Selector.hex digits =>
    if digitsValue 16 digits < env.N_KEYS then [digitsValue 16 digits] else []
  | Selector.name keyname => (keymapFind env keyname).toList

/-- The left-hand side of a colon parameter: the selectors separated by
commas. -/
def lhsText : List Selector → Str
  | [] => []
  | [s] => s.text
  | s :: t => s.text ++ ',' :: lhsText t

/-- The handler calls the specification prescribes for a list of selectors:
one per resolved key, in selector order. -/
def selectorCalls (env : Env) (handler : Option cmdhandler) (mode : ModeRef) (right : Str)
    (sels : List Selector) : List Event :=
  sels.flatMap (fun s => (s.resolve env).map (fun k => Event.call handler mode k right))

/-- What the selector scan presupposes of keyboard.h: `N_KEYS` is an `int`
constant, and no key name starts with `#`. -/
def Env.sane (env : Env) : Prop :=
  env.N_KEYS < 2147483648 ∧
    ∀ i, i < env.N_KEYS → ∀ n, env.keymap i = some n → n.head? ≠ some '#'

/-- The interpreter state on the example tables, for slot 1, with a given
active command and handler (as a verb leaves them). -/
def sampleState (command : cmd) (handler : Option cmdhandler) : State :=
  { readcmd_init sampleDaemon 1 with command := command, handler := handler }

/-- The verbs whose branch acts on a non-null `profile` even when no mode is
selected: `hwload`, `hwsave`, `eraseprofile`, `profilename`. -/
def profileVerbs : List Str :=
  ["hwload".toList, "hwsave".toList, "eraseprofile".toList, "profilename".toList]

/-! ## Invariants of the tables -/

/-- The tables, the target of the line and the selected mode are the same in
two states. -/
def State.sameTarget (st st1 : State) : Prop :=
  st1.daemon = st.daemon ∧ st1.kb = st.kb ∧ st1.set = st.set ∧ st1.profile = st.profile ∧
    st1.mode = st.mode

/-- The `currentmode` of the profile behind `r` is one of that profile's own
modes `modes[0..modecount-1]`. -/
def usbprofile.seated (r : SetRef) (p : usbprofile) : Prop :=
  ∃ m, p.currentmode = some m ∧ m.owner = r ∧ m.index < p.modecount

/-- Slot `i` of the device table has a live USB handle. -/
def live (d : Daemon) (i : Nat) : Bool :=
  ((d.keyboard.get? i).map (fun k => k.handle)).getD false

/-- The profile behind `r` is in use: it belongs to a plugged-in device (a
slot of `keyboard[]` with a live handle) or to an entry of the storage list.
The root slot 0 and unplugged slots, which `main` zeroes and no code under
review gives a mode, are not in use. -/
def Daemon.inUse (d : Daemon) : SetRef → Bool
  | SetRef.dev i => live d i
  | SetRef.stored _ => true

/-- Every profile in use, that of a plugged-in device or of a storage entry,
has one of its own modes as `currentmode`. -/
def Daemon.seated (d : Daemon) : Prop :=
  ∀ r p, d.inUse r = true → getProfile d r = some p → p.seated r

/-- The selected mode of the line is absent or a mode of the line's current
profile. -/
def State.modeOk (st : State) : Prop :=
  ∀ m, st.mode = some m →
    ∃ r p, st.profile = some r ∧ getProfile st.daemon r = some p ∧ m.owner = r ∧
      m.index < p.modecount

/-- The invariant of the word loop: the tables are seated, a line with a
profile has a profile in use and a selected mode among the modes of that
profile, and a line without a profile has no selected mode. -/
def State.inv (st : State) : Prop :=
  st.daemon.seated ∧
    (∀ r, st.profile = some r →
      ∃ p m, getProfile st.daemon r = some p ∧ st.daemon.inUse r = true ∧ st.mode = some m ∧
        m.owner = r ∧ m.index < p.modecount) ∧
    (st.profile = none → st.mode = none)

/-- The index of the current mode of a profile, if the profile exists and has
a current mode. -/
def currentIndex (d : Daemon) (r : SetRef) : Option (Option ModeRef) :=
  (getProfile d r).map (fun p => p.currentmode)

/-- The words after which another mode can be current: `switch` commits the
selection, `eraseprofile` re-seats it, `hwload` loads a profile from the
hardware, and `device` moves the line to another profile. -/
def switchVerbs : List Str :=
  ["switch".toList, "eraseprofile".toList, "hwload".toList, "device".toList]

/-! ## Start-up of the daemon (main.c) -/

/-- The test `sscanf(argument, "--fps=%d", &fps) == 1`: the stored `int` when
the call returns 1.  The ordinary characters of the format have to match the
start of the argument one by one, then comes the `%d` conversion. -/
def sscanf_fps (argument : Str) : Option Int :=
  if "--fps=".toList.isPrefixOf argument then
    match scanNum 10 (argument.drop 6).length (argument.drop 6) with
    | Conv.ok neg mag _ => some (valD neg mag)
    | _ => none
  else none

/-- The variable `fps` of `main` and the numbers of the cap warnings printed so
far (`"Warning: Requested %d FPS but capping at 60\n"`). -/
structure Params where
  fps : Int
  warnings : List Int
deriving DecidableEq, Repr

/-- Body of the parameter loop of `main` (lines 59-68) for one argument. -/
def main_argument (st : Params) (argument : Str) : Params :=
  match sscanf_fps argument with
  | some fps =>
    if fps > 60 ∨ fps ≤ 0 then { fps := 60, warnings := st.warnings ++ [fps] }
    else { st with fps := fps }
  | none => st

/-- The parameter loop of `main` (lines 57-69):
`int fps = 60; for(int i = 1; i < argc; i++)` over `argv`. -/
def main_params (argv : List Str) : Params :=
  (argv.drop 1).foldl main_argument { fps := 60, warnings := [] }

/-- How `main` goes on after the parameter loop: it returns with a status, or
it enters the frame loop with a rate and the sleep per tick in microseconds. -/
inductive Startup where
  | returns (status : Int)
  | loops (fps : Int) (usec : Int)
deriving DecidableEq, Repr

/-- The way of `main` from the parameter loop into `while(1)`: the only
`return` in between is the one after a failed `libusb_init`; the loop sleeps
`usleep(1000000 / fps / 5)` per tick.  (Warnings printed on the way are left
out; `fps` is positive here, so `/` is the division of C.) -/
def main_startup (argv : List Str) (libusb_init : Int) : Startup :=
  if libusb_init ≠ 0 then Startup.returns (-1)
  else Startup.loops (main_params argv).fps (1000000 / (main_params argv).fps / 5)

/-! ## The `connected` file (devnode.c) -/

/-- The conversion `%d` of a slot number. -/
def fmt_d (n : Nat) : Str := Nat.toDigits 10 n

/-- The text that
`fprintf(cfile, "%s%d %s %s\n", devpath, i, keyboard[i].setting.serial, keyboard[i].name)`
writes. -/
def connected_line (devpath : Str) (i : Nat) (k : usbdevice) : Str :=
  devpath ++ fmt_d i ++ [' '] ++ k.setting.serial ++ [' '] ++ k.name ++ ['\n']

/-- Body of the loop of `updateconnected` for slot `i`, on the flag `written`
and the text written so far.  A slot beyond the end of the modelled table is
a zeroed slot: no handle. -/
def updateconnected_slot (devpath : Str) (d : Daemon) (acc : Bool × Str) (i : Nat) :
    Bool × Str :=
  match d.keyboard.get? i with
  | some k => if k.handle then (true, acc.2 ++ connected_line devpath i k) else acc
  | none => acc

/-- The function `updateconnected` (lines 32-51): the contents it writes to
`<devpath>0/connected`, or `none` when `fopen` fails and nothing is written. -/
def updateconnected (devpath : Str) (d : Daemon) (fopen : Bool) : Option Str :=
  if fopen then
    let r := (List.range' 1 (DEV_MAX - 1)).foldl (updateconnected_slot devpath d) (false, [])
    some (if r.1 then r.2 else r.2 ++ ['\n'])
  else none

/-- The slots among `slots` whose USB handle is live, with their devices, in
the order of `slots`. -/
def liveAmong (d : Daemon) (slots : List Nat) : List (Nat × usbdevice) :=
  slots.filterMap (fun i =>
    match d.keyboard.get? i with
    | some k => if k.handle then some (i, k) else none
    | none => none)

/-- The live non-root slots in ascending order: the live slots among
`1 .. DEV_MAX - 1`. -/
def liveSlots (d : Daemon) : List (Nat × usbdevice) :=
  liveAmong d (List.range' 1 (DEV_MAX - 1))

/-! ## The main loop (main.c) -/

/-- The calls of the main loop that its frame structure is about:
`libusb_handle_events_timeout_completed`, the service of the FIFO of a slot
(`readlines` on it and `readcmd` on its lines), `usbdequeue`,
`updateindicators` and `usleep`. -/
inductive Call where
  | handle_events
  | readlines (i : Nat)
  | usbdequeue (i : Nat)
  | updateindicators (i : Nat)
  | usleep (usec : Int)
deriving DecidableEq, Repr

/-- What the main loop uses of the rest of the daemon, over any type `W` of
states of the daemon and the world: the tests `keyboard[i].handle` and
`keyboard[i].fifo`, and the effects of the functions it calls (hot-plug
callbacks and commands can change every slot). -/
structure Machine (W : Type) where
  handle : W → Nat → Bool
  fifo : W → Nat → Bool
  handle_events : W → W
  service : Nat → W → W
  usbdequeue : Nat → W → W
  updateindicators : Nat → W → W

/-- The loop `for(int i = 0; i < DEV_MAX; i++) if(keyboard[i].fifo) ...`
(lines 117-126) over the slots still to come: the state after it and its
calls. -/
def fifo_pass {W : Type} (M : Machine W) : List Nat → W → W × List Call
  | [], w => (w, [])
  | i :: slots, w =>
    if M.fifo w i then
      ((fifo_pass M slots (M.service i w)).1,
        Call.readlines i :: (fifo_pass M slots (M.service i w)).2)
    else fifo_pass M slots w

/-- The loop `for(int i = 1; i < DEV_MAX; i++) if(keyboard[i].handle) ...`
(lines 129-137) over the slots still to come. -/
def queue_pass {W : Type} (M : Machine W) (frame : Nat) : List Nat → W → W × List Call
  | [], w => (w, [])
  | i :: slots, w =>
    if M.handle w i then
      if frame = 0 then
        ((queue_pass M frame slots (M.updateindicators i (M.usbdequeue i w))).1,
          Call.usbdequeue i :: Call.updateindicators i ::
            (queue_pass M frame slots (M.updateindicators i (M.usbdequeue i w))).2)
      else
        ((queue_pass M frame slots (M.usbdequeue i w)).1,
          Call.usbdequeue i :: (queue_pass M frame slots (M.usbdequeue i w)).2)
    else queue_pass M frame slots w

/-- One round of `while(1)` (lines 110-140) for a value of `frame`: the state
after it and its calls. -/
def main_tick {W : Type} (M : Machine W) (fps : Int) (frame : Nat) (w : W) : W × List Call :=
  let a : W × List Call :=
    if frame = 0 then
      ((fifo_pass M (List.range DEV_MAX) (M.handle_events w)).1,
        Call.handle_events :: (fifo_pass M (List.range DEV_MAX) (M.handle_events w)).2)
    else (w, [])
  let b := queue_pass M frame (List.range' 1 (DEV_MAX - 1)) a.1
  (b.1, a.2 ++ b.2 ++ [Call.usleep (1000000 / fps / 5)])

/-- The next `k` rounds of the main loop from a value of `frame` and a state,
with `frame = (frame + 1) % 5` at the end of each round: for every round its
value of `frame` and its calls.  The loop itself never ends. -/
def main_loop {W : Type} (M : Machine W) (fps : Int) : Nat → Nat → W → List (Nat × List Call)
  | 0, _, _ => []
  | k + 1, frame, w =>
    (frame, (main_tick M fps frame w).2) ::
      main_loop M fps k ((frame + 1) % 5) (main_tick M fps frame w).1

/-- The state in which round `n` of the main loop begins. -/
def main_state {W : Type} (M : Machine W) (fps : Int) : Nat → Nat → W → W
  | 0, _, w => w
  | n + 1, frame, w => main_state M fps n ((frame + 1) % 5) (main_tick M fps frame w).1

/-- The calls of a round as the frame structure describes them: on a frame
round the event pump and the service of the FIFOs `fs`, then for the slots
`qs` one `usbdequeue` each, followed on a frame round by `updateindicators`,
then the sleep. -/
def tickCalls (fps : Int) (frame : Nat) (fs qs : List Nat) : List Call :=
  (if frame = 0 then Call.handle_events :: fs.map Call.readlines else []) ++
    qs.flatMap (fun i =>
      Call.usbdequeue i :: (if frame = 0 then [Call.updateindicators i] else [])) ++
    [Call.usleep (1000000 / fps / 5)]

/-- An example machine: slots 1 and 3 are plugged in, slots 0, 1 and 3 have a
FIFO, and no call changes that. -/
def sampleMachine : Machine Unit :=
  { handle := fun _ i => i == 1 || i == 3,
    fifo := fun _ i => i == 0 || i == 1 || i == 3,
    handle_events := fun w => w,
    service := fun _ w => w,
    usbdequeue := fun _ w => w,
    updateindicators := fun _ w => w }

/-! ## Reading lines from a FIFO: `readlines` (devnode.c) -/

/-- The line cap `MAX_LINES`. -/
def MAX_LINES : Nat := 512

/-- The buffer cap `MAX_BUFFER`. -/
def MAX_BUFFER : Nat := 16 * 1024 - 1

/-- The byte 0. -/
def NUL : Char := Char.ofNat 0

/-- What a file descriptor is going to deliver: for every `read` to come the
bytes that are available at that moment; an empty entry is a `read` that
returns 0 or -1, and after the last entry every `read` does. -/
abbrev Fd := List Str

/-- The call `read(fd, buf, count)`: the bytes delivered (none when the call
returns 0 or -1) and what the descriptor delivers afterwards.  Available
bytes beyond `count` stay in the descriptor for the next `read`. -/
def read (fd : Fd) (count : Nat) : Str × Fd :=
  match fd with
  | [] => ([], [])
  | c :: rest => if c.length ≤ count then (c, rest) else (c.take count, c.drop count :: rest)

/-- The bytes a descriptor still holds. -/
def avail (fd : Fd) : Nat := fd.flatten.length

/-- Memory after `data` has been written to the cells from `off` on. -/
def store (buffer : Nat → Char) (off : Nat) (data : Str) : Nat → Char :=
  fun i => if off ≤ i ∧ i < off + data.length then data.getD (i - off) NUL else buffer i

/-- The contents of the `n` cells from `off` on. -/
def cells (buffer : Nat → Char) (off n : Nat) : Str := (List.range' off n).map buffer

/-- The string that a `char*` to cell `off` points to: the bytes up to the
first 0, within the `bound` cells of the allocation. -/
def cstr (buffer : Nat → Char) (off bound : Nat) : Str :=
  (cells buffer off (bound - off)).takeWhile (fun c => c != NUL)

/-- The call `memchr(buffer + line, '\n', n)`: the first cell among the `n`
cells from `line` on that holds a newline. -/
def memchr (buffer : Nat → Char) : Nat → Nat → Option Nat
  | _, 0 => none
  | line, n + 1 => if buffer line = '\n' then some line else memchr buffer (line + 1) n

/-- The static variables of `readlines`.  `buffer` is the memory that the
pointer `buffer` leads to, cell by cell (`buffersize + 1` cells are
allocated); `leftover` is an offset into it. -/
structure Statics where
  buffersize : Nat
  leftover : Nat
  leftoverlen : Nat
  buffer : Nat → Char

/-- The statics on the first call, after the `malloc`: the cells hold
whatever `junk` was in the memory. -/
def readlines_init (junk : Nat → Char) : Statics :=
  { buffersize := 4095, leftover := 0, leftoverlen := 0, buffer := junk }

/-- The bytes kept for the next call: `leftoverlen` bytes from `leftover` on. -/
def retained (s : Statics) : Str := cells s.buffer s.leftover s.leftoverlen

/-- The loop `while(length == buffersize || buffersize >= MAX_BUFFER)` (lines
127-136), from given values of `buffersize`, `length`, the memory and the
descriptor: their values after the loop, or `none` when the fuel does not
suffice.  `realloc` keeps the contents of the cells. -/
def readlines_grow :
    Nat → Nat → Nat → (Nat → Char) → Fd → Option (Nat × Nat × (Nat → Char) × Fd)
  | 0, _, _, _, _ => none
  | fuel + 1, buffersize, length, buffer, fd =>
    if length = buffersize ∨ buffersize ≥ MAX_BUFFER then
      let oldsize := buffersize
      let buffersize1 := buffersize + 4096
      let r := read fd (buffersize1 - oldsize)
      if r.1.length ≤ 0 then some (buffersize1, length, buffer, r.2)
      else readlines_grow fuel buffersize1 (length + r.1.length) (store buffer oldsize r.1) r.2
    else some (buffersize, length, buffer, fd)

/-- The loop that breaks the input into lines (lines 141-155), from given
values of `line` (as an offset into the buffer), the line buffer filled so
far (`nlines` is its length) and the memory: the line buffer, `leftover`,
`leftoverlen` and the memory after the loop, or `none` when the fuel does not
suffice.  `leftover` and `leftoverlen` are 0 when the loop is left by its
last `break`. -/
def readlines_split (length : Nat) :
    Nat → Nat → List Nat → (Nat → Char) → Option (List Nat × Nat × Nat × (Nat → Char))
  | 0, _, _, _ => none
  | fuel + 1, line, linebuffer, buffer =>
    match memchr buffer line (length - line) with
    | none => some (linebuffer, line, length - line, buffer)
    | some nextline =>
      if linebuffer.length = MAX_LINES - 1 then some (linebuffer, line, length - line, buffer)
      else
        let buffer1 := store buffer nextline [ NUL]
        let linebuffer1 := linebuffer ++ [line]
        let line1 := nextline + 1
        if line1 = length then some (linebuffer1, 0, 0, buffer1)
        else readlines_split length fuel line1 linebuffer1 buffer1

/-- Lines 117-136 of `readlines`: the left-over bytes are moved to the start
of the buffer, the descriptor is read, and the buffer grows while the loop
condition holds.  The result is `buffersize`, `length`, the memory and the
descriptor at line 137.  (`memcpy` copies in ascending order; the destination
lies below the source, so the cells `0 .. leftoverlen - 1` receive the former
contents of the cells from `leftover` on.) -/
def readlines_fill (s : Statics) (fd : Fd) : Option (Nat × Nat × (Nat → Char) × Fd) :=
  let buffer0 : Nat → Char :=
    if s.leftover ≠ 0 then store s.buffer 0 (cells s.buffer s.leftover s.leftoverlen)
    else s.buffer
  let r := read fd (s.buffersize - s.leftoverlen)
  let buffer1 := store buffer0 s.leftoverlen r.1
  let length := r.1.length + s.leftoverlen
  if length ≤ 0 then some (s.buffersize, 0, buffer1, r.2)
  else readlines_grow (avail r.2 + 1) s.buffersize length buffer1 r.2

/-- The function `readlines(fd, &lines)` (lines 105-158): the line buffer it
returns (offsets of the lines in the buffer; `nlines` is its length), the
statics and the descriptor after the call. -/
def readlines (s : Statics) (fd : Fd) : Option (List Nat × Statics × Fd) :=
  match readlines_fill s fd with
  | none => none
  | some (buffersize, length, buffer, fd1) =>
    if length ≤ 0 then
      some ([], { buffersize := buffersize, leftover := 0, leftoverlen := 0, buffer := buffer },
        fd1)
    else
      match readlines_split length MAX_LINES 0 [] (store buffer length [ NUL]) with
      | none => none
      | some (linebuffer, leftover, leftoverlen, buffer1) =>
        some (linebuffer,
          { buffersize := buffersize, leftover := leftover, leftoverlen := leftoverlen,
            buffer := buffer1 },
          fd1)

/-- The lines a call hands to its caller: the strings that the pointers of
the line buffer lead to when the call returns. -/
def readlines_lines (r : List Nat × Statics × Fd) : List Str :=
  r.1.map (fun off => cstr r.2.1.buffer off (r.2.1.buffersize + 1))

/-- A number of successive calls of `readlines` on one descriptor: all the
lines handed to the caller, in order, and the statics and the descriptor
after the last call. -/
def readlines_run : Nat → Statics → Fd → Option (List Str × Statics × Fd)
  | 0, s, fd => some ([], s, fd)
  | k + 1, s, fd =>
    match readlines s fd with
    | none => none
    | some r =>
      match readlines_run k r.2.1 r.2.2 with
      | none => none
      | some q => some (readlines_lines r ++ q.1, q.2)

/-- The statics between two calls, for data without a 0 byte: the bytes kept
for the next call lie within the buffer and none of them is 0. -/
def Statics.ok (s : Statics) : Prop :=
  s.leftover + s.leftoverlen ≤ s.buffersize ∧ NUL ∉ retained s

/-- The memory after the left-over bytes have been moved to the start of the
buffer and the first `read` of a call has stored its bytes behind them. -/
def readlines_buffer1 (s : Statics) (fd : Fd) : Nat → Char :=
  store
    (if s.leftover ≠ 0 then store s.buffer 0 (cells s.buffer s.leftover s.leftoverlen)
     else s.buffer)
    s.leftoverlen (read fd (s.buffersize - s.leftoverlen)).1

/-! ## Handlers and device pointers of `readcmd` -/

/-- The handler that the verb of a command installs together with the
command: `cmd_bind`, `cmd_unbind`, `cmd_rebind`, `cmd_ledrgb` for `bind`,
`unbind`, `rebind`, `rgb`, and the null handler for every other command. -/
def handlerOf : cmd → Option cmdhandler
  | cmd.BIND => some cmdhandler.cmd_bind
  | cmd.UNBIND => some cmdhandler.cmd_unbind
  | cmd.REBIND => some cmdhandler.cmd_rebind
  | cmd.RGB => some cmdhandler.cmd_ledrgb
  | _ => none

/-- The commands with a per-key handler. -/
def keyCommands : List cmd := [cmd.BIND, cmd.UNBIND, cmd.REBIND, cmd.RGB]

/-- The handler of a per-key handler call `handler(mode, key, right)`; `none`
for any other call. -/
def Event.handlerArg : Event → Option (Option cmdhandler)
  | Event.call handler _ _ _ => some handler
  | _ => none

/-- The device pointer of a call of `hwloadprofile`, `hwsaveprofile` or
`updateleds`; `none` for any other call. -/
def Event.deviceArg : Event → Option (Option Nat)
  | Event.hwloadprofile kb => some kb
  | Event.hwsaveprofile kb => some kb
  | Event.updateleds kb => some kb
  | _ => none

/-- The device pointer of a line with respect to the device table `d`: the
handles of the table are those of `d`, a line with a profile has a plugged-in
device or the null device, and a line without a profile has no mode. -/
def State.target (d : Daemon) (st : State) : Prop :=
  (∀ i, live st.daemon i = live d i) ∧
    (st.profile.isSome = true → ∀ i, st.kb = some i → live d i = true) ∧
    (st.profile = none → st.mode = none)

/-- The verbs that install no handler: those with the null handler of their
own and those that reset the command. -/
def handlerlessVerbs : List Str :=
  ["device".toList, "mode".toList, "name".toList, "profilename".toList, "macro".toList,
   "switch".toList, "hwload".toList, "hwsave".toList, "erase".toList, "eraseprofile".toList]

/-! ## Properties -/

/-! ### Scanning -/

/-- A successful `%s` consumes at least one character and no more than the
line holds. -/
theorem sscanf_word_consumes {line word : Str} {wordlen : Nat}
    (h : sscanf_word line = some (word, wordlen)) :
    1 ≤ wordlen ∧ wordlen ≤ line.length := by
  unfold sscanf_word at h
  generalize hr : line.dropWhile isspace = rest at h
  cases rest with
  | nil => simp at h
  | cons c t =>
    simp only [Option.some.injEq, Prod.mk.injEq] at h
    obtain ⟨hw, hn⟩ := h
    have hc : isspace c = false := by
      have := List.head_dropWhile_not isspace line (by rw [hr]; simp)
      simpa [hr] using this
    have hsub : (c :: t).length ≤ line.length := by
      rw [← hr]; exact (List.dropWhile_sublist _).length_le
    have hw1 : 1 ≤ (List.takeWhile (fun c => !isspace c) (c :: t)).length := by
      simp [List.takeWhile_cons, hc]
    have hw2 : (List.takeWhile (fun c => !isspace c) (c :: t)).length ≤ (c :: t).length :=
      (List.takeWhile_sublist _).length_le
    omega

/-- A successful key-name scan reads between one and ten characters. -/
theorem sscanf_keyname_field {s keyname : Str} {field : Nat}
    (h : sscanf_keyname s = some (keyname, field)) :
    1 ≤ field ∧ field = keyname.length := by
  unfold sscanf_keyname at h
  generalize hr : (s.takeWhile (fun c => c != ':' && c != ',')).take 10 = r at h
  cases r with
  | nil => simp at h
  | cons c t =>
    simp only [Option.some.injEq, Prod.mk.injEq] at h
    obtain ⟨h1, h2⟩ := h
    subst h1
    subst h2
    simp

/-- Where the two readings of a bare `0x` part: after `rgb` the word
`0xabcd:ff0000` is no broadcast colour when the first conversion fails, and
is one when it stores 0. -/
theorem sscanf_rgb3_bare_prefix :
    sscanf_rgb3 "0xabcd:ff0000".toList = false ∧
      sscanf_rgb3_lax "0xabcd:ff0000".toList = true := by
  decide

/-- A conversion of `scanNum` that succeeds is the same under `scanNumLax`. -/
theorem scanNumLax_of_ok (base width : Nat) (s : Str) (neg : Bool) (mag : Nat) (rest : Str)
    (h : scanNum base width s = Conv.ok neg mag rest) :
    scanNumLax base width s = Conv.ok neg mag rest := by
  unfold scanNum at h
  unfold scanNumLax
  cases hs : s.dropWhile isspace with
  | nil =>
    rw [hs] at h
    cases h
  | cons c t =>
    rw [hs] at h
    dsimp only at h ⊢
    generalize scanDigits base _ 0 0 _ = r at h ⊢
    obtain ⟨v, n, rest1⟩ := r
    cases n with
    | zero => cases h
    | succ k => exact h

/-- A word that is a broadcast colour under `sscanf_rgb3` is one under
`sscanf_rgb3_lax`. -/
theorem sscanf_rgb3_lax_of_rgb3 (word : Str) (h : sscanf_rgb3 word = true) :
    sscanf_rgb3_lax word = true := by
  unfold sscanf_rgb3 at h
  unfold sscanf_rgb3_lax
  cases h1 : scanNum 16 2 word with
  | eof => rw [h1] at h; cases h
  | fail => rw [h1] at h; cases h
  | ok n1 m1 r1 =>
    rw [h1] at h
    dsimp only at h
    rw [scanNumLax_of_ok _ _ _ _ _ _ h1]
    dsimp only
    cases h2 : scanNum 16 2 r1 with
    | eof => rw [h2] at h; cases h
    | fail => rw [h2] at h; cases h
    | ok n2 m2 r2 =>
      rw [h2] at h
      dsimp only at h
      rw [scanNumLax_of_ok _ _ _ _ _ _ h2]
      dsimp only
      cases h3 : scanNum 16 2 r2 with
      | eof => rw [h3] at h; cases h
      | fail => rw [h3] at h; cases h
      | ok n3 m3 r3 => rw [scanNumLax_of_ok _ _ _ _ _ _ h3]

/-- A word that is no broadcast colour under `sscanf_rgb3_lax` is none under
`sscanf_rgb3`. -/
theorem sscanf_rgb3_of_lax_false (word : Str) (h : sscanf_rgb3_lax word = false) :
    sscanf_rgb3 word = false := by
  cases h1 : sscanf_rgb3 word with
  | false => rfl
  | true =>
    rw [sscanf_rgb3_lax_of_rgb3 word h1] at h
    cases h

/-! ### Termination of the loops -/

/-- The selector loop finishes when the fuel covers the characters left. -/
theorem keyloop_total (env : Env) (handler : Option cmdhandler) (mode : ModeRef) (word : Str)
    (left : Nat) (right : Str) :
    ∀ (fuel position : Nat), left ≤ position + fuel →
      ∃ evs, keyloop env handler mode word left right fuel position = some evs := by
  intro fuel
  induction fuel with
  | zero =>
    intro position h
    have : ¬ position < left := by omega
    exact ⟨[], by simp [keyloop, this]⟩
  | succ n ih =>
    intro position h
    unfold keyloop
    by_cases hp : position < left
    · simp only [hp, if_true]
      cases hs : sscanf_keyname (word.drop position) with
      | none => exact ⟨[], rfl⟩
      | some kf =>
        obtain ⟨keyname, field⟩ := kf
        have hf := (sscanf_keyname_field hs).1
        simp only []
        have hfuel : left ≤
            (if word.get? (position + field) = some ',' then position + field + 1
              else position + field) + n := by
          split <;> omega
        obtain ⟨evs, hevs⟩ := ih _ hfuel
        exact ⟨_, by rw [hevs]; rfl⟩
    · exact ⟨[], by simp [hp]⟩

/-! ### What the loops can emit -/

/-- Every call of a pass over all keys is a handler call for a key below
`N_KEYS`, with the given mode and string. -/
theorem mem_allKeys {env : Env} {handler : Option cmdhandler} {mode : ModeRef} {right : Str}
    {e : Event} (h : e ∈ allKeys env handler mode right) :
    ∃ k, k < env.N_KEYS ∧ e = Event.call handler mode k right := by
  unfold allKeys at h
  rw [List.mem_map] at h
  obtain ⟨k, hk, rfl⟩ := h
  exact ⟨k, List.mem_range.mp hk, rfl⟩

/-- The key-map look-up returns an index below `N_KEYS` that carries the name,
and no smaller index does. -/
theorem keymapFind_some {env : Env} {keyname : Str} {i : Nat}
    (h : keymapFind env keyname = some i) :
    i < env.N_KEYS ∧ env.keymap i = some keyname := by
  unfold keymapFind at h
  have h1 := List.find?_some h
  have h2 := List.mem_of_find?_eq_some h
  exact ⟨List.mem_range.mp h2, by simpa using h1⟩

/-- Every call made for one selector is a handler call for a key below
`N_KEYS`, with the given mode and string. -/
theorem mem_keyEvents {env : Env} {handler : Option cmdhandler} {mode : ModeRef} {right : Str}
    {position : Nat} {keyname : Str} {e : Event}
    (h : e ∈ keyEvents env handler mode right position keyname) :
    ∃ k, k < env.N_KEYS ∧ e = Event.call handler mode k right := by
  unfold keyEvents at h
  split at h
  · exact mem_allKeys h
  · simp only [] at h
    split at h
    · rename_i hr
      simp only [List.mem_singleton] at h
      exact ⟨_, by omega, h⟩
    · split at h
      · rename_i hr
        simp only [List.mem_singleton] at h
        exact ⟨_, by omega, h⟩
      · split at h
        · rename_i i hi
          simp only [List.mem_singleton] at h
          exact ⟨i, (keymapFind_some hi).1, h⟩
        · simp at h

/-- Every call made by the selector loop is a handler call for a key below
`N_KEYS`, with the given mode and string. -/
theorem mem_keyloop {env : Env} {handler : Option cmdhandler} {mode : ModeRef} {word : Str}
    {left : Nat} {right : Str} :
    ∀ (fuel position : Nat) (evs : List Event),
      keyloop env handler mode word left right fuel position = some evs →
      ∀ e ∈ evs, ∃ k, k < env.N_KEYS ∧ e = Event.call handler mode k right := by
  intro fuel
  induction fuel with
  | zero =>
    intro position evs h e he
    unfold keyloop at h
    split at h
    · simp at h
    · simp only [Option.some.injEq] at h
      subst h
      simp at he
  | succ n ih =>
    intro position evs h e he
    unfold keyloop at h
    split at h
    · cases hs : sscanf_keyname (word.drop position) with
      | none =>
        rw [hs] at h
        simp only [Option.some.injEq] at h
        subst h
        simp at he
      | some kf =>
        obtain ⟨keyname, field⟩ := kf
        rw [hs] at h
        simp only [Option.map_eq_some'] at h
        obtain ⟨evs1, h1, rfl⟩ := h
        rcases List.mem_append.mp he with he1 | he2
        · exact mem_keyEvents he1
        · exact ih _ _ h1 e he2
    · simp only [Option.some.injEq] at h
      subst h
      simp at he

/-! ### Frame properties of one word -/

/-- The colon-parameter part always finishes; it only adds handler calls for
keys below `N_KEYS` with the string after the colon, or the one `cmd_macro`
call. -/
theorem readcmd_colon_frame (env : Env) (st : State) (mode : ModeRef) (word : Str) :
    ∃ evs, readcmd_colon env st mode word = some (st.emit evs) ∧
      ∀ e ∈ evs, (∃ k, k < env.N_KEYS ∧ e = Event.call st.handler mode k (rightOf word (sscanf_left word).toNat)) ∨
        (st.command = cmd.MACRO ∧ e = Event.cmd_macro_call mode (word.take (sscanf_left word).toNat) (rightOf word (sscanf_left word).toNat)) := by
  unfold readcmd_colon
  simp only []
  by_cases hl : sscanf_left word ≤ 0
  · exact ⟨[], by simp [hl, State.emit], by simp⟩
  · simp only [hl, if_false]
    by_cases hm : st.command = cmd.MACRO
    · simp only [hm, if_true]
      exact ⟨_, rfl, by simp⟩
    · simp only [hm, if_false]
      obtain ⟨evs, hevs⟩ := keyloop_total env st.handler mode word (sscanf_left word).toNat
        (rightOf word (sscanf_left word).toNat) ((sscanf_left word).toNat + 1) 0 (by omega)
      refine ⟨evs, by rw [hevs]; rfl, ?_⟩
      intro e he
      exact Or.inl (mem_keyloop _ _ _ hevs e he)

/-- The colon-parameter part keeps the flags and requests no LED refresh. -/
theorem readcmd_colon_frame2 (env : Env) (st : State) (mode : ModeRef) (word : Str) :
    ∃ st1 evs, readcmd_colon env st mode word = some st1 ∧
      st1.rgbchange = st.rgbchange ∧ st1.command = st.command ∧ st1.handler = st.handler ∧
      st1.trace = st.trace ++ evs ∧ ∀ e ∈ evs, ∀ k, e ≠ Event.updateleds k := by
  obtain ⟨evs, h, hevs⟩ := readcmd_colon_frame env st mode word
  refine ⟨_, evs, h, rfl, rfl, rfl, rfl, ?_⟩
  intro e he k
  rcases hevs e he with ⟨k1, -, rfl⟩ | ⟨-, rfl⟩ <;> simp

/-- The word after `device` keeps the flags and requests no LED refresh. -/
theorem readcmd_device_frame (st : State) (word : Str) :
    ∃ evs, (readcmd_device st word).rgbchange = st.rgbchange ∧
      (readcmd_device st word).command = st.command ∧
      (readcmd_device st word).handler = st.handler ∧
      (readcmd_device st word).trace = st.trace ++ evs ∧ ∀ e ∈ evs, ∀ k, e ≠ Event.updateleds k := by
  unfold readcmd_device
  split
  · split
    · exact ⟨[], rfl, rfl, rfl, by simp, by simp⟩
    · exact ⟨_, rfl, rfl, rfl, rfl, by simp⟩
  · exact ⟨[], rfl, rfl, rfl, by simp, by simp⟩

/-- The word after `mode` keeps the flags and requests no LED refresh. -/
theorem readcmd_mode_frame (st : State) (word : Str) :
    ∃ evs, (readcmd_mode st word).rgbchange = st.rgbchange ∧
      (readcmd_mode st word).command = st.command ∧
      (readcmd_mode st word).handler = st.handler ∧
      (readcmd_mode st word).trace = st.trace ++ evs ∧ ∀ e ∈ evs, ∀ k, e ≠ Event.updateleds k := by
  unfold readcmd_mode
  split
  · split
    · exact ⟨_, rfl, rfl, rfl, rfl, by simp⟩
    · exact ⟨[], rfl, rfl, rfl, by simp, by simp⟩
  · exact ⟨[], rfl, rfl, rfl, by simp, by simp⟩

/-- A word that is no verb is always processed to the end; it keeps
`rgbchange`, the active command and the handler, and requests no LED
refresh. -/
theorem readcmd_param_frame (env : Env) (st : State) (word : Str) :
    ∃ st1 evs, readcmd_param env st word = some st1 ∧
      st1.rgbchange = st.rgbchange ∧ st1.command = st.command ∧ st1.handler = st.handler ∧
      st1.trace = st.trace ++ evs ∧ ∀ e ∈ evs, ∀ k, e ≠ Event.updateleds k := by
  have hnil : ∃ st1 evs, some st = some st1 ∧
      st1.rgbchange = st.rgbchange ∧ st1.command = st.command ∧ st1.handler = st.handler ∧
      st1.trace = st.trace ++ evs ∧ ∀ e ∈ evs, ∀ k, e ≠ Event.updateleds k :=
    ⟨st, [], rfl, rfl, rfl, rfl, by simp, by simp⟩
  have hemit : ∀ evs : List Event, (∀ e ∈ evs, ∀ k, e ≠ Event.updateleds k) →
      ∃ st1 evs1, some (st.emit evs) = some st1 ∧
      st1.rgbchange = st.rgbchange ∧ st1.command = st.command ∧ st1.handler = st.handler ∧
      st1.trace = st.trace ++ evs1 ∧ ∀ e ∈ evs1, ∀ k, e ≠ Event.updateleds k :=
    fun evs h => ⟨_, evs, rfl, rfl, rfl, rfl, rfl, h⟩
  unfold readcmd_param
  by_cases h1 : st.command = cmd.NONE
  · rw [if_pos h1]; exact hnil
  rw [if_neg h1]
  by_cases h2 : st.command = cmd.DEVICE
  · rw [if_pos h2]
    obtain ⟨evs, a, b, c, d, e⟩ := readcmd_device_frame st word
    exact ⟨_, evs, rfl, a, b, c, d, e⟩
  rw [if_neg h2]
  cases hm : st.mode with
  | none => exact hnil
  | some mode =>
    simp only []
    by_cases h3 : st.command = cmd.MODE
    · rw [if_pos h3]
      obtain ⟨evs, a, b, c, d, e⟩ := readcmd_mode_frame st word
      exact ⟨_, evs, rfl, a, b, c, d, e⟩
    rw [if_neg h3]
    by_cases h4 : st.command = cmd.NAME
    · rw [if_pos h4]; exact hemit _ (by simp)
    rw [if_neg h4]
    by_cases h5 : st.command = cmd.PROFILENAME
    · rw [if_pos h5]; exact hemit _ (by simp)
    rw [if_neg h5]
    by_cases h6 : st.command = cmd.RGB
    · rw [if_pos h6]
      by_cases h7 : word = "on".toList
      · rw [if_pos h7]; exact hemit _ (by simp)
      rw [if_neg h7]
      by_cases h8 : word = "off".toList
      · rw [if_pos h8]; exact hemit _ (by simp)
      rw [if_neg h8]
      by_cases h9 : sscanf_rgb3 word = true
      · rw [if_pos h9]
        refine hemit _ ?_
        intro e he k
        obtain ⟨k1, -, rfl⟩ := mem_allKeys he
        simp
      rw [if_neg h9]
      exact readcmd_colon_frame2 env st mode word
    rw [if_neg h6]
    by_cases h10 : st.command = cmd.MACRO ∧ word = "clear".toList
    · rw [if_pos h10]; exact hemit _ (by simp)
    rw [if_neg h10]
    exact readcmd_colon_frame2 env st mode word
/-- Every word is processed to the end.  It sets `rgbchange` exactly when it
is one of `switch`, `hwload`, `erase`, `eraseprofile`, `rgb`, it only adds
calls to the trace, and none of them is an LED refresh. -/
theorem readcmd_word_frame (env : Env) (st : State) (word : Str) :
    ∃ st1 evs, readcmd_word env st word = some st1 ∧
      st1.rgbchange = (st.rgbchange || decide (word ∈ ledVerbs)) ∧
      st1.trace = st.trace ++ evs ∧ ∀ e ∈ evs, ∀ k, e ≠ Event.updateleds k := by
  unfold readcmd_word
  by_cases h1 : word = "device".toList
  · rw [if_pos h1]; subst h1
    exact ⟨_, [], rfl, by simp [ledVerbs], by simp, by simp⟩
  rw [if_neg h1]
  by_cases h2 : word = "mode".toList
  · rw [if_pos h2]; subst h2
    exact ⟨_, [], rfl, by simp [ledVerbs], by simp, by simp⟩
  rw [if_neg h2]
  by_cases h3 : word = "switch".toList
  · rw [if_pos h3]; subst h3
    exact ⟨_, [], rfl, by simp [ledVerbs], by simp, by simp⟩
  rw [if_neg h3]
  by_cases h4 : word = "hwload".toList
  · rw [if_pos h4]; subst h4
    obtain ⟨st1, evs, a, b, -, -, d, e⟩ := readcmd_param_frame env
      { st with
        command := cmd.NONE, handler := none,
        trace := st.trace ++ (if st.profile.isSome then [Event.hwloadprofile st.kb] else []),
        rgbchange := true }
      "hwload".toList
    refine ⟨st1, (if st.profile.isSome then [Event.hwloadprofile st.kb] else []) ++ evs, a, ?_, ?_, ?_⟩
    · simp [b, ledVerbs]
    · simp [d]
    · intro e1 he1 k
      rcases List.mem_append.mp he1 with h | h
      · split at h <;> simp at h
        subst h; simp
      · exact e e1 h k
  rw [if_neg h4]
  by_cases h5 : word = "hwsave".toList
  · rw [if_pos h5]; subst h5
    obtain ⟨st1, evs, a, b, -, -, d, e⟩ := readcmd_param_frame env
      { st with
        command := cmd.NONE, handler := none,
        trace := st.trace ++ (if st.profile.isSome then [Event.hwsaveprofile st.kb] else []) }
      "hwsave".toList
    refine ⟨st1, (if st.profile.isSome then [Event.hwsaveprofile st.kb] else []) ++ evs, a, ?_, ?_, ?_⟩
    · simp [b, ledVerbs]
    · simp [d]
    · intro e1 he1 k
      rcases List.mem_append.mp he1 with h | h
      · split at h <;> simp at h
        subst h; simp
      · exact e e1 h k
  rw [if_neg h5]
  by_cases h6 : word = "erase".toList
  · rw [if_pos h6]; subst h6
    cases hm : st.mode with
    | none => exact ⟨_, [], rfl, by simp [ledVerbs], by simp, by simp⟩
    | some m => exact ⟨_, [Event.erasemode m], rfl, by simp [ledVerbs], by simp, by simp⟩
  rw [if_neg h6]
  by_cases h7 : word = "eraseprofile".toList
  · rw [if_pos h7]; subst h7
    cases hp : st.profile with
    | none => exact ⟨_, [], rfl, by simp [ledVerbs], by simp, by simp⟩
    | some p =>
      exact ⟨_, [Event.eraseprofile p, Event.getusbmode 0 (some p)], rfl, by simp [ledVerbs],
        by simp, by simp⟩
  rw [if_neg h7]
  by_cases h8 : word = "name".toList
  · rw [if_pos h8]; subst h8
    cases hm : st.mode with
    | none => exact ⟨_, [], rfl, by simp [ledVerbs], by simp, by simp⟩
    | some m => exact ⟨_, [Event.updatemod_mode m], rfl, by simp [ledVerbs], by simp, by simp⟩
  rw [if_neg h8]
  by_cases h9 : word = "profilename".toList
  · rw [if_pos h9]; subst h9
    cases hp : st.profile with
    | none => exact ⟨_, [], rfl, by simp [ledVerbs], by simp, by simp⟩
    | some p => exact ⟨_, [Event.updatemod_profile p], rfl, by simp [ledVerbs], by simp, by simp⟩
  rw [if_neg h9]
  by_cases h10 : word = "bind".toList
  · rw [if_pos h10]; subst h10
    exact ⟨_, [], rfl, by simp [ledVerbs], by simp, by simp⟩
  rw [if_neg h10]
  by_cases h11 : word = "unbind".toList
  · rw [if_pos h11]; subst h11
    exact ⟨_, [], rfl, by simp [ledVerbs], by simp, by simp⟩
  rw [if_neg h11]
  by_cases h12 : word = "rebind".toList
  · rw [if_pos h12]; subst h12
    exact ⟨_, [], rfl, by simp [ledVerbs], by simp, by simp⟩
  rw [if_neg h12]
  by_cases h13 : word = "macro".toList
  · rw [if_pos h13]; subst h13
    exact ⟨_, [], rfl, by simp [ledVerbs], by simp, by simp⟩
  rw [if_neg h13]
  by_cases h14 : word = "rgb".toList
  · rw [if_pos h14]; subst h14
    cases hm : st.mode with
    | none => exact ⟨_, [], rfl, by simp [ledVerbs], by simp, by simp⟩
    | some m => exact ⟨_, [Event.updatemod_mode m], rfl, by simp [ledVerbs], by simp, by simp⟩
  rw [if_neg h14]
  obtain ⟨st1, evs, a, b, -, -, d, e⟩ := readcmd_param_frame env st word
  refine ⟨st1, evs, a, ?_, d, e⟩
  have hn : word ∉ ledVerbs := by
    intro hmem
    simp only [ledVerbs, List.mem_cons, List.mem_singleton, List.not_mem_nil, or_false] at hmem
    rcases hmem with h | h | h | h | h <;> contradiction
  rw [b]
  simp [hn]

/-! ### The word loop -/

/-- With enough fuel the word loop is the left-to-right application of
`readcmd_word` to the words of the line. -/
theorem readcmd_loop_eq_words (env : Env) :
    ∀ (fuel : Nat) (st : State) (line : Str), line.length < fuel →
      readcmd_loop env fuel st line = readcmd_words env st (wordsOf fuel line) := by
  intro fuel
  induction fuel with
  | zero => intro st line h; omega
  | succ n ih =>
    intro st line h
    unfold readcmd_loop wordsOf
    cases hs : sscanf_word line with
    | none => simp [readcmd_words]
    | some ww =>
      obtain ⟨word, wordlen⟩ := ww
      have hc := sscanf_word_consumes hs
      have hlen : (line.drop wordlen).length < n := by
        rw [List.length_drop]; omega
      simp only [readcmd_words, List.foldlM_cons]
      cases hw : readcmd_word env st word with
      | none => simp
      | some st1 =>
        simp only [Option.some_bind, Option.bind_eq_bind]
        rw [ih st1 _ hlen]
        rfl

/-- The words read do not depend on the fuel once it exceeds the length. -/
theorem wordsOf_fuel :
    ∀ (f1 f2 : Nat) (line : Str), line.length < f1 → line.length < f2 →
      wordsOf f1 line = wordsOf f2 line := by
  intro f1
  induction f1 with
  | zero => intro f2 line h; omega
  | succ n ih =>
    intro f2 line h1 h2
    cases f2 with
    | zero => omega
    | succ m =>
      unfold wordsOf
      cases hs : sscanf_word line with
      | none => rfl
      | some ww =>
        obtain ⟨word, wordlen⟩ := ww
        have hc := sscanf_word_consumes hs
        simp only []
        rw [ih m (line.drop wordlen) (by rw [List.length_drop]; omega)
          (by rw [List.length_drop]; omega)]

/-- The function `readcmd` applies `readcmd_word` to the words of the line in
order, then makes the final test. -/
theorem readcmd_eq_words (env : Env) (d : Daemon) (kb : Nat) (line : Str) :
    readcmd env d kb line =
      (readcmd_words env (readcmd_init d kb) (words line)).map readcmd_finish := by
  unfold readcmd words
  rw [readcmd_loop_eq_words env _ _ _ (Nat.lt_succ_self _)]

/-- Unfolding of the application to a list of words. -/
theorem readcmd_words_cons (env : Env) (st : State) (w : Str) (ws : List Str) :
    readcmd_words env st (w :: ws) =
      (readcmd_word env st w).bind (fun st1 => readcmd_words env st1 ws) := by
  simp [readcmd_words, List.foldlM_cons]

/-- No word: the state stays. -/
theorem readcmd_words_nil (env : Env) (st : State) :
    readcmd_words env st [] = some st := by
  simp [readcmd_words]

/-- Every list of words is processed to the end; `rgbchange` is set exactly
when one of the words is `switch`, `hwload`, `erase`, `eraseprofile` or
`rgb`, and the words request no LED refresh. -/
theorem readcmd_words_frame (env : Env) :
    ∀ (ws : List Str) (st : State),
      ∃ st1 evs, readcmd_words env st ws = some st1 ∧
        st1.rgbchange = (st.rgbchange || ws.any (fun w => decide (w ∈ ledVerbs))) ∧
        st1.trace = st.trace ++ evs ∧ ∀ e ∈ evs, ∀ k, e ≠ Event.updateleds k := by
  intro ws
  induction ws with
  | nil =>
    intro st
    exact ⟨st, [], readcmd_words_nil env st, by simp, by simp, by simp⟩
  | cons w ws ih =>
    intro st
    obtain ⟨st1, evs1, a1, b1, c1, d1⟩ := readcmd_word_frame env st w
    obtain ⟨st2, evs2, a2, b2, c2, d2⟩ := ih st1
    refine ⟨st2, evs1 ++ evs2, ?_, ?_, ?_, ?_⟩
    · rw [readcmd_words_cons, a1]; exact a2
    · rw [b2, b1]; simp [Bool.or_assoc]
    · rw [c2, c1]; simp
    · intro e he k
      rcases List.mem_append.mp he with h | h
      · exact d1 e h k
      · exact d2 e h k

/-! ### Numeric conversions on well-formed input -/

/-- Reading a run of digits that fits in the width reads all of it. -/
theorem scanDigits_all (base : Nat) :
    ∀ (ds : Str) (w acc n : Nat), (∀ c ∈ ds, (digitVal base c).isSome = true) →
      ds.length ≤ w →
      scanDigits base w acc n ds =
        (ds.foldl (fun a c => a * base + (digitVal base c).getD 0) acc, n + ds.length, []) := by
  intro ds
  induction ds with
  | nil =>
    intro w acc n _ _
    cases w <;> simp [scanDigits]
  | cons c t ih =>
    intro w acc n hd hw
    cases w with
    | zero => simp at hw
    | succ w =>
      have hc := hd c (List.mem_cons_self _ _)
      obtain ⟨v, hv⟩ := Option.isSome_iff_exists.mp hc
      simp only [scanDigits, hv]
      rw [ih w _ _ (fun c hc => hd c (List.mem_cons_of_mem _ hc))
        (by simpa using hw)]
      simp [hv, Nat.add_assoc, Nat.add_comm 1]

/-- A digit of base 10 or 16 is below 16. -/
theorem digitVal_lt (base : Nat) (c : Char) (v : Nat) (h : digitVal base c = some v) :
    v < 16 ∧ (base ≠ 16 → v < 10) := by
  unfold digitVal at h
  split at h
  · unfold hexVal at h
    split at h
    · simp at h; omega
    · split at h
      · simp at h; omega
      · split at h
        · simp at h; omega
        · simp at h
  · unfold decVal at h
    split at h
    · simp at h; omega
    · simp at h

/-- The value of `k` decimal digits is below `10 ^ k`. -/
theorem digitsValue_dec_lt (ds : Str) : digitsValue 10 ds < 10 ^ ds.length := by
  unfold digitsValue
  have key : ∀ (l : Str) (acc : Nat),
      l.foldl (fun a c => a * 10 + (digitVal 10 c).getD 0) acc < (acc + 1) * 10 ^ l.length := by
    intro l
    induction l with
    | nil => intro acc; simp
    | cons c t ih =>
      intro acc
      simp only [List.foldl_cons, List.length_cons]
      have h1 := ih (acc * 10 + (digitVal 10 c).getD 0)
      have h2 : (digitVal 10 c).getD 0 < 10 := by
        cases h : digitVal 10 c with
        | none => simp
        | some v => simpa using (digitVal_lt 10 c v h).2 (by decide)
      have h3 : (acc * 10 + (digitVal 10 c).getD 0 + 1) * 10 ^ t.length ≤
          (acc + 1) * 10 ^ (t.length + 1) := by
        rw [pow_succ]
        have : acc * 10 + (digitVal 10 c).getD 0 + 1 ≤ (acc + 1) * 10 := by omega
        calc (acc * 10 + (digitVal 10 c).getD 0 + 1) * 10 ^ t.length
            ≤ ((acc + 1) * 10) * 10 ^ t.length := Nat.mul_le_mul_right _ this
          _ = (acc + 1) * (10 ^ t.length * 10) := by ring
      omega
  simpa using key ds 0

/-- The value of `k` hexadecimal digits is below `16 ^ k`. -/
theorem digitsValue_hex_lt (ds : Str) : digitsValue 16 ds < 16 ^ ds.length := by
  unfold digitsValue
  have key : ∀ (l : Str) (acc : Nat),
      l.foldl (fun a c => a * 16 + (digitVal 16 c).getD 0) acc < (acc + 1) * 16 ^ l.length := by
    intro l
    induction l with
    | nil => intro acc; simp
    | cons c t ih =>
      intro acc
      simp only [List.foldl_cons, List.length_cons]
      have h1 := ih (acc * 16 + (digitVal 16 c).getD 0)
      have h2 : (digitVal 16 c).getD 0 < 16 := by
        cases h : digitVal 16 c with
        | none => simp
        | some v => simpa using (digitVal_lt 16 c v h).1
      have h3 : (acc * 16 + (digitVal 16 c).getD 0 + 1) * 16 ^ t.length ≤
          (acc + 1) * 16 ^ (t.length + 1) := by
        rw [pow_succ]
        have : acc * 16 + (digitVal 16 c).getD 0 + 1 ≤ (acc + 1) * 16 := by omega
        calc (acc * 16 + (digitVal 16 c).getD 0 + 1) * 16 ^ t.length
            ≤ ((acc + 1) * 16) * 16 ^ t.length := Nat.mul_le_mul_right _ this
          _ = (acc + 1) * (16 ^ t.length * 16) := by ring
      omega
  simpa using key ds 0

/-- Characters with different codes are different. -/
theorem char_ne_of_toNat {c d : Char} (h : c.toNat ≠ d.toNat) : c ≠ d :=
  fun e => h (e ▸ rfl)

/-- The code of a hexadecimal digit lies in one of the three digit ranges. -/
theorem hexVal_range {c : Char} (h : (hexVal c).isSome = true) :
    (48 ≤ c.toNat ∧ c.toNat ≤ 57) ∨ (97 ≤ c.toNat ∧ c.toNat ≤ 102) ∨
      (65 ≤ c.toNat ∧ c.toNat ≤ 70) := by
  unfold hexVal at h
  split at h
  · left; assumption
  · split at h
    · right; left; assumption
    · split at h
      · right; right; assumption
      · simp at h

/-- A decimal digit is a hexadecimal digit. -/
theorem hexVal_of_decVal {c : Char} (h : (decVal c).isSome = true) :
    (hexVal c).isSome = true := by
  unfold decVal at h
  split at h
  · rename_i hr
    simp [hexVal, hr]
  · simp at h

/-- A digit is none of the characters that structure a word. -/
theorem digit_char {c : Char} (h : (hexVal c).isSome = true) :
    isspace c = false ∧ c ≠ '+' ∧ c ≠ '-' ∧ c ≠ 'x' ∧ c ≠ 'X' ∧ c ≠ ':' ∧ c ≠ ',' ∧
      c ≠ '#' := by
  have hr := hexVal_range h
  have ne : ∀ d : Char, ¬ ((48 ≤ d.toNat ∧ d.toNat ≤ 57) ∨ (97 ≤ d.toNat ∧ d.toNat ≤ 102) ∨
      (65 ≤ d.toNat ∧ d.toNat ≤ 70)) → c ≠ d := by
    intro d hd e
    subst e
    exact hd hr
  refine ⟨?_, ne _ (by decide), ne _ (by decide), ne _ (by decide), ne _ (by decide),
    ne _ (by decide), ne _ (by decide), ne _ (by decide)⟩
  have h1 := ne ' ' (by decide)
  have h2 := ne (Char.ofNat 9) (by decide)
  have h3 := ne (Char.ofNat 10) (by decide)
  have h4 := ne (Char.ofNat 11) (by decide)
  have h5 := ne (Char.ofNat 12) (by decide)
  have h6 := ne (Char.ofNat 13) (by decide)
  simp [isspace, h1, h2, h3, h4, h5, h6]

/-- `%d` or `%u` on a non-empty run of decimal digits reads the whole run. -/
theorem scanNum_dec_digits {ds : Str} (hne : ds ≠ [])
    (hd : ∀ c ∈ ds, (decVal c).isSome = true) :
    scanNum 10 ds.length ds = Conv.ok false (digitsValue 10 ds) [] := by
  cases ds with
  | nil => exact absurd rfl hne
  | cons c t =>
    have hc := digit_char (hexVal_of_decVal (hd c (List.mem_cons_self _ _)))
    obtain ⟨hsp, hplus, hminus, -⟩ := hc
    have hdv : ∀ x ∈ c :: t, (digitVal 10 x).isSome = true := by
      intro x hx; simpa [digitVal] using hd x hx
    have e1 : (c == '-') = false := by simp [hminus]
    have e2 : (c == '+') = false := by simp [hplus]
    have e3 : decide ((10 : Nat) = 16) = false := by decide
    unfold scanNum
    simp only [List.dropWhile_cons, hsp, Bool.false_eq_true, if_false, e1, e2, e3, Bool.or_self,
      Bool.false_and]
    rw [scanDigits_all 10 (c :: t) _ 0 0 hdv (le_refl _)]
    simp [digitsValue]

/-- A run of hexadecimal digits does not start with `0x`. -/
theorem hexPrefix_digits {ds : Str} (hd : ∀ c ∈ ds, (hexVal c).isSome = true) :
    hexPrefix ds = false := by
  unfold hexPrefix
  split
  · rename_i a b t
    have hb := digit_char (hd b (by simp))
    obtain ⟨-, -, -, hx, hX, -⟩ := hb
    simp [hx, hX]
  · rfl

/-- `%x` on a non-empty run of hexadecimal digits reads the whole run. -/
theorem scanNum_hex_digits {ds : Str} (hne : ds ≠ [])
    (hd : ∀ c ∈ ds, (hexVal c).isSome = true) :
    scanNum 16 ds.length ds = Conv.ok false (digitsValue 16 ds) [] := by
  cases ds with
  | nil => exact absurd rfl hne
  | cons c t =>
    have hc := digit_char (hd c (List.mem_cons_self _ _))
    obtain ⟨hsp, hplus, hminus, -⟩ := hc
    have hdv : ∀ x ∈ c :: t, (digitVal 16 x).isSome = true := by
      intro x hx; simpa [digitVal] using hd x hx
    have e1 : (c == '-') = false := by simp [hminus]
    have e2 : (c == '+') = false := by simp [hplus]
    have e3 := hexPrefix_digits hd
    unfold scanNum
    simp only [List.dropWhile_cons, hsp, Bool.false_eq_true, if_false, e1, e2, e3, Bool.or_self,
      Bool.false_and, Bool.and_false]
    rw [scanDigits_all 16 (c :: t) _ 0 0 hdv (le_refl _)]
    simp [digitsValue]

/-- `%d` on input that starts with a character that is neither white space,
a sign nor a digit is a matching failure. -/
theorem scanNum_dec_fail {c : Char} {t : Str} (w : Nat) (hsp : isspace c = false)
    (hplus : c ≠ '+') (hminus : c ≠ '-') (hdig : decVal c = none) :
    scanNum 10 w (c :: t) = Conv.fail := by
  have e1 : (c == '-') = false := by simp [hminus]
  have e2 : (c == '+') = false := by simp [hplus]
  have e3 : decide ((10 : Nat) = 16) = false := by decide
  unfold scanNum
  simp only [List.dropWhile_cons, hsp, Bool.false_eq_true, if_false, e1, e2, e3, Bool.or_self,
    Bool.false_and]
  cases w <;> simp [scanDigits, digitVal, hdig]

/-! ### The selector scan on well-formed selectors -/

/-- No key name of a sane key map starts with `#`. -/
theorem keymapFind_hash {env : Env} (hs : env.sane) (t : Str) :
    keymapFind env ('#' :: t) = none := by
  cases h : keymapFind env ('#' :: t) with
  | none => rfl
  | some i =>
    obtain ⟨hi, hn⟩ := keymapFind_some h
    exact absurd (by simp) (hs.2 i hi _ hn)

/-- A `%d` result of at most nine digits is stored unchanged. -/
theorem valD_small (v : Nat) (hv : v < 1000000000) : valD false v = (v : Int) := by
  simp only [valD, toInt32, Bool.false_eq_true, if_false]
  omega

/-- A `%x` result of at most eight digits is stored modulo 2^32. -/
theorem valU_small (v : Nat) (hv : v < 4294967296) : valU false v = toInt32 (v : Int) := by
  have h : ¬ 18446744073709551616 ≤ v := by omega
  simp only [valU, h, if_false, Bool.false_eq_true]

/-- The scan `#%d` on `#` and at most nine decimal digits stores their value. -/
theorem sscanf_hashd_dec {ds : Str} (hne : ds ≠ [])
    (hd : ∀ c ∈ ds, (decVal c).isSome = true) (hl : ds.length ≤ 9) :
    sscanf_hashd ('#' :: ds) = (1, some (digitsValue 10 ds : Int)) := by
  have hv : digitsValue 10 ds < 1000000000 :=
    lt_of_lt_of_le (digitsValue_dec_lt ds) (by
      calc 10 ^ ds.length ≤ 10 ^ 9 := Nat.pow_le_pow_right (by decide) hl
        _ = 1000000000 := by norm_num)
  unfold sscanf_hashd
  simp only [beq_self_eq_true, if_true]
  rw [scanNum_dec_digits hne hd]
  simp only []
  rw [valD_small _ hv]

/-- The scan `#x%x` fails on a name whose second character is not `x`. -/
theorem sscanf_hashx_not_x {c d : Char} {t : Str} (h : c ≠ '#' ∨ d ≠ 'x') :
    sscanf_hashx (c :: d :: t) = (0, none) := by
  unfold sscanf_hashx
  by_cases hc : c = '#'
  · subst hc
    have hd : d ≠ 'x' := by
      rcases h with h | h
      · exact absurd rfl h
      · exact h
    have e : (d == 'x') = false := by simp [hd]
    simp only [beq_self_eq_true, if_true, e, Bool.false_eq_true, if_false]
  · have e : (c == '#') = false := by simp [hc]
    simp only [e, Bool.false_eq_true, if_false]

/-- The scan `#%d` fails on a name that does not start with `#`. -/
theorem sscanf_hashd_not_hash {c : Char} {t : Str} (h : c ≠ '#') :
    sscanf_hashd (c :: t) = (0, none) := by
  have e : (c == '#') = false := by simp [h]
  unfold sscanf_hashd
  simp only [e, Bool.false_eq_true, if_false]

/-- The scan `#x%x` fails on a name that does not start with `#`. -/
theorem sscanf_hashx_not_hash {c : Char} {t : Str} (h : c ≠ '#') :
    sscanf_hashx (c :: t) = (0, none) := by
  have e : (c == '#') = false := by simp [h]
  unfold sscanf_hashx
  simp only [e, Bool.false_eq_true, if_false]

/-- The scan `#%d` fails on `#x...`. -/
theorem sscanf_hashd_x (t : Str) : sscanf_hashd ('#' :: 'x' :: t) = (0, none) := by
  unfold sscanf_hashd
  simp only [beq_self_eq_true, if_true]
  rw [scanNum_dec_fail _ (by decide : isspace 'x' = false)
    (by decide : 'x' ≠ '+') (by decide : 'x' ≠ '-') (by decide : decVal 'x' = none)]

/-- The scan `#x%x` on `#x` and at most eight hexadecimal digits stores their
value modulo 2^32. -/
theorem sscanf_hashx_hex {ds : Str} (hne : ds ≠ [])
    (hd : ∀ c ∈ ds, (hexVal c).isSome = true) (hl : ds.length ≤ 8) :
    sscanf_hashx ('#' :: 'x' :: ds) = (1, some (toInt32 (digitsValue 16 ds : Int))) := by
  have hv : digitsValue 16 ds < 4294967296 :=
    lt_of_lt_of_le (digitsValue_hex_lt ds) (by
      calc 16 ^ ds.length ≤ 16 ^ 8 := Nat.pow_le_pow_right (by decide) hl
        _ = 4294967296 := by norm_num)
  unfold sscanf_hashx
  simp only [beq_self_eq_true, if_true]
  rw [scanNum_hex_digits hne hd]
  simp only []
  rw [valU_small _ hv]

/-- Selector loop body on `#<decimal>`. -/
theorem keyEvents_dec (env : Env) (hs : env.sane) (handler : Option cmdhandler)
    (mode : ModeRef) (right : Str) (position : Nat) {ds : Str} (hne : ds ≠ [])
    (hd : ∀ c ∈ ds, (decVal c).isSome = true) (hl : ds.length ≤ 9) :
    keyEvents env handler mode right position ('#' :: ds) =
      (if digitsValue 10 ds < env.N_KEYS then [digitsValue 10 ds] else []).map
        (fun k => Event.call handler mode k right) := by
  have hall : ('#' :: ds) ≠ "all".toList := by
    intro h
    have := congrArg List.head? h
    simp at this
  have h1 := sscanf_hashd_dec hne hd hl
  obtain ⟨c, t, rfl⟩ := List.exists_cons_of_ne_nil hne
  have hcx : c ≠ 'x' := (digit_char (hexVal_of_decVal (hd c (by simp)))).2.2.2.1
  have h2 : sscanf_hashx ('#' :: c :: t) = (0, none) := sscanf_hashx_not_x (Or.inr hcx)
  unfold keyEvents
  rw [if_neg hall]
  simp only [h1, h2, Option.getD_some, Option.getD_none, keymapFind_hash hs]
  by_cases hk : digitsValue 10 (c :: t) < env.N_KEYS
  · have hk2 : (1 : Int) ≠ 0 ∧ (0 : Int) ≤ (digitsValue 10 (c :: t) : Int) ∧
        (digitsValue 10 (c :: t) : Int) < (env.N_KEYS : Int) := by omega
    rw [if_pos hk2, if_pos hk]
    simp
  · have hk2 : ¬ ((1 : Int) ≠ 0 ∧ (0 : Int) ≤ (digitsValue 10 (c :: t) : Int) ∧
        (digitsValue 10 (c :: t) : Int) < (env.N_KEYS : Int)) := by omega
    have hk3 : ¬ ((0 : Int) ≠ 0 ∧ (0 : Int) ≤ (digitsValue 10 (c :: t) : Int) ∧
        (digitsValue 10 (c :: t) : Int) < (env.N_KEYS : Int)) := by omega
    rw [if_neg hk2, if_neg hk3, if_neg hk]
    rfl

/-- Selector loop body on a name that is not `all` and does not start with
`#`: the key-map look-up. -/
theorem keyEvents_name (env : Env) (handler : Option cmdhandler)
    (mode : ModeRef) (right : Str) (position : Nat) {n : Str} (hne : n ≠ [])
    (hall : n ≠ "all".toList) (hhash : n.head? ≠ some '#') :
    keyEvents env handler mode right position n =
      (keymapFind env n).toList.map (fun k => Event.call handler mode k right) := by
  obtain ⟨c, t, rfl⟩ := List.exists_cons_of_ne_nil hne
  have hc : c ≠ '#' := by simpa using hhash
  have h1 : sscanf_hashd (c :: t) = (0, none) := sscanf_hashd_not_hash hc
  have h2 : sscanf_hashx (c :: t) = (0, none) := sscanf_hashx_not_hash hc
  have hr1 : ¬ ((0 : Int) ≠ 0 ∧ (0 : Int) ≤ env.indet position ∧
      env.indet position < (env.N_KEYS : Int)) := by simp
  unfold keyEvents
  rw [if_neg hall]
  simp only [h1, h2, Option.getD_none]
  rw [if_neg hr1, if_neg hr1]
  cases keymapFind env (c :: t) <;> rfl

/-- A value in the range of a non-negative `int` is unchanged by the
reduction to 32 bits. -/
theorem toInt32_of_lt (v : Nat) (h : v < 2147483648) : toInt32 (v : Int) = (v : Int) := by
  unfold toInt32
  rw [Int.emod_eq_of_lt (by omega) (by omega)]
  omega

/-- A value from 2^31 up to 2^32 - 1 becomes negative. -/
theorem toInt32_of_ge (v : Nat) (h1 : 2147483648 ≤ v) (h2 : v < 4294967296) :
    toInt32 (v : Int) < 0 := by
  unfold toInt32
  have e : ((v : Int) + 2147483648) % 4294967296 = (v : Int) - 2147483648 := by
    have : (v : Int) + 2147483648 = ((v : Int) - 2147483648) + 4294967296 := by ring
    rw [this, Int.add_emod_self, Int.emod_eq_of_lt (by omega) (by omega)]
  rw [e]
  omega

/-- Selector loop body on `#x<hex>`. -/
theorem keyEvents_hex (env : Env) (hs : env.sane) (handler : Option cmdhandler)
    (mode : ModeRef) (right : Str) (position : Nat) {ds : Str} (hne : ds ≠ [])
    (hd : ∀ c ∈ ds, (hexVal c).isSome = true) (hl : ds.length ≤ 8) :
    keyEvents env handler mode right position ('#' :: 'x' :: ds) =
      (if digitsValue 16 ds < env.N_KEYS then [digitsValue 16 ds] else []).map
        (fun k => Event.call handler mode k right) := by
  have hall : ('#' :: 'x' :: ds) ≠ "all".toList := by
    intro h
    have := congrArg List.head? h
    simp at this
  have hv : digitsValue 16 ds < 4294967296 :=
    lt_of_lt_of_le (digitsValue_hex_lt ds) (by
      calc 16 ^ ds.length ≤ 16 ^ 8 := Nat.pow_le_pow_right (by decide) hl
        _ = 4294967296 := by norm_num)
  have h1 := sscanf_hashd_x ds
  have h2 := sscanf_hashx_hex hne hd hl
  have hN := hs.1
  have hz1 : digitsValue 16 ds < env.N_KEYS →
      toInt32 (digitsValue 16 ds : Int) = (digitsValue 16 ds : Int) :=
    fun hk => toInt32_of_lt _ (by omega)
  have hz2 : ¬ digitsValue 16 ds < env.N_KEYS →
      ¬ ((1 : Int) ≠ 0 ∧ (0 : Int) ≤ toInt32 (digitsValue 16 ds : Int) ∧
        toInt32 (digitsValue 16 ds : Int) < (env.N_KEYS : Int)) := by
    intro hk
    by_cases hb : digitsValue 16 ds < 2147483648
    · rw [toInt32_of_lt _ hb]; omega
    · have := toInt32_of_ge _ (by omega) hv
      omega
  generalize toInt32 (digitsValue 16 ds : Int) = z at h2 hz1 hz2
  have hr1 : ¬ ((0 : Int) ≠ 0 ∧ (0 : Int) ≤ env.indet position ∧
      env.indet position < (env.N_KEYS : Int)) := by simp
  unfold keyEvents
  rw [if_neg hall]
  rw [h1, h2, keymapFind_hash hs]
  dsimp only
  simp only [Option.getD_none]
  rw [Option.getD_some]
  rw [if_neg hr1]
  by_cases hk : digitsValue 16 ds < env.N_KEYS
  · have e := hz1 hk
    subst e
    have hk2 : (1 : Int) ≠ 0 ∧ (0 : Int) ≤ (digitsValue 16 ds : Int) ∧
        (digitsValue 16 ds : Int) < (env.N_KEYS : Int) := by omega
    rw [if_pos hk2, if_pos hk]
    simp
  · rw [if_neg (hz2 hk), if_neg hk]
    rfl

/-- On a well-formed selector of at most ten characters the body of the
selector loop calls the handler once for each key the selector resolves to,
in order. -/
theorem keyEvents_selector (env : Env) (hs : env.sane) (handler : Option cmdhandler)
    (mode : ModeRef) (right : Str) (position : Nat) (s : Selector) (hwf : s.wf)
    (hlen : s.text.length ≤ 10) :
    keyEvents env handler mode right position s.text =
      (s.resolve env).map (fun k => Event.call handler mode k right) := by
  cases s with
  | all =>
    show keyEvents env handler mode right position "all".toList = _
    unfold keyEvents
    rw [if_pos rfl]
    rfl
  | dec ds =>
    have hl : ds.length ≤ 9 := by
      simp only [Selector.text, List.length_cons] at hlen; omega
    exact keyEvents_dec env hs handler mode right position hwf.1 hwf.2 hl
  | hex ds =>
    have hl : ds.length ≤ 8 := by
      simp only [Selector.text, List.length_cons] at hlen; omega
    exact keyEvents_hex env hs handler mode right position hwf.1 hwf.2 hl
  | name n =>
    exact keyEvents_name env handler mode right position hwf.1 hwf.2.2.1 hwf.2.2.2


/-- A well-formed selector is written without colon or comma. -/
theorem selector_text_sep {s : Selector} (hwf : s.wf) :
    ∀ c ∈ s.text, c ≠ ':' ∧ c ≠ ',' := by
  cases s with
  | all => decide
  | dec ds =>
    intro c hc
    simp only [Selector.text, List.mem_cons] at hc
    rcases hc with rfl | hc
    · decide
    · have := digit_char (hexVal_of_decVal (hwf.2 c hc))
      exact ⟨this.2.2.2.2.2.1, this.2.2.2.2.2.2.1⟩
  | hex ds =>
    intro c hc
    simp only [Selector.text, List.mem_cons] at hc
    rcases hc with rfl | rfl | hc
    · decide
    · decide
    · have := digit_char (hwf.2 c hc)
      exact ⟨this.2.2.2.2.2.1, this.2.2.2.2.2.2.1⟩
  | name n => exact hwf.2.1

/-- A well-formed selector is not empty. -/
theorem selector_text_ne_nil {s : Selector} (hwf : s.wf) : s.text ≠ [] := by
  cases s with
  | all => decide
  | dec ds => simp [Selector.text]
  | hex ds => simp [Selector.text]
  | name n => exact hwf.1

/-- The key-name scan reads a name of at most ten characters up to the
separator that follows it. -/
theorem sscanf_keyname_append {kn tail : Str} (hne : kn ≠ [])
    (hsep : ∀ c ∈ kn, c ≠ ':' ∧ c ≠ ',') (hlen : kn.length ≤ 10)
    (htail : tail.head? = some ':' ∨ tail.head? = some ',') :
    sscanf_keyname (kn ++ tail) = some (kn, kn.length) := by
  have h1 : (kn ++ tail).takeWhile (fun c => c != ':' && c != ',') = kn := by
    rw [List.takeWhile_append_of_pos (by
      intro c hc
      obtain ⟨a, b⟩ := hsep c hc
      simp [a, b])]
    cases tail with
    | nil => simp at htail
    | cons d t =>
      simp only [List.head?_cons, Option.some.injEq] at htail
      rcases htail with rfl | rfl <;> simp
  unfold sscanf_keyname
  rw [h1, List.take_of_length_le hlen]
  obtain ⟨c, t, rfl⟩ := List.exists_cons_of_ne_nil hne
  rfl

/-- The selector loop is over once the position has reached `left`. -/
theorem keyloop_done (env : Env) (handler : Option cmdhandler) (mode : ModeRef) (word : Str)
    (left : Nat) (right : Str) (fuel position : Nat) (h : ¬ position < left) :
    keyloop env handler mode word left right fuel position = some [] := by
  cases fuel <;> simp [keyloop, h]

/-- The text of a non-empty list of well-formed selectors is not empty. -/
theorem lhsText_ne_nil {sels : List Selector} (hne : sels ≠ [])
    (hwf : ∀ s ∈ sels, s.wf) : lhsText sels ≠ [] := by
  cases sels with
  | nil => exact absurd rfl hne
  | cons s t =>
    have h := selector_text_ne_nil (hwf s (by simp))
    cases t with
    | nil => simpa [lhsText] using h
    | cons s1 t1 => simp [lhsText, h]

/-- The selector loop over the written form of well-formed selectors of at
most ten characters each, for any text `pre` already passed: the calls are
those of the loop body for each selector in turn. -/
theorem keyloop_selectors_of (env : Env) (handler : Option cmdhandler)
    (mode : ModeRef) (right rhs : Str) :
    ∀ (sels : List Selector), sels ≠ [] → (∀ s ∈ sels, s.wf ∧ s.text.length ≤ 10) →
      (∀ s ∈ sels, ∀ position, keyEvents env handler mode right position s.text =
        (s.resolve env).map (fun k => Event.call handler mode k right)) →
      ∀ (pre : Str) (fuel : Nat), (lhsText sels).length ≤ fuel →
        keyloop env handler mode (pre ++ lhsText sels ++ ':' :: rhs)
            (pre.length + (lhsText sels).length) right fuel pre.length =
          some (selectorCalls env handler mode right sels) := by
  intro sels
  induction sels with
  | nil => intro h; exact absurd rfl h
  | cons s t ih =>
    intro _ hwf hev pre fuel hfuel
    obtain ⟨hswf, hslen⟩ := hwf s (by simp)
    have hsne := selector_text_ne_nil hswf
    have hspos : 1 ≤ s.text.length := by
      cases h : s.text with
      | nil => exact absurd h hsne
      | cons _ _ => simp
    cases t with
    | nil =>
      simp only [lhsText] at hfuel ⊢
      cases fuel with
      | zero => omega
      | succ n =>
        unfold keyloop
        have hp : pre.length < pre.length + s.text.length := by omega
        have hdrop : (pre ++ s.text ++ ':' :: rhs).drop pre.length = s.text ++ ':' :: rhs := by
          rw [List.append_assoc, List.drop_left]
        have hget : (pre ++ s.text ++ ':' :: rhs).get? (pre.length + s.text.length) =
            some ':' := by
          rw [← List.length_append, List.get?_eq_getElem?, List.getElem?_append_right (le_refl _)]
          simp
        rw [if_pos hp, hdrop,
          @sscanf_keyname_append _ (':' :: rhs) hsne (selector_text_sep hswf) hslen
            (Or.inl rfl)]
        simp only [hget]
        rw [keyloop_done _ _ _ _ _ _ _ _ (by simp)]
        simp [selectorCalls, hev s (by simp)]
    | cons s1 t1 =>
      have ih1 := ih (by simp) (fun x hx => hwf x (List.mem_cons_of_mem _ hx))
        (fun x hx => hev x (List.mem_cons_of_mem _ hx))
      have htxt : lhsText (s :: s1 :: t1) = s.text ++ ',' :: lhsText (s1 :: t1) := rfl
      rw [htxt] at hfuel ⊢
      cases fuel with
      | zero => simp at hfuel
      | succ n =>
        unfold keyloop
        have hp : pre.length < pre.length + (s.text ++ ',' :: lhsText (s1 :: t1)).length := by
          rw [List.length_append, List.length_cons]; omega
        have hdrop : (pre ++ (s.text ++ ',' :: lhsText (s1 :: t1)) ++ ':' :: rhs).drop pre.length =
            s.text ++ (',' :: lhsText (s1 :: t1) ++ ':' :: rhs) := by
          rw [List.append_assoc, List.drop_left]; simp
        have hget : (pre ++ (s.text ++ ',' :: lhsText (s1 :: t1)) ++ ':' :: rhs).get?
            (pre.length + s.text.length) = some ',' := by
          have e : pre ++ (s.text ++ ',' :: lhsText (s1 :: t1)) ++ ':' :: rhs =
              (pre ++ s.text) ++ (',' :: (lhsText (s1 :: t1) ++ ':' :: rhs)) := by simp
          rw [e, ← List.length_append, List.get?_eq_getElem?,
            List.getElem?_append_right (le_refl _)]
          simp
        rw [if_pos hp, hdrop,
          @sscanf_keyname_append _ (',' :: lhsText (s1 :: t1) ++ ':' :: rhs) hsne
            (selector_text_sep hswf) hslen (Or.inr rfl)]
        simp only [hget, if_true]
        have e : pre ++ (s.text ++ ',' :: lhsText (s1 :: t1)) ++ ':' :: rhs =
            (pre ++ s.text ++ [',']) ++ lhsText (s1 :: t1) ++ ':' :: rhs := by simp
        have el : pre.length + (s.text ++ ',' :: lhsText (s1 :: t1)).length =
            (pre ++ s.text ++ [',']).length + (lhsText (s1 :: t1)).length := by
          simp only [List.length_append, List.length_cons, List.length_nil]; omega
        have ep : pre.length + s.text.length + 1 = (pre ++ s.text ++ [',']).length := by
          simp only [List.length_append, List.length_cons, List.length_nil]
        rw [e, el, ep, ih1 (pre ++ s.text ++ [',']) n (by simp at hfuel; omega)]
        simp [selectorCalls, hev s (by simp)]
/-- The selector loop over the written form of well-formed selectors of at
most ten characters each makes exactly the calls the specification
prescribes, for any text `pre` already passed. -/
theorem keyloop_selectors (env : Env) (hs : env.sane) (handler : Option cmdhandler)
    (mode : ModeRef) (right rhs : Str) (sels : List Selector) (hne : sels ≠ [])
    (hwf : ∀ s ∈ sels, s.wf ∧ s.text.length ≤ 10) (pre : Str) (fuel : Nat)
    (hfuel : (lhsText sels).length ≤ fuel) :
    keyloop env handler mode (pre ++ lhsText sels ++ ':' :: rhs)
        (pre.length + (lhsText sels).length) right fuel pre.length =
      some (selectorCalls env handler mode right sels) :=
  keyloop_selectors_of env handler mode right rhs sels hne hwf
    (fun s h position =>
      keyEvents_selector env hs handler mode right position s (hwf s h).1 (hwf s h).2)
    pre fuel hfuel

/-! ### Words that are no verbs, and the split at the colon -/

/-- A word that is none of the fourteen verbs goes to `readcmd_param`. -/
theorem readcmd_word_of_not_verb (env : Env) (st : State) {word : Str} (h : word ∉ verbs) :
    readcmd_word env st word = readcmd_param env st word := by
  simp only [verbs, List.mem_cons, List.mem_singleton, List.not_mem_nil, or_false,
    not_or] at h
  obtain ⟨h1, h2, h3, h4, h5, h6, h7, h8, h9, h10, h11, h12, h13, h14⟩ := h
  unfold readcmd_word
  rw [if_neg h1, if_neg h2, if_neg h3, if_neg h4, if_neg h5, if_neg h6, if_neg h7, if_neg h8,
    if_neg h9, if_neg h10, if_neg h11, if_neg h12, if_neg h13, if_neg h14]

/-- A word with a colon in it is no verb. -/
theorem not_verb_of_colon {word : Str} (h : ':' ∈ word) : word ∉ verbs := by
  intro hv
  simp only [verbs, List.mem_cons, List.mem_singleton, List.not_mem_nil, or_false] at hv
  rcases hv with rfl | rfl | rfl | rfl | rfl | rfl | rfl | rfl | rfl | rfl | rfl | rfl | rfl | rfl <;>
    revert h <;> decide

/-- The split of `L:R` at its first colon: `left` is the length of `L`, the
left side is `L` and `right` is `R`. -/
theorem sscanf_left_append {L R : Str} (hne : L ≠ []) (hc : ∀ c ∈ L, c ≠ ':') :
    sscanf_left (L ++ ':' :: R) = (L.length : Int) ∧
      rightOf (L ++ ':' :: R) L.length = R ∧ (L ++ ':' :: R).take L.length = L := by
  have h1 : (L ++ ':' :: R).takeWhile (fun c => c != ':') = L := by
    rw [List.takeWhile_append_of_pos (by intro c h; simp [hc c h])]
    simp
  refine ⟨?_, ?_, ?_⟩
  · unfold sscanf_left
    rw [h1]
    obtain ⟨c, t, rfl⟩ := List.exists_cons_of_ne_nil hne
    rfl
  · unfold rightOf
    rw [List.drop_left]
    simp
  · rw [List.take_left]

/-- The written form of well-formed selectors has no colon. -/
theorem lhsText_no_colon :
    ∀ (sels : List Selector), (∀ s ∈ sels, s.wf) → ∀ c ∈ lhsText sels, c ≠ ':' := by
  intro sels
  induction sels with
  | nil => intro _ c hc; simp [lhsText] at hc
  | cons s t ih =>
    intro hwf c hc
    have hs := selector_text_sep (hwf s (by simp))
    cases t with
    | nil => exact (hs c (by simpa [lhsText] using hc)).1
    | cons s1 t1 =>
      have htxt : lhsText (s :: s1 :: t1) = s.text ++ ',' :: lhsText (s1 :: t1) := rfl
      rw [htxt, List.mem_append, List.mem_cons] at hc
      rcases hc with h | rfl | h
      · exact (hs c h).1
      · decide
      · exact ih (fun x hx => hwf x (List.mem_cons_of_mem _ hx)) c h

/-- The colon-parameter part on `s1,...,sk:RHS` with well-formed selectors of
at most ten characters, for a command other than `macro`: the calls are
those of the loop body for each selector in turn. -/
theorem readcmd_colon_selectors_of (env : Env) (st : State) (mode : ModeRef)
    (sels : List Selector) (rhs : Str) (hne : sels ≠ [])
    (hwf : ∀ s ∈ sels, s.wf ∧ s.text.length ≤ 10)
    (hev : ∀ s ∈ sels, ∀ position, keyEvents env st.handler mode rhs position s.text =
      (s.resolve env).map (fun k => Event.call st.handler mode k rhs))
    (hcmd : st.command ≠ cmd.MACRO) :
    readcmd_colon env st mode (lhsText sels ++ ':' :: rhs) =
      some (st.emit (selectorCalls env st.handler mode rhs sels)) := by
  have hwf1 : ∀ s ∈ sels, s.wf := fun s h => (hwf s h).1
  obtain ⟨h1, h2, -⟩ := @sscanf_left_append _ rhs (lhsText_ne_nil hne hwf1)
    (lhsText_no_colon sels hwf1)
  have h3 : ¬ ((lhsText sels).length : Int) ≤ 0 := by
    have := List.length_pos.mpr (lhsText_ne_nil hne hwf1)
    omega
  unfold readcmd_colon
  simp only [h1, h3, if_false, hcmd, Int.toNat_ofNat, h2]
  have := keyloop_selectors_of env st.handler mode rhs rhs sels hne hwf hev []
    ((lhsText sels).length + 1) (by omega)
  simp only [List.nil_append, List.length_nil, Nat.zero_add] at this
  rw [this]
  rfl

/-- The colon-parameter part on `s1,...,sk:RHS` with well-formed selectors of
at most ten characters, for a command other than `macro`: the handler is
called once per resolved key, in selector order, with `RHS`. -/
theorem readcmd_colon_selectors (env : Env) (hs : env.sane) (st : State) (mode : ModeRef)
    (sels : List Selector) (rhs : Str) (hne : sels ≠ [])
    (hwf : ∀ s ∈ sels, s.wf ∧ s.text.length ≤ 10) (hcmd : st.command ≠ cmd.MACRO) :
    readcmd_colon env st mode (lhsText sels ++ ':' :: rhs) =
      some (st.emit (selectorCalls env st.handler mode rhs sels)) :=
  readcmd_colon_selectors_of env st mode sels rhs hne hwf
    (fun s h position =>
      keyEvents_selector env hs st.handler mode rhs position s (hwf s h).1 (hwf s h).2)
    hcmd

/-! ### Lines without verbs -/

/-- A line of white space has no words. -/
theorem words_of_spaces {line : Str} (h : ∀ c ∈ line, isspace c = true) : words line = [] := by
  have hd : line.dropWhile isspace = [] := by
    rw [List.dropWhile_eq_nil_iff]
    exact h
  unfold words wordsOf sscanf_word
  simp only [hd]

/-- While no verb has been read the active command is `NONE` and a word that
is no verb changes nothing. -/
theorem readcmd_words_unknown (env : Env) :
    ∀ (ws : List Str) (st : State), (∀ w ∈ ws, w ∉ verbs) → st.command = cmd.NONE →
      readcmd_words env st ws = some st := by
  intro ws
  induction ws with
  | nil => intro st _ _; exact readcmd_words_nil env st
  | cons w ws ih =>
    intro st hw hc
    rw [readcmd_words_cons, readcmd_word_of_not_verb env st (hw w (by simp))]
    unfold readcmd_param
    rw [if_pos hc]
    exact ih st (fun x hx => hw x (List.mem_cons_of_mem _ hx)) hc

/-- The final test does nothing when `rgbchange` is clear. -/
theorem readcmd_finish_of_not_rgbchange {st : State} (h : st.rgbchange = false) :
    readcmd_finish st = st := by
  unfold readcmd_finish
  rw [if_neg (by simp [h])]

/-! ### The verbs -/

/-- Effect of the word `device`. -/
theorem readcmd_word_device (env : Env) (st : State) :
    readcmd_word env st "device".toList =
      some { st with command := cmd.DEVICE, handler := none } := by
  unfold readcmd_word
  rw [if_pos rfl]

/-- Effect of the word `mode`. -/
theorem readcmd_word_mode (env : Env) (st : State) :
    readcmd_word env st "mode".toList =
      some { st with command := cmd.MODE, handler := none } := by
  unfold readcmd_word
  rw [if_neg (show ¬ "mode".toList = "device".toList by decide),
    if_pos rfl]

/-- Effect of the word `switch`. -/
theorem readcmd_word_switch (env : Env) (st : State) :
    readcmd_word env st "switch".toList =
      some { st with
        command := cmd.NONE, handler := none,
        daemon :=
          (match st.profile with
           | some p => setCurrentmode st.daemon p st.mode
           | none => st.daemon),
        rgbchange := true } := by
  unfold readcmd_word
  rw [if_neg (show ¬ "switch".toList = "device".toList by decide),
    if_neg (show ¬ "switch".toList = "mode".toList by decide),
    if_pos rfl]

/-- Effect of the word `hwload`. -/
theorem readcmd_word_hwload (env : Env) (st : State) :
    readcmd_word env st "hwload".toList =
      some { st with
        command := cmd.NONE, handler := none,
        trace := st.trace ++ (if st.profile.isSome then [Event.hwloadprofile st.kb] else []),
        rgbchange := true } := by
  unfold readcmd_word
  rw [if_neg (show ¬ "hwload".toList = "device".toList by decide),
    if_neg (show ¬ "hwload".toList = "mode".toList by decide),
    if_neg (show ¬ "hwload".toList = "switch".toList by decide),
    if_pos rfl]
  unfold readcmd_param
  rw [if_pos rfl]

/-- Effect of the word `hwsave`. -/
theorem readcmd_word_hwsave (env : Env) (st : State) :
    readcmd_word env st "hwsave".toList =
      some { st with
        command := cmd.NONE, handler := none,
        trace := st.trace ++ (if st.profile.isSome then [Event.hwsaveprofile st.kb] else []) } := by
  unfold readcmd_word
  rw [if_neg (show ¬ "hwsave".toList = "device".toList by decide),
    if_neg (show ¬ "hwsave".toList = "mode".toList by decide),
    if_neg (show ¬ "hwsave".toList = "switch".toList by decide),
    if_neg (show ¬ "hwsave".toList = "hwload".toList by decide),
    if_pos rfl]
  unfold readcmd_param
  rw [if_pos rfl]

/-- Effect of the word `erase`. -/
theorem readcmd_word_erase (env : Env) (st : State) :
    readcmd_word env st "erase".toList =
      some { st with
        command := cmd.NONE, handler := none,
        trace :=
          st.trace ++
            (match st.mode with
             | some m => [Event.erasemode m]
             | none => []),
        rgbchange := true } := by
  unfold readcmd_word
  rw [if_neg (show ¬ "erase".toList = "device".toList by decide),
    if_neg (show ¬ "erase".toList = "mode".toList by decide),
    if_neg (show ¬ "erase".toList = "switch".toList by decide),
    if_neg (show ¬ "erase".toList = "hwload".toList by decide),
    if_neg (show ¬ "erase".toList = "hwsave".toList by decide),
    if_pos rfl]

/-- Effect of the word `eraseprofile`. -/
theorem readcmd_word_eraseprofile (env : Env) (st : State) :
    readcmd_word env st "eraseprofile".toList =
      (match st.profile with
       | some p =>
         some { st with
           command := cmd.NONE, handler := none,
           daemon :=
             setCurrentmode (getusbmode (eraseprofile st.daemon p) 0 (some p)).1 p
               (getusbmode (eraseprofile st.daemon p) 0 (some p)).2,
           mode := (getusbmode (eraseprofile st.daemon p) 0 (some p)).2,
           trace := st.trace ++ [Event.eraseprofile p, Event.getusbmode 0 (some p)],
           rgbchange := true }
       | none => some { st with command := cmd.NONE, handler := none, rgbchange := true }) := by
  unfold readcmd_word
  rw [if_neg (show ¬ "eraseprofile".toList = "device".toList by decide),
    if_neg (show ¬ "eraseprofile".toList = "mode".toList by decide),
    if_neg (show ¬ "eraseprofile".toList = "switch".toList by decide),
    if_neg (show ¬ "eraseprofile".toList = "hwload".toList by decide),
    if_neg (show ¬ "eraseprofile".toList = "hwsave".toList by decide),
    if_neg (show ¬ "eraseprofile".toList = "erase".toList by decide),
    if_pos rfl]

/-- Effect of the word `name`. -/
theorem readcmd_word_name (env : Env) (st : State) :
    readcmd_word env st "name".toList =
      some { st with
        command := cmd.NAME, handler := none,
        trace :=
          st.trace ++
            (match st.mode with
             | some m => [Event.updatemod_mode m]
             | none => []) } := by
  unfold readcmd_word
  rw [if_neg (show ¬ "name".toList = "device".toList by decide),
    if_neg (show ¬ "name".toList = "mode".toList by decide),
    if_neg (show ¬ "name".toList = "switch".toList by decide),
    if_neg (show ¬ "name".toList = "hwload".toList by decide),
    if_neg (show ¬ "name".toList = "hwsave".toList by decide),
    if_neg (show ¬ "name".toList = "erase".toList by decide),
    if_neg (show ¬ "name".toList = "eraseprofile".toList by decide),
    if_pos rfl]

/-- Effect of the word `profilename`. -/
theorem readcmd_word_profilename (env : Env) (st : State) :
    readcmd_word env st "profilename".toList =
      some { st with
        command := cmd.PROFILENAME, handler := none,
        trace :=
          st.trace ++
            (match st.profile with
             | some p => [Event.updatemod_profile p]
             | none => []) } := by
  unfold readcmd_word
  rw [if_neg (show ¬ "profilename".toList = "device".toList by decide),
    if_neg (show ¬ "profilename".toList = "mode".toList by decide),
    if_neg (show ¬ "profilename".toList = "switch".toList by decide),
    if_neg (show ¬ "profilename".toList = "hwload".toList by decide),
    if_neg (show ¬ "profilename".toList = "hwsave".toList by decide),
    if_neg (show ¬ "profilename".toList = "erase".toList by decide),
    if_neg (show ¬ "profilename".toList = "eraseprofile".toList by decide),
    if_neg (show ¬ "profilename".toList = "name".toList by decide),
    if_pos rfl]

/-- Effect of the word `bind`. -/
theorem readcmd_word_bind (env : Env) (st : State) :
    readcmd_word env st "bind".toList =
      some { st with command := cmd.BIND, handler := some cmdhandler.cmd_bind } := by
  unfold readcmd_word
  rw [if_neg (show ¬ "bind".toList = "device".toList by decide),
    if_neg (show ¬ "bind".toList = "mode".toList by decide),
    if_neg (show ¬ "bind".toList = "switch".toList by decide),
    if_neg (show ¬ "bind".toList = "hwload".toList by decide),
    if_neg (show ¬ "bind".toList = "hwsave".toList by decide),
    if_neg (show ¬ "bind".toList = "erase".toList by decide),
    if_neg (show ¬ "bind".toList = "eraseprofile".toList by decide),
    if_neg (show ¬ "bind".toList = "name".toList by decide),
    if_neg (show ¬ "bind".toList = "profilename".toList by decide),
    if_pos rfl]

/-- Effect of the word `unbind`. -/
theorem readcmd_word_unbind (env : Env) (st : State) :
    readcmd_word env st "unbind".toList =
      some { st with command := cmd.UNBIND, handler := some cmdhandler.cmd_unbind } := by
  unfold readcmd_word
  rw [if_neg (show ¬ "unbind".toList = "device".toList by decide),
    if_neg (show ¬ "unbind".toList = "mode".toList by decide),
    if_neg (show ¬ "unbind".toList = "switch".toList by decide),
    if_neg (show ¬ "unbind".toList = "hwload".toList by decide),
    if_neg (show ¬ "unbind".toList = "hwsave".toList by decide),
    if_neg (show ¬ "unbind".toList = "erase".toList by decide),
    if_neg (show ¬ "unbind".toList = "eraseprofile".toList by decide),
    if_neg (show ¬ "unbind".toList = "name".toList by decide),
    if_neg (show ¬ "unbind".toList = "profilename".toList by decide),
    if_neg (show ¬ "unbind".toList = "bind".toList by decide),
    if_pos rfl]

/-- Effect of the word `rebind`. -/
theorem readcmd_word_rebind (env : Env) (st : State) :
    readcmd_word env st "rebind".toList =
      some { st with command := cmd.REBIND, handler := some cmdhandler.cmd_rebind } := by
  unfold readcmd_word
  rw [if_neg (show ¬ "rebind".toList = "device".toList by decide),
    if_neg (show ¬ "rebind".toList = "mode".toList by decide),
    if_neg (show ¬ "rebind".toList = "switch".toList by decide),
    if_neg (show ¬ "rebind".toList = "hwload".toList by decide),
    if_neg (show ¬ "rebind".toList = "hwsave".toList by decide),
    if_neg (show ¬ "rebind".toList = "erase".toList by decide),
    if_neg (show ¬ "rebind".toList = "eraseprofile".toList by decide),
    if_neg (show ¬ "rebind".toList = "name".toList by decide),
    if_neg (show ¬ "rebind".toList = "profilename".toList by decide),
    if_neg (show ¬ "rebind".toList = "bind".toList by decide),
    if_neg (show ¬ "rebind".toList = "unbind".toList by decide),
    if_pos rfl]

/-- Effect of the word `macro`. -/
theorem readcmd_word_macro (env : Env) (st : State) :
    readcmd_word env st "macro".toList =
      some { st with command := cmd.MACRO, handler := none } := by
  unfold readcmd_word
  rw [if_neg (show ¬ "macro".toList = "device".toList by decide),
    if_neg (show ¬ "macro".toList = "mode".toList by decide),
    if_neg (show ¬ "macro".toList = "switch".toList by decide),
    if_neg (show ¬ "macro".toList = "hwload".toList by decide),
    if_neg (show ¬ "macro".toList = "hwsave".toList by decide),
    if_neg (show ¬ "macro".toList = "erase".toList by decide),
    if_neg (show ¬ "macro".toList = "eraseprofile".toList by decide),
    if_neg (show ¬ "macro".toList = "name".toList by decide),
    if_neg (show ¬ "macro".toList = "profilename".toList by decide),
    if_neg (show ¬ "macro".toList = "bind".toList by decide),
    if_neg (show ¬ "macro".toList = "unbind".toList by decide),
    if_neg (show ¬ "macro".toList = "rebind".toList by decide),
    if_pos rfl]

/-- Effect of the word `rgb`. -/
theorem readcmd_word_rgb (env : Env) (st : State) :
    readcmd_word env st "rgb".toList =
      some { st with
        command := cmd.RGB, handler := some cmdhandler.cmd_ledrgb, rgbchange := true,
        trace :=
          st.trace ++
            (match st.mode with
             | some m => [Event.updatemod_mode m]
             | none => []) } := by
  unfold readcmd_word
  rw [if_neg (show ¬ "rgb".toList = "device".toList by decide),
    if_neg (show ¬ "rgb".toList = "mode".toList by decide),
    if_neg (show ¬ "rgb".toList = "switch".toList by decide),
    if_neg (show ¬ "rgb".toList = "hwload".toList by decide),
    if_neg (show ¬ "rgb".toList = "hwsave".toList by decide),
    if_neg (show ¬ "rgb".toList = "erase".toList by decide),
    if_neg (show ¬ "rgb".toList = "eraseprofile".toList by decide),
    if_neg (show ¬ "rgb".toList = "name".toList by decide),
    if_neg (show ¬ "rgb".toList = "profilename".toList by decide),
    if_neg (show ¬ "rgb".toList = "bind".toList by decide),
    if_neg (show ¬ "rgb".toList = "unbind".toList by decide),
    if_neg (show ¬ "rgb".toList = "rebind".toList by decide),
    if_neg (show ¬ "rgb".toList = "macro".toList by decide),
    if_pos rfl]

/-! ### Words after `macro` and `rgb` -/

/-- `%02x` on two hexadecimal digits reads both. -/
theorem scanNum_hex2 {a b : Char} (rest : Str) (ha : (hexVal a).isSome = true)
    (hb : (hexVal b).isSome = true) :
    ∃ v, scanNum 16 2 (a :: b :: rest) = Conv.ok false v rest := by
  obtain ⟨hsp, hplus, hminus, -⟩ := digit_char ha
  obtain ⟨-, -, -, hx, hX, -⟩ := digit_char hb
  obtain ⟨va, hva⟩ := Option.isSome_iff_exists.mp ha
  obtain ⟨vb, hvb⟩ := Option.isSome_iff_exists.mp hb
  have e1 : (a == '-') = false := by simp [hminus]
  have e2 : (a == '+') = false := by simp [hplus]
  have e3 : hexPrefix (a :: b :: rest) = false := by
    simp [hexPrefix, hx, hX]
  refine ⟨0 * 16 + va * 16 + vb, ?_⟩
  unfold scanNum
  simp only [List.dropWhile_cons, hsp, Bool.false_eq_true, if_false, e1, e2, e3, Bool.or_self,
    Bool.false_and, Bool.and_false]
  simp [scanDigits, digitVal, hva, hvb]

/-- A word of six hexadecimal digits scans as three bytes. -/
theorem sscanf_rgb3_hex6 {w : Str} (hlen : w.length = 6)
    (hhex : ∀ c ∈ w, (hexVal c).isSome = true) : sscanf_rgb3 w = true := by
  match w, hlen, hhex with
  | [a, b, c, d, e, f], _, hhex =>
    obtain ⟨v1, h1⟩ := scanNum_hex2 [c, d, e, f] (hhex a (by simp)) (hhex b (by simp))
    obtain ⟨v2, h2⟩ := scanNum_hex2 [e, f] (hhex c (by simp)) (hhex d (by simp))
    obtain ⟨v3, h3⟩ := scanNum_hex2 [] (hhex e (by simp)) (hhex f (by simp))
    unfold sscanf_rgb3
    rw [h1]
    simp only []
    rw [h2]
    simp only []
    rw [h3]

/-- A word of hexadecimal digits is no verb. -/
theorem not_verb_of_hex {w : Str} (hhex : ∀ c ∈ w, (hexVal c).isSome = true) : w ∉ verbs := by
  intro hv
  simp only [verbs, List.mem_cons, List.mem_singleton, List.not_mem_nil, or_false] at hv
  rcases hv with rfl | rfl | rfl | rfl | rfl | rfl | rfl | rfl | rfl | rfl | rfl | rfl | rfl | rfl <;>
    revert hhex <;> decide

/-- After `macro`, with a mode, a word `L:R` makes the one call
`cmd_macro(mode, L, R)`. -/
theorem readcmd_param_macro (env : Env) (st : State) (mode : ModeRef) (L R : Str)
    (hcmd : st.command = cmd.MACRO) (hmode : st.mode = some mode)
    (hL : L ≠ []) (hcolon : ∀ c ∈ L, c ≠ ':') :
    readcmd_param env st (L ++ ':' :: R) = some (st.emit [ Event.cmd_macro_call mode L R]) := by
  obtain ⟨h1, h2, h3⟩ := @sscanf_left_append L R hL hcolon
  have hl : ¬ ((L.length : Int) ≤ 0) := by
    have := List.length_pos.mpr hL
    omega
  have hclear : ¬ (L ++ ':' :: R = "clear".toList) := by
    intro h
    have hm : ':' ∈ L ++ ':' :: R := by simp
    rw [h] at hm
    revert hm
    decide
  unfold readcmd_param
  rw [hcmd, hmode]
  simp only [reduceCtorEq, if_false, true_and]
  rw [if_neg hclear]
  unfold readcmd_colon
  simp only [h1, hl, if_false, hcmd, if_true, Int.toNat_ofNat, h2, h3]

/-- After `macro`, with a mode, the word `clear` makes the one call
`cmd_macroclear(mode)`. -/
theorem readcmd_param_macro_clear (env : Env) (st : State) (mode : ModeRef)
    (hcmd : st.command = cmd.MACRO) (hmode : st.mode = some mode) :
    readcmd_param env st "clear".toList = some (st.emit [Event.cmd_macroclear mode]) := by
  unfold readcmd_param
  rw [hcmd, hmode]
  dsimp only
  rw [if_neg (show ¬ cmd.MACRO = cmd.NONE by decide),
    if_neg (show ¬ cmd.MACRO = cmd.DEVICE by decide),
    if_neg (show ¬ cmd.MACRO = cmd.MODE by decide),
    if_neg (show ¬ cmd.MACRO = cmd.NAME by decide),
    if_neg (show ¬ cmd.MACRO = cmd.PROFILENAME by decide),
    if_neg (show ¬ cmd.MACRO = cmd.RGB by decide),
    if_pos ⟨rfl, rfl⟩]

/-- After `rgb`, with a mode, a word that is neither `on` nor `off` and scans
as three hexadecimal bytes is passed to `cmd_ledrgb` for every key. -/
theorem readcmd_param_rgb_broadcast (env : Env) (st : State) (mode : ModeRef) (w : Str)
    (hcmd : st.command = cmd.RGB) (hmode : st.mode = some mode)
    (hon : w ≠ "on".toList) (hoff : w ≠ "off".toList) (h3 : sscanf_rgb3 w = true) :
    readcmd_param env st w =
      some (st.emit (allKeys env (some cmdhandler.cmd_ledrgb) mode w)) := by
  unfold readcmd_param
  rw [hcmd, hmode]
  dsimp only
  rw [if_neg (show ¬ cmd.RGB = cmd.NONE by decide),
    if_neg (show ¬ cmd.RGB = cmd.DEVICE by decide),
    if_neg (show ¬ cmd.RGB = cmd.MODE by decide),
    if_neg (show ¬ cmd.RGB = cmd.NAME by decide),
    if_neg (show ¬ cmd.RGB = cmd.PROFILENAME by decide),
    if_pos rfl, if_neg hon, if_neg hoff, if_pos h3]

/-- After `rgb`, with a mode, the words `on` and `off` call `cmd_ledon` and
`cmd_ledoff`. -/
theorem readcmd_param_rgb_on_off (env : Env) (st : State) (mode : ModeRef)
    (hcmd : st.command = cmd.RGB) (hmode : st.mode = some mode) :
    readcmd_param env st "on".toList = some (st.emit [Event.cmd_ledon mode]) ∧
      readcmd_param env st "off".toList = some (st.emit [Event.cmd_ledoff mode]) := by
  constructor
  · unfold readcmd_param
    rw [hcmd, hmode]
    dsimp only
    rw [if_neg (show ¬ cmd.RGB = cmd.NONE by decide),
      if_neg (show ¬ cmd.RGB = cmd.DEVICE by decide),
      if_neg (show ¬ cmd.RGB = cmd.MODE by decide),
      if_neg (show ¬ cmd.RGB = cmd.NAME by decide),
      if_neg (show ¬ cmd.RGB = cmd.PROFILENAME by decide),
      if_pos rfl, if_pos rfl]
  · unfold readcmd_param
    rw [hcmd, hmode]
    dsimp only
    rw [if_neg (show ¬ cmd.RGB = cmd.NONE by decide),
      if_neg (show ¬ cmd.RGB = cmd.DEVICE by decide),
      if_neg (show ¬ cmd.RGB = cmd.MODE by decide),
      if_neg (show ¬ cmd.RGB = cmd.NAME by decide),
      if_neg (show ¬ cmd.RGB = cmd.PROFILENAME by decide),
      if_pos rfl, if_neg (show ¬ "off".toList = "on".toList by decide), if_pos rfl]

/-! ### Colon parameters after `bind`, `unbind`, `rebind`, `rgb` -/

/-- After one of the four per-key verbs, with a mode, a word that is not one
of the bare arguments of `rgb` is split at the colon. -/
theorem readcmd_param_keys (env : Env) (st : State) (mode : ModeRef) (word : Str)
    (hmode : st.mode = some mode)
    (hcmd : st.command = cmd.BIND ∨ st.command = cmd.UNBIND ∨ st.command = cmd.REBIND ∨
      st.command = cmd.RGB)
    (hrgb : st.command = cmd.RGB →
      word ≠ "on".toList ∧ word ≠ "off".toList ∧ sscanf_rgb3 word = false) :
    readcmd_param env st word = readcmd_colon env st mode word := by
  unfold readcmd_param
  rw [hmode]
  dsimp only
  rcases hcmd with h | h | h | h
  · rw [if_neg (by rw [h]; decide), if_neg (by rw [h]; decide), if_neg (by rw [h]; decide),
      if_neg (by rw [h]; decide), if_neg (by rw [h]; decide), if_neg (by rw [h]; decide),
      if_neg (by rw [h]; exact fun x => absurd x.1 (by decide))]
  · rw [if_neg (by rw [h]; decide), if_neg (by rw [h]; decide), if_neg (by rw [h]; decide),
      if_neg (by rw [h]; decide), if_neg (by rw [h]; decide), if_neg (by rw [h]; decide),
      if_neg (by rw [h]; exact fun x => absurd x.1 (by decide))]
  · rw [if_neg (by rw [h]; decide), if_neg (by rw [h]; decide), if_neg (by rw [h]; decide),
      if_neg (by rw [h]; decide), if_neg (by rw [h]; decide), if_neg (by rw [h]; decide),
      if_neg (by rw [h]; exact fun x => absurd x.1 (by decide))]
  · obtain ⟨h1, h2, h3⟩ := hrgb h
    rw [if_neg (by rw [h]; decide), if_neg (by rw [h]; decide), if_neg (by rw [h]; decide),
      if_neg (by rw [h]; decide), if_neg (by rw [h]; decide), if_pos h, if_neg h1, if_neg h2,
      if_neg (by rw [h3]; decide)]

/-- A word with a colon in it is neither `on` nor `off`. -/
theorem not_on_off_of_colon {word : Str} (h : ':' ∈ word) :
    word ≠ "on".toList ∧ word ≠ "off".toList := by
  constructor <;> intro e <;> rw [e] at h <;> revert h <;> decide

/-- A device whose line starts with a current mode has a live handle and a
profile whose `currentmode` is that mode. -/
theorem readcmd_init_live {d : Daemon} {kb : Nat} {m : ModeRef}
    (h : (readcmd_init d kb).mode = some m) :
    (readcmd_init d kb).profile = some (SetRef.dev kb) ∧
      ∃ p, getProfile d (SetRef.dev kb) = some p ∧ p.currentmode = some m := by
  unfold readcmd_init at h ⊢
  dsimp only at h ⊢
  split at h
  · rename_i hh
    rw [if_pos hh]
    refine ⟨rfl, ?_⟩
    unfold currentmodeOf at h
    dsimp only at h
    cases hp : getProfile d (SetRef.dev kb) with
    | none => rw [hp] at h; simp at h
    | some p =>
      rw [hp] at h
      exact ⟨p, rfl, by simpa using h⟩
  · simp [currentmodeOf] at h

/-- The mode that `getusbmode` returns for an index within the cap and an
existing profile. -/
theorem getusbmode_snd {d : Daemon} {r : SetRef} {p : usbprofile} (id : Int)
    (hp : getProfile d r = some p) (h0 : 0 ≤ id) (h1 : id < 16) :
    (getusbmode d id (some r)).2 = some { owner := r, index := id.toNat } := by
  unfold getusbmode
  dsimp only
  rw [hp]
  dsimp only
  rw [if_pos ⟨h0, by simpa [ MODE_MAX] using h1⟩]

/-- The example key map is sane. -/
theorem sampleEnv_sane : sampleEnv.sane := by
  refine ⟨by decide, ?_⟩
  intro i _ n hn
  have hk : sampleEnv.keymap i = sampleKeymap i := rfl
  rw [hk] at hn
  unfold sampleKeymap at hn
  split at hn <;> simp only [Option.some.injEq, reduceCtorEq] at hn <;> subst hn <;> decide

/-- After one of the four per-key verbs, with a mode: on a word
`s1,...,sk:RHS` of well-formed selectors of at most ten characters the calls
are those of the loop body for each selector in turn. -/
theorem readcmd_word_selectors_of (env : Env) (st : State)
    (mode : ModeRef) (sels : List Selector) (rhs : Str)
    (hmode : st.mode = some mode)
    (hcmd : st.command = cmd.BIND ∨ st.command = cmd.UNBIND ∨ st.command = cmd.REBIND ∨
      st.command = cmd.RGB)
    (hne : sels ≠ [])
    (hwf : ∀ s ∈ sels, s.wf ∧ s.text.length ≤ 10)
    (hev : ∀ s ∈ sels, ∀ position, keyEvents env st.handler mode rhs position s.text =
      (s.resolve env).map (fun k => Event.call st.handler mode k rhs))
    (hrgb : st.command = cmd.RGB → sscanf_rgb3 (lhsText sels ++ ':' :: rhs) = false) :
    readcmd_word env st (lhsText sels ++ ':' :: rhs) =
      some (st.emit (selectorCalls env st.handler mode rhs sels)) := by
  have hcolon : ':' ∈ lhsText sels ++ ':' :: rhs := by simp
  rw [readcmd_word_of_not_verb env st (not_verb_of_colon hcolon),
    readcmd_param_keys env st mode _ hmode hcmd
      (fun h => ⟨(not_on_off_of_colon hcolon).1, (not_on_off_of_colon hcolon).2, hrgb h⟩)]
  have hm : st.command ≠ cmd.MACRO := by
    rcases hcmd with h | h | h | h <;> rw [h] <;> decide
  exact readcmd_colon_selectors_of env st mode sels rhs hne hwf hev hm

/-- After one of the four per-key verbs, with a mode: a word `s1,...,sk:RHS`
of well-formed selectors of at most ten characters calls the active handler
once per resolved key, in selector order. -/
theorem readcmd_word_selectors (env : Env) (hs : env.sane) (st : State)
    (mode : ModeRef) (sels : List Selector) (rhs : Str)
    (hmode : st.mode = some mode)
    (hcmd : st.command = cmd.BIND ∨ st.command = cmd.UNBIND ∨ st.command = cmd.REBIND ∨
      st.command = cmd.RGB)
    (hne : sels ≠ [])
    (hwf : ∀ s ∈ sels, s.wf ∧ s.text.length ≤ 10)
    (hrgb : st.command = cmd.RGB → sscanf_rgb3 (lhsText sels ++ ':' :: rhs) = false) :
    readcmd_word env st (lhsText sels ++ ':' :: rhs) =
      some (st.emit (selectorCalls env st.handler mode rhs sels)) :=
  readcmd_word_selectors_of env st mode sels rhs hmode hcmd hne hwf
    (fun s h position =>
      keyEvents_selector env hs st.handler mode rhs position s (hwf s h).1 (hwf s h).2)
    hrgb

/-- Selector loop body on `#<decimal>` for an index below `N_KEYS`: one call
for that key, whatever the key map. -/
theorem keyEvents_dec_in_range (env : Env) (handler : Option cmdhandler)
    (mode : ModeRef) (right : Str) (position : Nat) {ds : Str} (hne : ds ≠ [])
    (hd : ∀ c ∈ ds, (decVal c).isSome = true) (hl : ds.length ≤ 9)
    (hk : digitsValue 10 ds < env.N_KEYS) :
    keyEvents env handler mode right position ('#' :: ds) =
      [Event.call handler mode (digitsValue 10 ds) right] := by
  have hall : ('#' :: ds) ≠ "all".toList := by
    intro h
    have := congrArg List.head? h
    simp at this
  have h1 := sscanf_hashd_dec hne hd hl
  have hk2 : (1 : Int) ≠ 0 ∧ (0 : Int) ≤ (digitsValue 10 ds : Int) ∧
      (digitsValue 10 ds : Int) < (env.N_KEYS : Int) := by omega
  unfold keyEvents
  rw [if_neg hall, h1]
  dsimp only
  rw [Option.getD_some, if_pos hk2, Int.toNat_ofNat]

/-- After `mode`, with a mode, the word goes to the mode selection. -/
theorem readcmd_param_mode (env : Env) (st : State) (mode : ModeRef) (word : Str)
    (hcmd : st.command = cmd.MODE) (hmode : st.mode = some mode) :
    readcmd_param env st word = some (readcmd_mode st word) := by
  unfold readcmd_param
  rw [hcmd, hmode]
  dsimp only
  rw [if_neg (show ¬ cmd.MODE = cmd.NONE by decide),
    if_neg (show ¬ cmd.MODE = cmd.DEVICE by decide), if_pos rfl]

/-- The mode selection for a number from 1 to 15: mode `n - 1` of the
profile is fetched with `getusbmode` and selected. -/
theorem readcmd_mode_accept (st : State) (word : Str) (n : Int) (r : SetRef) (p : usbprofile)
    (hscan : sscanf_u word = some n) (h0 : 0 < n) (h1 : n < 16)
    (hprof : st.profile = some r) (hp : getProfile st.daemon r = some p) :
    readcmd_mode st word =
      { st with
        daemon := (getusbmode st.daemon (n - 1) (some r)).1,
        mode := some { owner := r, index := (n - 1).toNat },
        trace := st.trace ++ [Event.getusbmode (n - 1) (some r)] } := by
  unfold readcmd_mode
  rw [hscan]
  dsimp only
  rw [if_pos ⟨h0, by simpa [ MODE_MAX] using h1⟩, hprof,
    getusbmode_snd (n - 1) hp (by omega) (by omega)]

/-- The mode selection ignores a number outside 1..15 and a word that is no
number. -/
theorem readcmd_mode_reject (st : State) (word : Str)
    (h : ∀ n, sscanf_u word = some n → ¬ (0 < n ∧ n < 16)) :
    readcmd_mode st word = st := by
  unfold readcmd_mode
  cases hs : sscanf_u word with
  | none => rfl
  | some n =>
    dsimp only
    rw [if_neg (by simpa [ MODE_MAX] using h n hs)]

/-- After one of the four per-key verbs, with a mode: the word `#<d>:RHS`
for a decimal index below `N_KEYS` calls the active handler once, for that
key, with `RHS`. -/
theorem readcmd_word_dec_key (env : Env) (st : State) (mode : ModeRef) (ds rhs : Str)
    (hmode : st.mode = some mode)
    (hcmd : st.command = cmd.BIND ∨ st.command = cmd.UNBIND ∨ st.command = cmd.REBIND ∨
      st.command = cmd.RGB)
    (hne : ds ≠ []) (hd : ∀ c ∈ ds, (decVal c).isSome = true) (hl : ds.length ≤ 9)
    (hk : digitsValue 10 ds < env.N_KEYS)
    (hrgb : st.command = cmd.RGB → sscanf_rgb3 ('#' :: ds ++ ':' :: rhs) = false) :
    readcmd_word env st ('#' :: ds ++ ':' :: rhs) =
      some (st.emit [Event.call st.handler mode (digitsValue 10 ds) rhs]) := by
  have h := readcmd_word_selectors_of env st mode [Selector.dec ds] rhs hmode hcmd (by simp)
    (by
      intro s hs
      rw [List.mem_singleton] at hs
      subst hs
      exact ⟨⟨hne, hd⟩, by simp only [Selector.text, List.length_cons]; omega⟩)
    (by
      intro s hs position
      rw [List.mem_singleton] at hs
      subst hs
      show keyEvents env st.handler mode rhs position ('#' :: ds) = _
      rw [keyEvents_dec_in_range env st.handler mode rhs position hne hd hl hk]
      simp [Selector.resolve, hk])
    hrgb
  have e : selectorCalls env st.handler mode rhs [Selector.dec ds] =
      [Event.call st.handler mode (digitsValue 10 ds) rhs] := by
    simp [selectorCalls, Selector.resolve, hk]
  rw [e] at h
  exact h

/-! ### Lines for a target without a mode -/

/-- Modifying an element by a function that fixes it leaves the list as it
is. -/
theorem modify_eq_self {α : Type} (f : α → α) :
    ∀ (l : List α) (i : Nat), (∀ a, l.get? i = some a → f a = a) → l.modify f i = l := by
  intro l
  induction l with
  | nil => intro i _; cases i <;> rfl
  | cons x t ih =>
    intro i h
    cases i with
    | zero =>
      have := h x rfl
      simp [List.modify, this]
    | succ n =>
      have := ih n (fun a ha => h a (by simpa using ha))
      simp [List.modify_succ_cons, this]

/-- Storing the profile that is already there changes nothing. -/
theorem setProfile_same {d : Daemon} {r : SetRef} {p : usbprofile}
    (h : getProfile d r = some p) : setProfile d r p = d := by
  cases r with
  | dev i =>
    unfold getProfile at h
    dsimp only at h
    unfold setProfile
    dsimp only
    have : d.keyboard.modify
        (fun k => { k with setting := { k.setting with profile := p } }) i = d.keyboard := by
      apply modify_eq_self
      intro a ha
      rw [ha] at h
      simp only [Option.map_some', Option.some.injEq] at h
      subst h
      rfl
    rw [this]
  | stored j =>
    unfold getProfile at h
    dsimp only at h
    unfold setProfile
    dsimp only
    have : d.store.modify (fun s => { s with profile := p }) j = d.store := by
      apply modify_eq_self
      intro a ha
      rw [ha] at h
      simp only [Option.map_some', Option.some.injEq] at h
      subst h
      rfl
    rw [this]

/-- Assigning to `currentmode` the value it has changes nothing. -/
theorem setCurrentmode_same {d : Daemon} {r : SetRef} {m : Option ModeRef}
    (h : currentmodeOf d (some r) = m) : setCurrentmode d r m = d := by
  unfold setCurrentmode
  unfold currentmodeOf at h
  dsimp only at h
  cases hp : getProfile d r with
  | none => rfl
  | some p =>
    rw [hp] at h
    simp only [Option.some_bind] at h
    dsimp only
    rw [← h]
    exact setProfile_same hp

/-- One word of a line without `device`, for a target that has no selected
mode and whose profile (if any) has no current mode: nothing is called and
the tables stay as they are, provided the word is not one of the verbs that
act on the profile or there is no profile. -/
theorem nomode_word (env : Env) (st : State) (w : Str)
    (hm : st.mode = none) (hc : st.command ≠ cmd.DEVICE) (hw : w ≠ "device".toList)
    (hp : st.profile = none ∨ w ∉ profileVerbs)
    (hcur : currentmodeOf st.daemon st.profile = none) :
    ∃ st1, readcmd_word env st w = some st1 ∧ st1.mode = none ∧ st1.command ≠ cmd.DEVICE ∧
      st1.daemon = st.daemon ∧ st1.trace = st.trace ∧ st1.profile = st.profile := by
  by_cases h_mode : w = "mode".toList
  · subst h_mode
    exact ⟨_, readcmd_word_mode env st, hm, (by decide : cmd.MODE ≠ cmd.DEVICE), rfl, rfl, rfl⟩
  by_cases h_switch : w = "switch".toList
  · subst h_switch
    refine ⟨_, readcmd_word_switch env st, hm, (by decide : cmd.NONE ≠ cmd.DEVICE), ?_, rfl, rfl⟩
    dsimp only
    cases hpr : st.profile with
    | none => rfl
    | some p =>
      dsimp only
      rw [hpr] at hcur
      rw [hm]
      exact setCurrentmode_same hcur
  by_cases h_hwload : w = "hwload".toList
  · subst h_hwload
    have hpn : st.profile = none := by
      rcases hp with h | h
      · exact h
      · exact absurd (by decide) h
    have e := readcmd_word_hwload env st
    rw [hpn] at e
    exact ⟨_, e, hm, (by decide : cmd.NONE ≠ cmd.DEVICE), rfl, by simp, hpn.symm⟩
  by_cases h_hwsave : w = "hwsave".toList
  · subst h_hwsave
    have hpn : st.profile = none := by
      rcases hp with h | h
      · exact h
      · exact absurd (by decide) h
    have e := readcmd_word_hwsave env st
    rw [hpn] at e
    exact ⟨_, e, hm, (by decide : cmd.NONE ≠ cmd.DEVICE), rfl, by simp, hpn.symm⟩
  by_cases h_erase : w = "erase".toList
  · subst h_erase
    have e := readcmd_word_erase env st
    rw [hm] at e
    exact ⟨_, e, rfl, (by decide : cmd.NONE ≠ cmd.DEVICE), rfl, by simp, rfl⟩
  by_cases h_eraseprofile : w = "eraseprofile".toList
  · subst h_eraseprofile
    have hpn : st.profile = none := by
      rcases hp with h | h
      · exact h
      · exact absurd (by decide) h
    have e := readcmd_word_eraseprofile env st
    rw [hpn] at e
    exact ⟨_, e, hm, (by decide : cmd.NONE ≠ cmd.DEVICE), rfl, by simp, hpn.symm⟩
  by_cases h_name : w = "name".toList
  · subst h_name
    have e := readcmd_word_name env st
    rw [hm] at e
    exact ⟨_, e, rfl, (by decide : cmd.NAME ≠ cmd.DEVICE), rfl, by simp, rfl⟩
  by_cases h_profilename : w = "profilename".toList
  · subst h_profilename
    have hpn : st.profile = none := by
      rcases hp with h | h
      · exact h
      · exact absurd (by decide) h
    have e := readcmd_word_profilename env st
    rw [hpn] at e
    exact ⟨_, e, hm, (by decide : cmd.PROFILENAME ≠ cmd.DEVICE), rfl, by simp, hpn.symm⟩
  by_cases h_bind : w = "bind".toList
  · subst h_bind
    exact ⟨_, readcmd_word_bind env st, hm, (by decide : cmd.BIND ≠ cmd.DEVICE), rfl, rfl, rfl⟩
  by_cases h_unbind : w = "unbind".toList
  · subst h_unbind
    exact ⟨_, readcmd_word_unbind env st, hm, (by decide : cmd.UNBIND ≠ cmd.DEVICE), rfl, rfl, rfl⟩
  by_cases h_rebind : w = "rebind".toList
  · subst h_rebind
    exact ⟨_, readcmd_word_rebind env st, hm, (by decide : cmd.REBIND ≠ cmd.DEVICE), rfl, rfl, rfl⟩
  by_cases h_macro : w = "macro".toList
  · subst h_macro
    exact ⟨_, readcmd_word_macro env st, hm, (by decide : cmd.MACRO ≠ cmd.DEVICE), rfl, rfl, rfl⟩
  by_cases h_rgb : w = "rgb".toList
  · subst h_rgb
    have e := readcmd_word_rgb env st
    rw [hm] at e
    exact ⟨_, e, rfl, (by decide : cmd.RGB ≠ cmd.DEVICE), rfl, by simp, rfl⟩
  have hnv : w ∉ verbs := by
    intro hv
    simp only [verbs, List.mem_cons, List.mem_singleton, List.not_mem_nil, or_false] at hv
    rcases hv with h | h | h | h | h | h | h | h | h | h | h | h | h | h <;> contradiction
  refine ⟨st, ?_, hm, hc, rfl, rfl, rfl⟩
  rw [readcmd_word_of_not_verb env st hnv]
  unfold readcmd_param
  by_cases hn : st.command = cmd.NONE
  · rw [if_pos hn]
  · rw [if_neg hn, if_neg hc, hm]

/-- A line without `device`, for a target that has no selected mode: nothing
is called and the tables stay as they are, provided no word is one of the
verbs that act on the profile or there is no profile. -/
theorem nomode_words (env : Env) :
    ∀ (ws : List Str) (st : State), st.mode = none → st.command ≠ cmd.DEVICE →
      "device".toList ∉ ws → (st.profile = none ∨ ∀ w ∈ ws, w ∉ profileVerbs) →
      currentmodeOf st.daemon st.profile = none →
      ∃ st1, readcmd_words env st ws = some st1 ∧ st1.mode = none ∧
        st1.daemon = st.daemon ∧ st1.trace = st.trace := by
  intro ws
  induction ws with
  | nil =>
    intro st hm _ _ _ _
    exact ⟨st, readcmd_words_nil env st, hm, rfl, rfl⟩
  | cons w ws ih =>
    intro st hm hc hd hp hcur
    obtain ⟨st1, h1, hm1, hc1, hd1, ht1, hp1⟩ := nomode_word env st w hm hc
      (fun h => hd (by rw [h]; simp))
      (hp.imp id (fun h => h w (by simp))) hcur
    obtain ⟨st2, h2, hm2, hd2, ht2⟩ := ih st1 hm1 hc1
      (fun h => hd (List.mem_cons_of_mem _ h))
      (by
        rcases hp with h | h
        · left; rw [hp1]; exact h
        · right; exact fun x hx => h x (List.mem_cons_of_mem _ hx))
      (by rw [hd1, hp1]; exact hcur)
    refine ⟨st2, ?_, hm2, by rw [hd2, hd1], by rw [ht2, ht1]⟩
    rw [readcmd_words_cons, h1]
    exact h2

/-! ### The word after `device` -/

/-- The device that `findusb` returns is plugged in and has the serial. -/
theorem findusb_some {d : Daemon} {serial : Str} {i : Nat} (h : findusb d serial = some i) :
    ∃ k, d.keyboard.get? i = some k ∧ k.handle = true ∧ k.setting.serial = serial := by
  unfold findusb at h
  rw [List.findIdx?_eq_some_iff_getElem] at h
  obtain ⟨hi, hp, -⟩ := h
  refine ⟨d.keyboard[i], ?_, ?_, ?_⟩
  · rw [List.get?_eq_getElem?, List.getElem?_eq_getElem hi]
  · simp only [Bool.and_eq_true, decide_eq_true_eq] at hp
    exact hp.1
  · simp only [Bool.and_eq_true, decide_eq_true_eq] at hp
    exact hp.2

/-- The storage entry that `findstore` returns has the serial. -/
theorem findstore_some {d : Daemon} {serial : Str} {j : Nat} (h : findstore d serial = some j) :
    (d.store.get? j).map (fun s => s.serial) = some serial := by
  unfold findstore at h
  rw [List.findIdx?_eq_some_iff_getElem] at h
  obtain ⟨hj, hp, -⟩ := h
  rw [List.get?_eq_getElem?, List.getElem?_eq_getElem hj]
  simp only [decide_eq_true_eq] at hp
  simp [hp]

/-- What `addstore` returns: an entry for the serial, the one already stored
if there is one and else a new one appended to the storage list; the device
table is not touched. -/
theorem addstore_spec (d : Daemon) (serial : Str) :
    ∃ j, (addstore d serial).2 = some (SetRef.stored j) ∧
      (((addstore d serial).1.store.get? j).map (fun s => s.serial) = some serial) ∧
      (addstore d serial).1.keyboard = d.keyboard ∧
      (findstore d serial = some j → (addstore d serial).1 = d) ∧
      (findstore d serial = none →
        j = d.store.length ∧
        (addstore d serial).1.store =
          d.store ++ [{ profile := newprofile d.store.length, serial := serial }]) := by
  unfold addstore
  cases h : findstore d serial with
  | some j =>
    refine ⟨j, rfl, findstore_some h, rfl, fun _ => rfl, fun hn => by simp at hn⟩
  | none =>
    refine ⟨d.store.length, rfl, ?_, rfl, fun hn => by simp at hn, fun _ => ⟨rfl, rfl⟩⟩
    simp

/-- After `device` every word that is no verb goes to the retargeting. -/
theorem readcmd_param_device (env : Env) (st : State) (word : Str)
    (hcmd : st.command = cmd.DEVICE) :
    readcmd_param env st word = some (readcmd_device st word) := by
  unfold readcmd_param
  rw [hcmd, if_neg (show ¬ cmd.DEVICE = cmd.NONE by decide), if_pos rfl]

/-- A word of 32 characters is no verb. -/
theorem not_verb_of_length {word : Str} (h : word.length = 32) : word ∉ verbs := by
  intro hv
  simp only [verbs, List.mem_cons, List.mem_singleton, List.not_mem_nil, or_false] at hv
  rcases hv with rfl | rfl | rfl | rfl | rfl | rfl | rfl | rfl | rfl | rfl | rfl | rfl | rfl | rfl <;>
    revert h <;> decide

/-- Storing a profile creates no storage entry. -/
theorem setProfile_store_length (d : Daemon) (r : SetRef) (p : usbprofile) :
    (setProfile d r p).store.length = d.store.length := by
  cases r with
  | dev i => rfl
  | stored j =>
    unfold setProfile
    dsimp only
    rw [List.length_modify]

/-- Assigning `currentmode` creates no storage entry. -/
theorem setCurrentmode_store_length (d : Daemon) (r : SetRef) (m : Option ModeRef) :
    (setCurrentmode d r m).store.length = d.store.length := by
  unfold setCurrentmode
  cases getProfile d r with
  | none => rfl
  | some p => exact setProfile_store_length d r _

/-- Fetching a mode creates no storage entry. -/
theorem getusbmode_store_length (d : Daemon) (id : Int) (profile : Option SetRef) :
    (getusbmode d id profile).1.store.length = d.store.length := by
  unfold getusbmode
  cases profile with
  | none => rfl
  | some r =>
    dsimp only
    cases getProfile d r with
    | none => rfl
    | some p =>
      dsimp only
      split
      · exact setProfile_store_length d r _
      · rfl

/-- Erasing a profile creates no storage entry. -/
theorem eraseprofile_store_length (d : Daemon) (r : SetRef) :
    (eraseprofile d r).store.length = d.store.length := by
  unfold eraseprofile
  cases getProfile d r with
  | none => rfl
  | some p => exact setProfile_store_length d r _

/-- After `device`, a word whose length is not 32 (a verb or not) leaves the
target of the line as it is and creates no storage entry. -/
theorem device_other_word (env : Env) (st : State) (w : Str)
    (hcmd : st.command = cmd.DEVICE) (hw : w.length ≠ 32) :
    ∃ st1, readcmd_word env st w = some st1 ∧ st1.kb = st.kb ∧ st1.set = st.set ∧
      st1.profile = st.profile ∧ st1.daemon.store.length = st.daemon.store.length := by
  by_cases h_device : w = "device".toList
  · subst h_device
    exact ⟨_, readcmd_word_device env st, rfl, rfl, rfl, rfl⟩
  by_cases h_mode : w = "mode".toList
  · subst h_mode
    exact ⟨_, readcmd_word_mode env st, rfl, rfl, rfl, rfl⟩
  by_cases h_switch : w = "switch".toList
  · subst h_switch
    refine ⟨_, readcmd_word_switch env st, rfl, rfl, rfl, ?_⟩
    dsimp only
    cases st.profile with
    | none => rfl
    | some p => exact setCurrentmode_store_length _ _ _
  by_cases h_hwload : w = "hwload".toList
  · subst h_hwload
    exact ⟨_, readcmd_word_hwload env st, rfl, rfl, rfl, rfl⟩
  by_cases h_hwsave : w = "hwsave".toList
  · subst h_hwsave
    exact ⟨_, readcmd_word_hwsave env st, rfl, rfl, rfl, rfl⟩
  by_cases h_erase : w = "erase".toList
  · subst h_erase
    exact ⟨_, readcmd_word_erase env st, rfl, rfl, rfl, rfl⟩
  by_cases h_eraseprofile : w = "eraseprofile".toList
  · subst h_eraseprofile
    have e := readcmd_word_eraseprofile env st
    cases hp : st.profile with
    | none =>
      rw [hp] at e
      exact ⟨_, e, rfl, rfl, rfl, rfl⟩
    | some p =>
      rw [hp] at e
      refine ⟨_, e, rfl, rfl, rfl, ?_⟩
      dsimp only
      rw [setCurrentmode_store_length, getusbmode_store_length, eraseprofile_store_length]
  by_cases h_name : w = "name".toList
  · subst h_name
    exact ⟨_, readcmd_word_name env st, rfl, rfl, rfl, rfl⟩
  by_cases h_profilename : w = "profilename".toList
  · subst h_profilename
    exact ⟨_, readcmd_word_profilename env st, rfl, rfl, rfl, rfl⟩
  by_cases h_bind : w = "bind".toList
  · subst h_bind
    exact ⟨_, readcmd_word_bind env st, rfl, rfl, rfl, rfl⟩
  by_cases h_unbind : w = "unbind".toList
  · subst h_unbind
    exact ⟨_, readcmd_word_unbind env st, rfl, rfl, rfl, rfl⟩
  by_cases h_rebind : w = "rebind".toList
  · subst h_rebind
    exact ⟨_, readcmd_word_rebind env st, rfl, rfl, rfl, rfl⟩
  by_cases h_macro : w = "macro".toList
  · subst h_macro
    exact ⟨_, readcmd_word_macro env st, rfl, rfl, rfl, rfl⟩
  by_cases h_rgb : w = "rgb".toList
  · subst h_rgb
    exact ⟨_, readcmd_word_rgb env st, rfl, rfl, rfl, rfl⟩
  have hnv : w ∉ verbs := by
    intro hv
    simp only [verbs, List.mem_cons, List.mem_singleton, List.not_mem_nil, or_false] at hv
    rcases hv with h | h | h | h | h | h | h | h | h | h | h | h | h | h <;> contradiction
  refine ⟨st, ?_, rfl, rfl, rfl, rfl⟩
  rw [readcmd_word_of_not_verb env st hnv, readcmd_param_device env st w hcmd]
  unfold readcmd_device
  rw [if_neg (by simpa [SERIAL_LEN] using hw)]

/-! ### Words of a line written with single spaces -/

/-- A leading space is skipped by the word scan. -/
theorem sscanf_word_space (rest : Str) :
    sscanf_word (' ' :: rest) = (sscanf_word rest).map (fun r => (r.1, r.2 + 1)) := by
  have hle : (rest.dropWhile isspace).length ≤ rest.length :=
    (List.dropWhile_sublist _).length_le
  unfold sscanf_word
  have hd : (' ' :: rest).dropWhile isspace = rest.dropWhile isspace := by
    rw [List.dropWhile_cons_of_pos (by decide)]
  rw [hd]
  cases h : rest.dropWhile isspace with
  | nil => rfl
  | cons c t =>
    rw [h] at hle
    simp only [Option.map_some', List.length_cons, Option.some.injEq, Prod.mk.injEq, true_and]
    simp only [List.length_cons] at hle
    omega

/-- A leading space does not change the words read. -/
theorem wordsOf_space (fuel : Nat) (rest : Str) :
    wordsOf fuel (' ' :: rest) = wordsOf fuel rest := by
  cases fuel with
  | zero => rfl
  | succ n =>
    unfold wordsOf
    rw [sscanf_word_space]
    cases sscanf_word rest with
    | none => rfl
    | some r => rfl

/-- The word scan reads a word up to the space that follows it. -/
theorem sscanf_word_append {w : Str} (rest : Str) (hne : w ≠ [])
    (hw : ∀ c ∈ w, isspace c = false) :
    sscanf_word (w ++ ' ' :: rest) = some (w, w.length) := by
  obtain ⟨c, t, rfl⟩ := List.exists_cons_of_ne_nil hne
  have hc : isspace c = false := hw c (by simp)
  have hd : (c :: t ++ ' ' :: rest).dropWhile isspace = c :: t ++ ' ' :: rest := by
    rw [List.cons_append, List.dropWhile_cons_of_neg (by simp [hc])]
  have ht : (c :: t ++ ' ' :: rest).takeWhile (fun c => !isspace c) = c :: t := by
    rw [List.takeWhile_append_of_pos (by intro x hx; simp [hw x hx])]
    simp [show isspace ' ' = true by decide]
  unfold sscanf_word
  rw [hd]
  simp only [List.cons_append] at ht ⊢
  rw [ht]
  simp

/-- The words of `w`, a space and the rest: `w` and the words of the rest. -/
theorem words_append {w : Str} (rest : Str) (hne : w ≠ [])
    (hw : ∀ c ∈ w, isspace c = false) :
    words (w ++ ' ' :: rest) = w :: words rest := by
  have h1 : wordsOf ((w ++ ' ' :: rest).length + 1) (w ++ ' ' :: rest) =
      w :: wordsOf (w ++ ' ' :: rest).length (' ' :: rest) := by
    rw [wordsOf, sscanf_word_append rest hne hw]
    dsimp only
    rw [List.drop_left]
  unfold words
  rw [h1, wordsOf_space,
    wordsOf_fuel _ (rest.length + 1) rest
      (by rw [List.length_append, List.length_cons]; omega) (Nat.lt_succ_self _)]

/-- Selector loop body on `all`: one call per key, in ascending order. -/
theorem keyEvents_all (env : Env) (handler : Option cmdhandler) (mode : ModeRef)
    (right : Str) (position : Nat) :
    keyEvents env handler mode right position "all".toList =
      (List.range env.N_KEYS).map (fun k => Event.call handler mode k right) := by
  unfold keyEvents
  rw [if_pos rfl]
  rfl

/-- After one of the four per-key verbs, with a mode: the word `all:RHS`
calls the active handler for every key, in ascending order, with `RHS`. -/
theorem readcmd_word_all (env : Env) (st : State) (mode : ModeRef) (rhs : Str)
    (hmode : st.mode = some mode)
    (hcmd : st.command = cmd.BIND ∨ st.command = cmd.UNBIND ∨ st.command = cmd.REBIND ∨
      st.command = cmd.RGB)
    (hrgb : st.command = cmd.RGB → sscanf_rgb3 ("all".toList ++ ':' :: rhs) = false) :
    readcmd_word env st ("all".toList ++ ':' :: rhs) =
      some (st.emit ((List.range env.N_KEYS).map
        (fun k => Event.call st.handler mode k rhs))) := by
  have h := readcmd_word_selectors_of env st mode [Selector.all] rhs hmode hcmd (by simp)
    (by
      intro s hs
      rw [List.mem_singleton] at hs
      subst hs
      exact ⟨trivial, by decide⟩)
    (by
      intro s hs position
      rw [List.mem_singleton] at hs
      subst hs
      exact keyEvents_all env st.handler mode rhs position)
    hrgb
  have e : selectorCalls env st.handler mode rhs [Selector.all] =
      (List.range env.N_KEYS).map (fun k => Event.call st.handler mode k rhs) := by
    simp [selectorCalls, Selector.resolve]
  rw [e] at h
  exact h

/-- A word `all:RHS` does not scan as three hexadecimal bytes. -/
theorem sscanf_rgb3_all (rhs : Str) : sscanf_rgb3 ("all".toList ++ ':' :: rhs) = false := by
  have h1 : scanNum 16 2 ("all".toList ++ ':' :: rhs) =
      Conv.ok false 10 ("ll".toList ++ ':' :: rhs) := by
    rfl
  have h2 : scanNum 16 2 ("ll".toList ++ ':' :: rhs) = Conv.fail := by
    rfl
  unfold sscanf_rgb3
  rw [h1]
  dsimp only
  rw [h2]

/-- The retargeting to a serial that is neither plugged in nor stored: a new
storage entry is appended and becomes the target, with its mode 0
selected. -/
theorem readcmd_device_unknown (st : State) (s : Str) (hlen : s.length = 32)
    (hlive : findusb st.daemon s = none) (hstore : findstore st.daemon s = none) :
    readcmd_device st s =
      { st with
        daemon :=
          { st.daemon with
            store :=
              st.daemon.store ++
                [{ profile := newprofile st.daemon.store.length, serial := s }] },
        kb := none,
        set := some (SetRef.stored st.daemon.store.length),
        profile := some (SetRef.stored st.daemon.store.length),
        mode := some { owner := SetRef.stored st.daemon.store.length, index := 0 },
        trace := st.trace ++ [Event.addstore s] } := by
  have ha : addstore st.daemon s =
      ({ st.daemon with
          store :=
            st.daemon.store ++
              [{ profile := newprofile st.daemon.store.length, serial := s }] },
        some (SetRef.stored st.daemon.store.length)) := by
    unfold addstore
    rw [hstore]
  unfold readcmd_device
  rw [if_pos (by rw [hlen]; rfl), hlive]
  dsimp only
  rw [ha]
  dsimp only
  have hm : currentmodeOf
      { st.daemon with
        store :=
          st.daemon.store ++ [{ profile := newprofile st.daemon.store.length, serial := s }] }
      (some (SetRef.stored st.daemon.store.length)) =
      some { owner := SetRef.stored st.daemon.store.length, index := 0 } := by
    simp [currentmodeOf, getProfile, newprofile]
  rw [hm]

/-! ### The words cover the line -/

/-- Dropping as many elements as `takeWhile` takes is `dropWhile`. -/
theorem drop_takeWhile_length {α : Type} (p : α → Bool) (l : List α) :
    l.drop (l.takeWhile p).length = l.dropWhile p := by
  induction l with
  | nil => rfl
  | cons a t ih =>
    by_cases h : p a = true
    · rw [List.takeWhile_cons_of_pos h, List.dropWhile_cons_of_pos h]
      simpa using ih
    · rw [List.takeWhile_cons_of_neg h, List.dropWhile_cons_of_neg h]
      rfl

/-- After a successful `%s`, `line + wordlen` is what follows the word, and
the word is the run of non-space characters after the leading white
space. -/
theorem sscanf_word_rest {line word : Str} {wordlen : Nat}
    (h : sscanf_word line = some (word, wordlen)) :
    word = (line.dropWhile isspace).takeWhile (fun c => !isspace c) ∧
      line.drop wordlen = (line.dropWhile isspace).drop word.length := by
  unfold sscanf_word at h
  have hsplit : line.takeWhile isspace ++ line.dropWhile isspace = line :=
    List.takeWhile_append_dropWhile isspace line
  have hlen : (line.takeWhile isspace).length + (line.dropWhile isspace).length = line.length := by
    rw [← List.length_append, hsplit]
  have hdr := drop_takeWhile_length isspace line
  generalize hr : line.dropWhile isspace = rest at h hsplit hlen hdr
  cases rest with
  | nil => simp at h
  | cons c t =>
    simp only [Option.some.injEq, Prod.mk.injEq] at h
    obtain ⟨hw, hn⟩ := h
    refine ⟨hw.symm, ?_⟩
    have e : wordlen = (line.takeWhile isspace).length + word.length := by
      rw [← hn, hw]; omega
    rw [e, ← List.drop_drop, hdr]

/-- Skipping leading white space drops no other character. -/
theorem filter_dropWhile_space (l : Str) :
    (l.dropWhile isspace).filter (fun c => !isspace c) = l.filter (fun c => !isspace c) := by
  induction l with
  | nil => rfl
  | cons c t ih =>
    by_cases hc : isspace c = true
    · rw [List.dropWhile_cons_of_pos hc, ih, List.filter_cons_of_neg (by simp [hc])]
    · rw [List.dropWhile_cons_of_neg hc]

/-- The characters of the words read, in order, are exactly the characters
of the line that are not white space: the word loop skips nothing else. -/
theorem wordsOf_flatten :
    ∀ (fuel : Nat) (line : Str), line.length < fuel →
      (wordsOf fuel line).flatten = line.filter (fun c => !isspace c) := by
  intro fuel
  induction fuel with
  | zero => intro line h; omega
  | succ n ih =>
    intro line h
    unfold wordsOf
    cases hs : sscanf_word line with
    | none =>
      have hd : line.dropWhile isspace = [] := by
        unfold sscanf_word at hs
        cases hr : line.dropWhile isspace with
        | nil => rfl
        | cons c t => rw [hr] at hs; simp at hs
      rw [← filter_dropWhile_space, hd]
      rfl
    | some ww =>
      obtain ⟨word, wordlen⟩ := ww
      have hc := sscanf_word_consumes hs
      obtain ⟨hw, hrest⟩ := sscanf_word_rest hs
      dsimp only
      rw [List.flatten_cons, ih _ (by rw [List.length_drop]; omega), hrest,
        ← filter_dropWhile_space line]
      have hsplit := List.takeWhile_append_dropWhile (fun c => !isspace c)
        (line.dropWhile isspace)
      have hdrop : (line.dropWhile isspace).drop word.length =
          (line.dropWhile isspace).dropWhile (fun c => !isspace c) := by
        conv_lhs => rw [← hsplit, hw]
        rw [List.drop_left]
      rw [hdrop]
      conv_rhs => rw [← hsplit, List.filter_append]
      congr 1
      rw [hw]
      symm
      rw [List.filter_eq_self]
      intro a ha
      exact @List.mem_takeWhile_imp _ (fun c => !isspace c) _ a ha

/-! ### Profiles in the tables -/

/-- The profile read back after it was stored. -/
theorem getProfile_setProfile {d : Daemon} {r : SetRef} {p0 : usbprofile} (p : usbprofile)
    (h : getProfile d r = some p0) : getProfile (setProfile d r p) r = some p := by
  cases r with
  | dev i =>
    unfold getProfile at h ⊢
    unfold setProfile
    dsimp only at h ⊢
    rw [List.get?_eq_getElem?] at h ⊢
    rw [List.getElem?_modify_eq]
    cases hk : d.keyboard[i]? with
    | none => rw [hk] at h; simp at h
    | some k => rfl
  | stored j =>
    unfold getProfile at h ⊢
    unfold setProfile
    dsimp only at h ⊢
    rw [List.get?_eq_getElem?] at h ⊢
    rw [List.getElem?_modify_eq]
    cases hk : d.store[j]? with
    | none => rw [hk] at h; simp at h
    | some k => rfl

/-- Storing a profile leaves the other profiles as they are. -/
theorem getProfile_setProfile_ne (d : Daemon) {r r1 : SetRef} (p : usbprofile) (h : r1 ≠ r) :
    getProfile (setProfile d r p) r1 = getProfile d r1 := by
  cases r with
  | dev i =>
    cases r1 with
    | dev i1 =>
      have hi : i ≠ i1 := fun e => h (by rw [e])
      unfold getProfile setProfile
      dsimp only
      rw [List.get?_eq_getElem?, List.get?_eq_getElem?, List.getElem?_modify_ne _ _ hi]
    | stored j1 => rfl
  | stored j =>
    cases r1 with
    | dev i1 => rfl
    | stored j1 =>
      have hj : j ≠ j1 := fun e => h (by rw [e])
      unfold getProfile setProfile
      dsimp only
      rw [List.get?_eq_getElem?, List.get?_eq_getElem?, List.getElem?_modify_ne _ _ hj]

/-- Storing a profile where none is does nothing. -/
theorem setProfile_of_none {d : Daemon} {r : SetRef} (p : usbprofile)
    (h : getProfile d r = none) : setProfile d r p = d := by
  cases r with
  | dev i =>
    unfold getProfile at h
    dsimp only at h
    unfold setProfile
    dsimp only
    have : d.keyboard.modify
        (fun k => { k with setting := { k.setting with profile := p } }) i = d.keyboard := by
      apply modify_eq_self
      intro a ha
      rw [ha] at h
      simp at h
    rw [this]
  | stored j =>
    unfold getProfile at h
    dsimp only at h
    unfold setProfile
    dsimp only
    have : d.store.modify (fun s => { s with profile := p }) j = d.store := by
      apply modify_eq_self
      intro a ha
      rw [ha] at h
      simp at h
    rw [this]

/-- The tables after `eraseprofile(profile)` and
`mode = profile->currentmode = getusbmode(0, profile)`: the profile has one
mode, mode 0, which is current, and that mode is returned. -/
theorem erase_and_reseat {d : Daemon} {r : SetRef} {p0 : usbprofile}
    (h : getProfile d r = some p0) :
    (getusbmode (eraseprofile d r) 0 (some r)).2 = some { owner := r, index := 0 } ∧
      getProfile
          (setCurrentmode (getusbmode (eraseprofile d r) 0 (some r)).1 r
            (getusbmode (eraseprofile d r) 0 (some r)).2) r =
        some { modecount := 1, currentmode := some { owner := r, index := 0 } } := by
  have h1 : getProfile (eraseprofile d r) r = some { modecount := 0, currentmode := none } := by
    unfold eraseprofile
    rw [h]
    exact getProfile_setProfile _ h
  have h2 : getusbmode (eraseprofile d r) 0 (some r) =
      (setProfile (eraseprofile d r) r { modecount := 1, currentmode := none },
        some { owner := r, index := 0 }) := by
    unfold getusbmode
    dsimp only
    rw [h1]
    dsimp only
    rw [if_pos (by decide)]
    rfl
  have h3 := @getProfile_setProfile (eraseprofile d r) r _
    { modecount := 1, currentmode := none } h1
  rw [h2]
  refine ⟨rfl, ?_⟩
  dsimp only
  unfold setCurrentmode
  rw [h3]
  exact getProfile_setProfile _ h3

/-- After `name`, with a mode, the word becomes the name of the mode. -/
theorem readcmd_param_name (env : Env) (st : State) (mode : ModeRef) (word : Str)
    (hcmd : st.command = cmd.NAME) (hmode : st.mode = some mode) :
    readcmd_param env st word = some (st.emit [Event.setmodename mode word]) := by
  unfold readcmd_param
  rw [hcmd, hmode]
  dsimp only
  rw [if_neg (show ¬ cmd.NAME = cmd.NONE by decide),
    if_neg (show ¬ cmd.NAME = cmd.DEVICE by decide),
    if_neg (show ¬ cmd.NAME = cmd.MODE by decide), if_pos rfl]

/-- The word `eraseprofile` on a profile that exists: the profile is left
with mode 0 alone, which is current and selected. -/
theorem readcmd_word_eraseprofile_live (env : Env) (st : State) {r : SetRef} {p0 : usbprofile}
    (hprof : st.profile = some r) (hp : getProfile st.daemon r = some p0) :
    ∃ st1, readcmd_word env st "eraseprofile".toList = some st1 ∧
      getProfile st1.daemon r =
        some { modecount := 1, currentmode := some { owner := r, index := 0 } } ∧
      st1.mode = some { owner := r, index := 0 } ∧ st1.profile = some r ∧
      st1.kb = st.kb ∧ st1.set = st.set ∧ st1.command = cmd.NONE ∧ st1.rgbchange = true ∧
      st1.trace = st.trace ++ [Event.eraseprofile r, Event.getusbmode 0 (some r)] := by
  obtain ⟨h2, h3⟩ := erase_and_reseat hp
  rw [readcmd_word_eraseprofile, hprof]
  exact ⟨_, rfl, h3, h2, rfl, rfl, rfl, rfl, rfl, rfl⟩

/-! ### What a word does to the tables and the target -/

/-- A word that is no verb keeps the active command; it leaves the tables,
the target and the selected mode alone unless it is the word after `device`
or the word after `mode`. -/
theorem readcmd_param_cases (env : Env) (st : State) (word : Str) :
    ∃ st1, readcmd_param env st word = some st1 ∧ st1.command = st.command ∧
      (st.sameTarget st1 ∨ (st.command = cmd.DEVICE ∧ st1 = readcmd_device st word) ∨
        (st.command = cmd.MODE ∧ st1 = readcmd_mode st word)) := by
  have hsame : ∃ st1, some st = some st1 ∧ st1.command = st.command ∧
      (st.sameTarget st1 ∨ (st.command = cmd.DEVICE ∧ st1 = readcmd_device st word) ∨
        (st.command = cmd.MODE ∧ st1 = readcmd_mode st word)) :=
    ⟨st, rfl, rfl, Or.inl ⟨rfl, rfl, rfl, rfl, rfl⟩⟩
  have hemit : ∀ evs : List Event, ∃ st1, some (st.emit evs) = some st1 ∧
      st1.command = st.command ∧
      (st.sameTarget st1 ∨ (st.command = cmd.DEVICE ∧ st1 = readcmd_device st word) ∨
        (st.command = cmd.MODE ∧ st1 = readcmd_mode st word)) :=
    fun evs => ⟨_, rfl, rfl, Or.inl ⟨rfl, rfl, rfl, rfl, rfl⟩⟩
  have hcolon : ∀ mode, ∃ st1, readcmd_colon env st mode word = some st1 ∧
      st1.command = st.command ∧
      (st.sameTarget st1 ∨ (st.command = cmd.DEVICE ∧ st1 = readcmd_device st word) ∨
        (st.command = cmd.MODE ∧ st1 = readcmd_mode st word)) := by
    intro mode
    obtain ⟨evs, h, -⟩ := readcmd_colon_frame env st mode word
    rw [h]
    exact hemit evs
  unfold readcmd_param
  by_cases h1 : st.command = cmd.NONE
  · rw [if_pos h1]; exact hsame
  rw [if_neg h1]
  by_cases h2 : st.command = cmd.DEVICE
  · rw [if_pos h2]
    obtain ⟨evs, -, b, -, -, -⟩ := readcmd_device_frame st word
    exact ⟨_, rfl, b, Or.inr (Or.inl ⟨h2, rfl⟩)⟩
  rw [if_neg h2]
  cases hm : st.mode with
  | none => exact hsame
  | some mode =>
    simp only []
    by_cases h3 : st.command = cmd.MODE
    · rw [if_pos h3]
      obtain ⟨evs, -, b, -, -, -⟩ := readcmd_mode_frame st word
      exact ⟨_, rfl, b, Or.inr (Or.inr ⟨h3, rfl⟩)⟩
    rw [if_neg h3]
    by_cases h4 : st.command = cmd.NAME
    · rw [if_pos h4]; exact hemit _
    rw [if_neg h4]
    by_cases h5 : st.command = cmd.PROFILENAME
    · rw [if_pos h5]; exact hemit _
    rw [if_neg h5]
    by_cases h6 : st.command = cmd.RGB
    · rw [if_pos h6]
      by_cases h7 : word = "on".toList
      · rw [if_pos h7]; exact hemit _
      rw [if_neg h7]
      by_cases h8 : word = "off".toList
      · rw [if_pos h8]; exact hemit _
      rw [if_neg h8]
      by_cases h9 : sscanf_rgb3 word = true
      · rw [if_pos h9]; exact hemit _
      rw [if_neg h9]
      exact hcolon mode
    rw [if_neg h6]
    by_cases h10 : st.command = cmd.MACRO ∧ word = "clear".toList
    · rw [if_pos h10]; exact hemit _
    rw [if_neg h10]
    exact hcolon mode

/-- What one word does to the tables, the target and the selected mode: they
stay as they are unless the word is `switch` or `eraseprofile`, the word
after `device`, or the word after `mode`.  The active command becomes
`DEVICE` only through the word `device`. -/
theorem readcmd_word_cases (env : Env) (st : State) (word : Str) :
    ∃ st1, readcmd_word env st word = some st1 ∧
      (st1.command = cmd.DEVICE → word = "device".toList ∨ st.command = cmd.DEVICE) ∧
      (st.sameTarget st1 ∨
        (word = "switch".toList ∧ st1.profile = st.profile ∧ st1.mode = st.mode ∧
          st1.daemon =
            (match st.profile with
             | some p => setCurrentmode st.daemon p st.mode
             | none => st.daemon)) ∨
        (word = "eraseprofile".toList ∧ ∃ p, st.profile = some p ∧ st1.profile = some p ∧
          st1.mode = (getusbmode (eraseprofile st.daemon p) 0 (some p)).2 ∧
          st1.daemon =
            setCurrentmode (getusbmode (eraseprofile st.daemon p) 0 (some p)).1 p
              (getusbmode (eraseprofile st.daemon p) 0 (some p)).2) ∨
        (word ≠ "device".toList ∧ st.command = cmd.DEVICE ∧ st1 = readcmd_device st word) ∨
        (st.command = cmd.MODE ∧ st1 = readcmd_mode st word)) := by
  have hsame : ∀ st1 : State, st.sameTarget st1 → st1.command ≠ cmd.DEVICE →
      ∃ st2, some st1 = some st2 ∧
      (st2.command = cmd.DEVICE → word = "device".toList ∨ st.command = cmd.DEVICE) ∧
      (st.sameTarget st2 ∨
        (word = "switch".toList ∧ st2.profile = st.profile ∧ st2.mode = st.mode ∧
          st2.daemon =
            (match st.profile with
             | some p => setCurrentmode st.daemon p st.mode
             | none => st.daemon)) ∨
        (word = "eraseprofile".toList ∧ ∃ p, st.profile = some p ∧ st2.profile = some p ∧
          st2.mode = (getusbmode (eraseprofile st.daemon p) 0 (some p)).2 ∧
          st2.daemon =
            setCurrentmode (getusbmode (eraseprofile st.daemon p) 0 (some p)).1 p
              (getusbmode (eraseprofile st.daemon p) 0 (some p)).2) ∨
        (word ≠ "device".toList ∧ st.command = cmd.DEVICE ∧ st2 = readcmd_device st word) ∨
        (st.command = cmd.MODE ∧ st2 = readcmd_mode st word)) :=
    fun st1 h hc => ⟨st1, rfl, fun e => absurd e hc, Or.inl h⟩
  by_cases h1 : word = "device".toList
  · subst h1
    rw [readcmd_word_device]
    exact ⟨_, rfl, fun _ => Or.inl rfl, Or.inl ⟨rfl, rfl, rfl, rfl, rfl⟩⟩
  by_cases h2 : word = "mode".toList
  · subst h2
    rw [readcmd_word_mode]
    exact hsame _ ⟨rfl, rfl, rfl, rfl, rfl⟩ (by simp)
  by_cases h3 : word = "switch".toList
  · subst h3
    rw [readcmd_word_switch]
    exact ⟨_, rfl, fun e => absurd e (by simp), Or.inr (Or.inl ⟨rfl, rfl, rfl, rfl⟩)⟩
  by_cases h4 : word = "hwload".toList
  · subst h4
    rw [readcmd_word_hwload]
    exact hsame _ ⟨rfl, rfl, rfl, rfl, rfl⟩ (by simp)
  by_cases h5 : word = "hwsave".toList
  · subst h5
    rw [readcmd_word_hwsave]
    exact hsame _ ⟨rfl, rfl, rfl, rfl, rfl⟩ (by simp)
  by_cases h6 : word = "erase".toList
  · subst h6
    rw [readcmd_word_erase]
    exact hsame _ ⟨rfl, rfl, rfl, rfl, rfl⟩ (by simp)
  by_cases h7 : word = "eraseprofile".toList
  · subst h7
    rw [readcmd_word_eraseprofile]
    cases hp : st.profile with
    | none =>
      exact ⟨_, rfl, fun e => absurd e (by simp), Or.inl ⟨rfl, rfl, rfl, hp.symm, rfl⟩⟩
    | some p =>
      exact ⟨_, rfl, fun e => absurd e (by simp),
        Or.inr (Or.inr (Or.inl ⟨rfl, p, rfl, rfl, rfl, rfl⟩))⟩
  by_cases h8 : word = "name".toList
  · subst h8
    rw [readcmd_word_name]
    exact hsame _ ⟨rfl, rfl, rfl, rfl, rfl⟩ (by simp)
  by_cases h9 : word = "profilename".toList
  · subst h9
    rw [readcmd_word_profilename]
    exact hsame _ ⟨rfl, rfl, rfl, rfl, rfl⟩ (by simp)
  by_cases h10 : word = "bind".toList
  · subst h10
    rw [readcmd_word_bind]
    exact hsame _ ⟨rfl, rfl, rfl, rfl, rfl⟩ (by simp)
  by_cases h11 : word = "unbind".toList
  · subst h11
    rw [readcmd_word_unbind]
    exact hsame _ ⟨rfl, rfl, rfl, rfl, rfl⟩ (by simp)
  by_cases h12 : word = "rebind".toList
  · subst h12
    rw [readcmd_word_rebind]
    exact hsame _ ⟨rfl, rfl, rfl, rfl, rfl⟩ (by simp)
  by_cases h13 : word = "macro".toList
  · subst h13
    rw [ readcmd_word_macro]
    exact hsame _ ⟨rfl, rfl, rfl, rfl, rfl⟩ (by simp)
  by_cases h14 : word = "rgb".toList
  · subst h14
    rw [readcmd_word_rgb]
    exact hsame _ ⟨rfl, rfl, rfl, rfl, rfl⟩ (by simp)
  have hv : word ∉ verbs := by
    simp only [verbs, List.mem_cons, List.mem_singleton, List.not_mem_nil, or_false, not_or]
    exact ⟨h1, h2, h3, h4, h5, h6, h7, h8, h9, h10, h11, h12, h13, h14⟩
  rw [readcmd_word_of_not_verb env st hv]
  obtain ⟨st1, h, hc, hcase⟩ := readcmd_param_cases env st word
  refine ⟨st1, h, fun e => Or.inr (hc ▸ e), ?_⟩
  rcases hcase with hs | ⟨hd, e⟩ | ⟨hm, e⟩
  · exact Or.inl hs
  · exact Or.inr (Or.inr (Or.inr (Or.inl ⟨h1, hd, e⟩)))
  · exact Or.inr (Or.inr (Or.inr (Or.inr ⟨hm, e⟩)))

/-! ### The current mode of the profiles -/

/-- The profile read back after `profile->currentmode = mode`. -/
theorem getProfile_setCurrentmode {d : Daemon} {r : SetRef} {p : usbprofile}
    (mode : Option ModeRef) (h : getProfile d r = some p) :
    getProfile (setCurrentmode d r mode) r = some { p with currentmode := mode } := by
  unfold setCurrentmode
  rw [h]
  exact getProfile_setProfile _ h

/-- The assignment `profile->currentmode = mode` leaves the other profiles as
they are. -/
theorem getProfile_setCurrentmode_ne (d : Daemon) {r r1 : SetRef} (mode : Option ModeRef)
    (h : r1 ≠ r) : getProfile (setCurrentmode d r mode) r1 = getProfile d r1 := by
  unfold setCurrentmode
  cases getProfile d r with
  | none => rfl
  | some p => exact getProfile_setProfile_ne d _ h

/-- The mode fetched from a profile that exists, for an index within the cap. -/
theorem getusbmode_eq {d : Daemon} {r : SetRef} {p : usbprofile} (id : Int)
    (hp : getProfile d r = some p) (h0 : 0 ≤ id) (h1 : id < 16) :
    getusbmode d id (some r) =
      (setProfile d r { p with modecount := max p.modecount (id.toNat + 1) },
        some { owner := r, index := id.toNat }) := by
  unfold getusbmode
  dsimp only
  rw [hp]
  dsimp only
  rw [if_pos ⟨h0, by simpa [ MODE_MAX] using h1⟩]

/-- Fetching a mode changes the current mode of no profile. -/
theorem currentIndex_getusbmode (d : Daemon) (id : Int) (profile : Option SetRef)
    (r1 : SetRef) : currentIndex (getusbmode d id profile).1 r1 = currentIndex d r1 := by
  unfold getusbmode
  cases profile with
  | none => rfl
  | some r =>
    dsimp only
    cases hp : getProfile d r with
    | none => rfl
    | some p =>
      dsimp only
      by_cases hid : 0 ≤ id ∧ id < (MODE_MAX : Int)
      · rw [if_pos hid]
        dsimp only
        unfold currentIndex
        by_cases hr : r1 = r
        · subst hr
          rw [getProfile_setProfile _ hp, hp]
          rfl
        · rw [getProfile_setProfile_ne d _ hr]
      · rw [if_neg hid]

/-- The word after `mode` changes the current mode of no profile. -/
theorem currentIndex_readcmd_mode (st : State) (word : Str) (r1 : SetRef) :
    currentIndex (readcmd_mode st word).daemon r1 = currentIndex st.daemon r1 := by
  unfold readcmd_mode
  split
  · split
    · exact currentIndex_getusbmode _ _ _ r1
    · rfl
  · rfl

/-- No verb reads as a number. -/
theorem not_verb_of_number {word : Str} {n : Int} (h : sscanf_u word = some n) :
    word ∉ verbs := by
  have hall : ∀ v ∈ verbs, sscanf_u v = none := by decide
  intro hv
  rw [hall word hv] at h
  cases h

/-- The final test changes no table. -/
theorem readcmd_finish_daemon (st : State) : (readcmd_finish st).daemon = st.daemon := by
  unfold readcmd_finish
  split <;> rfl

/-- A word other than `switch`, `eraseprofile`, `hwload` and `device`, read
while the active command is not `DEVICE`, changes the current mode of no
profile. -/
theorem currentIndex_word (env : Env) (st : State) (word : Str) (hw : word ∉ switchVerbs)
    (hc : st.command ≠ cmd.DEVICE) :
    ∃ st1, readcmd_word env st word = some st1 ∧ st1.command ≠ cmd.DEVICE ∧
      ∀ r, currentIndex st1.daemon r = currentIndex st.daemon r := by
  simp only [switchVerbs, List.mem_cons, List.mem_singleton, List.not_mem_nil, or_false,
    not_or] at hw
  obtain ⟨h1, h2, -, h4⟩ := hw
  obtain ⟨st1, h, hcmd, hcase⟩ := readcmd_word_cases env st word
  refine ⟨st1, h, fun e => ?_, ?_⟩
  · rcases hcmd e with e1 | e1
    · exact h4 e1
    · exact hc e1
  · intro r
    rcases hcase with hs | ⟨e, -⟩ | ⟨e, -⟩ | ⟨-, e, -⟩ | ⟨-, e⟩
    · rw [hs.1]
    · exact absurd e h1
    · exact absurd e h2
    · exact absurd e hc
    · rw [e]
      exact currentIndex_readcmd_mode st word r

/-- Words other than `switch`, `eraseprofile`, `hwload` and `device` change
the current mode of no profile. -/
theorem currentIndex_words (env : Env) :
    ∀ (ws : List Str) (st : State), (∀ w ∈ ws, w ∉ switchVerbs) → st.command ≠ cmd.DEVICE →
      ∃ st1, readcmd_words env st ws = some st1 ∧
        ∀ r, currentIndex st1.daemon r = currentIndex st.daemon r := by
  intro ws
  induction ws with
  | nil =>
    intro st _ _
    exact ⟨st, readcmd_words_nil env st, fun _ => rfl⟩
  | cons w ws ih =>
    intro st hws hc
    obtain ⟨st1, h1, hc1, hr1⟩ :=
      currentIndex_word env st w (hws w (List.mem_cons_self _ _)) hc
    obtain ⟨st2, h2, hr2⟩ := ih st1 (fun v hv => hws v (List.mem_cons_of_mem _ hv)) hc1
    refine ⟨st2, ?_, fun r => (hr2 r).trans (hr1 r)⟩
    rw [readcmd_words_cons, h1, Option.some_bind, h2]

/-! ### USB handles and profiles in use -/

/-- Storing a profile changes no USB handle. -/
theorem live_setProfile (d : Daemon) (r : SetRef) (p : usbprofile) (i : Nat) :
    live (setProfile d r p) i = live d i := by
  cases r with
  | stored j => rfl
  | dev j =>
    unfold live setProfile
    dsimp only
    rw [List.get?_eq_getElem?, List.get?_eq_getElem?]
    by_cases hji : j = i
    · rw [hji, List.getElem?_modify_eq]
      cases d.keyboard[i]? with
      | none => rfl
      | some k => rfl
    · rw [List.getElem?_modify_ne _ _ hji]

/-- The assignment `profile->currentmode = mode` changes no USB handle. -/
theorem live_setCurrentmode (d : Daemon) (r : SetRef) (mode : Option ModeRef) (i : Nat) :
    live (setCurrentmode d r mode) i = live d i := by
  unfold setCurrentmode
  cases getProfile d r with
  | none => rfl
  | some p => exact live_setProfile d r _ i

/-- Fetching a mode changes no USB handle. -/
theorem live_getusbmode (d : Daemon) (id : Int) (profile : Option SetRef) (i : Nat) :
    live (getusbmode d id profile).1 i = live d i := by
  unfold getusbmode
  cases profile with
  | none => rfl
  | some r =>
    dsimp only
    cases getProfile d r with
    | none => rfl
    | some p =>
      dsimp only
      split
      · exact live_setProfile d r _ i
      · rfl

/-- Erasing a profile changes no USB handle. -/
theorem live_eraseprofile (d : Daemon) (r : SetRef) (i : Nat) :
    live (eraseprofile d r) i = live d i := by
  unfold eraseprofile
  cases getProfile d r with
  | none => rfl
  | some p => exact live_setProfile d r _ i

/-- Adding a storage entry changes no USB handle. -/
theorem live_addstore (d : Daemon) (serial : Str) (i : Nat) :
    live (addstore d serial).1 i = live d i := by
  obtain ⟨j, -, -, hk, -, -⟩ := addstore_spec d serial
  unfold live
  rw [hk]

/-- Tables with the same USB handles have the same profiles of plugged-in
devices in use. -/
theorem inUse_of_live {d d1 : Daemon} (h : ∀ i, live d1 i = live d i) (r : SetRef) :
    d1.inUse r = d.inUse r := by
  cases r with
  | dev i => exact h i
  | stored j => rfl

/-- Storing a profile changes the use of no profile. -/
theorem inUse_setProfile (d : Daemon) (r : SetRef) (p : usbprofile) (r1 : SetRef) :
    (setProfile d r p).inUse r1 = d.inUse r1 :=
  inUse_of_live (live_setProfile d r p) r1

/-- The example tables are seated: the keyboard of slot 1, the one plugged-in
device, has mode 0 of its two modes as current mode; the zeroed root slot is
not in use. -/
theorem sampleDaemon_seated : sampleDaemon.seated := by
  intro r p hu h
  cases r with
  | dev i =>
    match i, hu, h with
    | 0, hu, _ => exact absurd hu (by decide)
    | 1, _, h =>
      cases h
      exact ⟨_, rfl, rfl, by decide⟩
    | _ + 2, _, h => cases h
  | stored j => cases h

/-! ### The invariant of the word loop -/

/-- In tables whose plugged-in devices all have a current mode, a line that
starts without a selected mode starts without a profile: its device has no
USB handle. -/
theorem readcmd_init_profile_none {d : Daemon} {kb : Nat}
    (hcur : ∀ i p, live d i = true → getProfile d (SetRef.dev i) = some p →
      p.currentmode ≠ none)
    (hmode : (readcmd_init d kb).mode = none) : (readcmd_init d kb).profile = none := by
  unfold readcmd_init at hmode ⊢
  dsimp only at hmode ⊢
  by_cases hh : ((d.keyboard.get? kb).map (fun k => k.handle)).getD false = true
  · rw [if_pos hh] at hmode
    cases hk : d.keyboard.get? kb with
    | none =>
      rw [hk] at hh
      cases hh
    | some k =>
      have hg : getProfile d (SetRef.dev kb) = some k.setting.profile := by
        show (d.keyboard.get? kb).map (fun k => k.setting.profile) = _
        rw [hk]
        rfl
      unfold currentmodeOf at hmode
      dsimp only at hmode
      rw [hg] at hmode
      exact absurd hmode (hcur kb k.setting.profile hh hg)
  · rw [if_neg hh]

/-- Every plugged-in device of the example tables has a current mode. -/
theorem sampleDaemon_currentmode (i : Nat) (p : usbprofile) (hl : live sampleDaemon i = true)
    (hg : getProfile sampleDaemon (SetRef.dev i) = some p) : p.currentmode ≠ none := by
  match i, hl, hg with
  | 0, hl, _ => exact absurd hl (by decide)
  | 1, _, hg =>
    cases hg
    decide
  | _ + 2, _, hg => cases hg

/-- Erasing a profile leaves the other profiles as they are. -/
theorem getProfile_eraseprofile_ne (d : Daemon) {r r1 : SetRef} (h : r1 ≠ r) :
    getProfile (eraseprofile d r) r1 = getProfile d r1 := by
  unfold eraseprofile
  cases getProfile d r with
  | none => rfl
  | some p => exact getProfile_setProfile_ne d _ h

/-- Fetching a mode of a profile leaves the other profiles as they are. -/
theorem getProfile_getusbmode_ne (d : Daemon) (id : Int) {r r1 : SetRef} (h : r1 ≠ r) :
    getProfile (getusbmode d id (some r)).1 r1 = getProfile d r1 := by
  unfold getusbmode
  dsimp only
  cases getProfile d r with
  | none => rfl
  | some p =>
    dsimp only
    split
    · exact getProfile_setProfile_ne d _ h
    · rfl

/-- Storing a seated profile keeps the tables seated. -/
theorem seated_setProfile {d : Daemon} {r : SetRef} {p : usbprofile} (hd : d.seated)
    (hp : p.seated r) : (setProfile d r p).seated := by
  intro r1 p1 hu h
  rw [inUse_setProfile] at hu
  by_cases hr : r1 = r
  · rw [hr] at h hu ⊢
    cases hg : getProfile d r with
    | none =>
      rw [setProfile_of_none p hg] at h
      exact hd _ _ hu h
    | some p0 =>
      rw [getProfile_setProfile p hg] at h
      cases h
      exact hp
  · rw [getProfile_setProfile_ne d p hr] at h
    exact hd _ _ hu h

/-- The invariant only looks at the tables, the profile and the selected mode. -/
theorem inv_of_eq {st st1 : State} (h : st.inv) (hd : st1.daemon = st.daemon)
    (hp : st1.profile = st.profile) (hm : st1.mode = st.mode) : st1.inv := by
  unfold State.inv at h ⊢
  rw [hd, hp, hm]
  exact h

/-- The invariant holds after `switch`. -/
theorem inv_switch {st st1 : State} (h : st.inv) (hp : st1.profile = st.profile)
    (hm : st1.mode = st.mode)
    (hd : st1.daemon =
      (match st.profile with
       | some p => setCurrentmode st.daemon p st.mode
       | none => st.daemon)) : st1.inv := by
  cases hpr : st.profile with
  | none =>
    rw [hpr] at hd
    exact inv_of_eq h hd hp hm
  | some r =>
    obtain ⟨ha, hb, _⟩ := h
    obtain ⟨p, m, hg, hu, hmo, ho, hi⟩ := hb r hpr
    rw [hpr] at hd
    dsimp only at hd
    unfold setCurrentmode at hd
    rw [hg, hmo] at hd
    dsimp only at hd
    refine ⟨?_, ?_, ?_⟩
    · rw [hd]
      exact seated_setProfile ha ⟨m, rfl, ho, hi⟩
    · intro r2 e
      rw [hp, hpr] at e
      have e2 : r2 = r := (Option.some.inj e).symm
      rw [e2]
      exact ⟨{ p with currentmode := some m }, m, by rw [hd]; exact getProfile_setProfile _ hg,
        by rw [hd, inUse_setProfile]; exact hu, by rw [hm]; exact hmo, ho, hi⟩
    · intro e
      rw [hp, hpr] at e
      cases e

/-- The invariant holds after `eraseprofile`. -/
theorem inv_eraseprofile {st st1 : State} {r : SetRef} (h : st.inv) (hpr : st.profile = some r)
    (hp : st1.profile = some r)
    (hm : st1.mode = (getusbmode (eraseprofile st.daemon r) 0 (some r)).2)
    (hd : st1.daemon =
      setCurrentmode (getusbmode (eraseprofile st.daemon r) 0 (some r)).1 r
        (getusbmode (eraseprofile st.daemon r) 0 (some r)).2) : st1.inv := by
  obtain ⟨ha, hb, _⟩ := h
  obtain ⟨p, m, hg, hur, -, -, -⟩ := hb r hpr
  obtain ⟨h2, h3⟩ := erase_and_reseat hg
  have hl : ∀ i, live (setCurrentmode (getusbmode (eraseprofile st.daemon r) 0 (some r)).1 r
      (getusbmode (eraseprofile st.daemon r) 0 (some r)).2) i = live st.daemon i := fun i => by
    rw [live_setCurrentmode, live_getusbmode, live_eraseprofile]
  refine ⟨?_, ?_, ?_⟩
  · intro r1 p1 hu h1
    rw [hd] at h1 hu
    rw [inUse_of_live hl] at hu
    by_cases hr : r1 = r
    · rw [hr] at h1 ⊢
      rw [h3] at h1
      cases h1
      exact ⟨_, rfl, rfl, Nat.zero_lt_one⟩
    · rw [getProfile_setCurrentmode_ne _ _ hr, getProfile_getusbmode_ne _ _ hr,
        getProfile_eraseprofile_ne _ hr] at h1
      exact ha _ _ hu h1
  · intro r2 e
    rw [hp] at e
    have e2 : r2 = r := (Option.some.inj e).symm
    rw [e2]
    exact ⟨_, _, by rw [hd]; exact h3, by rw [hd, inUse_of_live hl]; exact hur,
      by rw [hm]; exact h2, rfl, Nat.zero_lt_one⟩
  · intro e
    rw [hp] at e
    cases e

/-- The storage entry that `addstore` returns exists, and the tables stay
seated. -/
theorem addstore_seated {d : Daemon} (hd : d.seated) (serial : Str) :
    (addstore d serial).1.seated ∧
      ∃ j p, (addstore d serial).2 = some (SetRef.stored j) ∧
        getProfile (addstore d serial).1 (SetRef.stored j) = some p := by
  unfold addstore
  cases hf : findstore d serial with
  | some j =>
    dsimp only
    refine ⟨hd, j, ?_⟩
    have hj := findstore_some hf
    cases hs : d.store.get? j with
    | none =>
      rw [hs] at hj
      cases hj
    | some s =>
      refine ⟨s.profile, rfl, ?_⟩
      show (d.store.get? j).map (fun s => s.profile) = some s.profile
      rw [hs]
      rfl
  | none =>
    dsimp only
    refine ⟨?_, d.store.length, newprofile d.store.length, rfl, ?_⟩
    · intro r p hu h
      cases r with
      | dev i => exact hd (SetRef.dev i) p hu h
      | stored j =>
        have h1 : ((d.store ++
            [({ profile := newprofile d.store.length, serial := serial } : usbsetting)]).get? j).map
              (fun s => s.profile) = some p := h
        rw [List.get?_eq_getElem?] at h1
        rcases Nat.lt_trichotomy j d.store.length with hj | hj | hj
        · rw [List.getElem?_append_left hj] at h1
          refine hd (SetRef.stored j) p rfl ?_
          show (d.store.get? j).map (fun s => s.profile) = some p
          rw [List.get?_eq_getElem?]
          exact h1
        · rw [hj] at h1 ⊢
          rw [List.getElem?_append_right (Nat.le_refl _), Nat.sub_self] at h1
          cases h1
          exact ⟨_, rfl, rfl, Nat.zero_lt_one⟩
        · rw [List.getElem?_eq_none (by rw [List.length_append, List.length_singleton]; omega)]
            at h1
          cases h1
    · show ((d.store ++
          [({ profile := newprofile d.store.length, serial := serial } : usbsetting)]).get?
            d.store.length).map (fun s => s.profile) = some (newprofile d.store.length)
      rw [List.get?_eq_getElem?, List.getElem?_append_right (Nat.le_refl _), Nat.sub_self]
      rfl

/-- The current mode of a seated profile in use. -/
theorem currentmodeOf_seated {d : Daemon} {r : SetRef} {p : usbprofile} (hd : d.seated)
    (hu : d.inUse r = true) (hg : getProfile d r = some p) :
    ∃ m, currentmodeOf d (some r) = some m ∧ m.owner = r ∧ m.index < p.modecount := by
  obtain ⟨m, hcm, ho, hi⟩ := hd r p hu hg
  refine ⟨m, ?_, ho, hi⟩
  unfold currentmodeOf
  dsimp only
  rw [hg]
  exact hcm

/-- The invariant holds after the word after `device`. -/
theorem inv_readcmd_device {st : State} (h : st.inv) (word : Str) :
    (readcmd_device st word).inv := by
  obtain ⟨ha, hb, hc⟩ := h
  unfold readcmd_device
  by_cases hl : word.length = SERIAL_LEN - 1
  · rw [if_pos hl]
    cases hf : findusb st.daemon word with
    | some i =>
      dsimp only
      obtain ⟨k, hk, hh, -⟩ := findusb_some hf
      have hg : getProfile st.daemon (SetRef.dev i) = some k.setting.profile := by
        show (st.daemon.keyboard.get? i).map (fun k => k.setting.profile) = _
        rw [hk]
        rfl
      have hu : st.daemon.inUse (SetRef.dev i) = true := by
        show ((st.daemon.keyboard.get? i).map (fun k => k.handle)).getD false = true
        rw [hk]
        exact hh
      obtain ⟨m, hcm, ho, hi⟩ := currentmodeOf_seated ha hu hg
      refine ⟨ha, ?_, fun e => by cases e⟩
      intro r2 e
      have e2 : r2 = SetRef.dev i := (Option.some.inj e).symm
      rw [e2]
      exact ⟨k.setting.profile, m, hg, hu, hcm, ho, hi⟩
    | none =>
      dsimp only
      obtain ⟨hs, j, p, h2, hg⟩ := addstore_seated ha word
      have hu : (addstore st.daemon word).1.inUse (SetRef.stored j) = true := rfl
      obtain ⟨m, hcm, ho, hi⟩ := currentmodeOf_seated hs hu hg
      refine ⟨hs, ?_, ?_⟩
      · intro r2 e
        have e1 : (addstore st.daemon word).2 = some r2 := e
        rw [h2] at e1
        have e2 : r2 = SetRef.stored j := (Option.some.inj e1).symm
        rw [e2]
        refine ⟨p, m, hg, hu, ?_, ho, hi⟩
        show currentmodeOf (addstore st.daemon word).1 (addstore st.daemon word).2 = some m
        rw [h2]
        exact hcm
      · intro e
        have e1 : (addstore st.daemon word).2 = none := e
        rw [h2] at e1
        cases e1
  · rw [if_neg hl]
    exact ⟨ha, hb, hc⟩

/-- The invariant holds after the word after `mode`. -/
theorem inv_readcmd_mode {st : State} (h : st.inv) (word : Str) :
    (readcmd_mode st word).inv := by
  obtain ⟨ha, hb, hc⟩ := h
  unfold readcmd_mode
  cases hs : sscanf_u word with
  | none => exact ⟨ha, hb, hc⟩
  | some n =>
    dsimp only
    by_cases hn : 0 < n ∧ n < (MODE_MAX : Int)
    · rw [if_pos hn]
      cases hpr : st.profile with
      | none => exact ⟨ha, fun r e => (by cases e), fun _ => rfl⟩
      | some r =>
        obtain ⟨p, m, hg, hu, hm, ho, hi⟩ := hb r hpr
        obtain ⟨mc, hmc, hoc, hic⟩ := ha r p hu hg
        have hn1 : n < 16 := by simpa [ MODE_MAX] using hn.2
        rw [getusbmode_eq (n - 1) hg (by omega) (by omega)]
        dsimp only
        refine ⟨seated_setProfile ha
          ⟨mc, hmc, hoc, Nat.lt_of_lt_of_le hic (Nat.le_max_left _ _)⟩, ?_, fun e => by cases e⟩
        intro r2 e
        have e2 : r2 = r := (Option.some.inj e).symm
        rw [e2]
        exact ⟨{ p with modecount := max p.modecount ((n - 1).toNat + 1) }, _,
          getProfile_setProfile _ hg, (inUse_setProfile _ _ _ _).trans hu, rfl, rfl,
          Nat.lt_of_lt_of_le (Nat.lt_succ_self _) (Nat.le_max_right _ _)⟩
    · rw [if_neg hn]
      exact ⟨ha, hb, hc⟩

/-- The invariant holds when `readcmd` enters its word loop on seated tables. -/
theorem inv_readcmd_init {d : Daemon} (hd : d.seated) (kb : Nat) : (readcmd_init d kb).inv := by
  unfold readcmd_init
  dsimp only
  by_cases hh : ((d.keyboard.get? kb).map (fun k => k.handle)).getD false = true
  · rw [if_pos hh]
    cases hk : d.keyboard.get? kb with
    | none =>
      rw [hk] at hh
      cases hh
    | some k =>
      have hg : getProfile d (SetRef.dev kb) = some k.setting.profile := by
        show (d.keyboard.get? kb).map (fun k => k.setting.profile) = _
        rw [hk]
        rfl
      have hu : d.inUse (SetRef.dev kb) = true := hh
      obtain ⟨m, hcm, ho, hi⟩ := currentmodeOf_seated hd hu hg
      refine ⟨hd, ?_, fun e => by cases e⟩
      intro r2 e
      have e2 : r2 = SetRef.dev kb := (Option.some.inj e).symm
      rw [e2]
      exact ⟨k.setting.profile, m, hg, hu, hcm, ho, hi⟩
  · rw [if_neg hh]
    exact ⟨hd, fun r e => (by cases e), fun _ => rfl⟩

/-- Every word keeps the invariant.  The call of `hwloadprofile` that `hwload`
makes is recorded in the trace; what it does to the tables is outside this
model. -/
theorem inv_word (env : Env) (st : State) (word : Str) (h : st.inv) :
    ∃ st1, readcmd_word env st word = some st1 ∧ st1.inv := by
  obtain ⟨st1, h1, -, hcase⟩ := readcmd_word_cases env st word
  refine ⟨st1, h1, ?_⟩
  rcases hcase with hs | ⟨-, hp, hm, hd⟩ | ⟨-, r, hpr, hp, hm, hd⟩ | ⟨-, -, e⟩ | ⟨-, e⟩
  · exact inv_of_eq h hs.1 hs.2.2.2.1 hs.2.2.2.2
  · exact inv_switch h hp hm hd
  · exact inv_eraseprofile h hpr hp hm hd
  · rw [e]
    exact inv_readcmd_device h word
  · rw [e]
    exact inv_readcmd_mode h word

/-- Every list of words keeps the invariant. -/
theorem inv_words (env : Env) :
    ∀ (ws : List Str) (st : State), st.inv →
      ∃ st1, readcmd_words env st ws = some st1 ∧ st1.inv := by
  intro ws
  induction ws with
  | nil =>
    intro st h
    exact ⟨st, readcmd_words_nil env st, h⟩
  | cons w ws ih =>
    intro st h
    obtain ⟨st1, h1, hi1⟩ := inv_word env st w h
    obtain ⟨st2, h2, hi2⟩ := ih st1 hi1
    exact ⟨st2, by rw [readcmd_words_cons, h1, Option.some_bind, h2], hi2⟩

/-- Under the invariant the selected mode is absent or a mode of the line's
profile. -/
theorem modeOk_of_inv {st : State} (h : st.inv) : st.modeOk := by
  obtain ⟨_, hb, hc⟩ := h
  intro m hm
  cases hpr : st.profile with
  | none =>
    rw [hc hpr] at hm
    cases hm
  | some r =>
    obtain ⟨p, m1, hg, -, hm1, ho, hi⟩ := hb r hpr
    rw [hm1] at hm
    cases hm
    exact ⟨r, p, rfl, hg, ho, hi⟩

/-- The word after `device` leaves the use of every profile, and every profile
of a device slot, as they are. -/
theorem unused_readcmd_device (st : State) (word : Str) :
    (∀ r, (readcmd_device st word).daemon.inUse r = st.daemon.inUse r) ∧
      (∀ r, st.daemon.inUse r = false →
        getProfile (readcmd_device st word).daemon r = getProfile st.daemon r) := by
  unfold readcmd_device
  by_cases hl : word.length = SERIAL_LEN - 1
  · rw [if_pos hl]
    cases hf : findusb st.daemon word with
    | some i => exact ⟨fun _ => rfl, fun _ _ => rfl⟩
    | none =>
      dsimp only
      refine ⟨inUse_of_live (live_addstore st.daemon word), ?_⟩
      intro r hr
      cases r with
      | stored j => cases hr
      | dev i =>
        obtain ⟨j, -, -, hk, -, -⟩ := addstore_spec st.daemon word
        show ((addstore st.daemon word).1.keyboard.get? i).map (fun k => k.setting.profile) =
          (st.daemon.keyboard.get? i).map (fun k => k.setting.profile)
        rw [hk]
  · rw [if_neg hl]
    exact ⟨fun _ => rfl, fun _ _ => rfl⟩

/-- The word after `mode` leaves the use of every profile, and every profile
that is not in use, as they are. -/
theorem unused_readcmd_mode {st : State} (h : st.inv) (word : Str) :
    (∀ r, (readcmd_mode st word).daemon.inUse r = st.daemon.inUse r) ∧
      (∀ r, st.daemon.inUse r = false →
        getProfile (readcmd_mode st word).daemon r = getProfile st.daemon r) := by
  obtain ⟨-, hb, -⟩ := h
  unfold readcmd_mode
  cases hs : sscanf_u word with
  | none => exact ⟨fun _ => rfl, fun _ _ => rfl⟩
  | some n =>
    dsimp only
    by_cases hn : 0 < n ∧ n < (MODE_MAX : Int)
    · rw [if_pos hn]
      dsimp only
      refine ⟨inUse_of_live (live_getusbmode st.daemon (n - 1) st.profile), ?_⟩
      intro r1 h1
      cases hpr : st.profile with
      | none => rfl
      | some r =>
        obtain ⟨p, m, -, hu, -⟩ := hb r hpr
        exact getProfile_getusbmode_ne _ _ (fun e => by rw [e, hu] at h1; cases h1)
    · rw [if_neg hn]
      exact ⟨fun _ => rfl, fun _ _ => rfl⟩

/-- One word leaves the use of every profile, and every profile that is not
in use, as they are. -/
theorem unused_word (env : Env) (st : State) (word : Str) (h : st.inv) :
    ∃ st1, readcmd_word env st word = some st1 ∧
      (∀ r, st1.daemon.inUse r = st.daemon.inUse r) ∧
      (∀ r, st.daemon.inUse r = false → getProfile st1.daemon r = getProfile st.daemon r) := by
  obtain ⟨st1, h1, -, hcase⟩ := readcmd_word_cases env st word
  refine ⟨st1, h1, ?_⟩
  rcases hcase with hs | ⟨-, -, -, hd⟩ | ⟨-, r, hpr, -, -, hd⟩ | ⟨-, -, e⟩ | ⟨-, e⟩
  · rw [hs.1]
    exact ⟨fun _ => rfl, fun _ _ => rfl⟩
  · cases hpr : st.profile with
    | none =>
      rw [hpr] at hd
      rw [hd]
      exact ⟨fun _ => rfl, fun _ _ => rfl⟩
    | some r =>
      obtain ⟨p, m, -, hu, -⟩ := h.2.1 r hpr
      rw [hpr] at hd
      rw [hd]
      refine ⟨inUse_of_live (live_setCurrentmode _ _ _), ?_⟩
      intro r1 h1
      exact getProfile_setCurrentmode_ne _ _ (fun e => by rw [e, hu] at h1; cases h1)
  · obtain ⟨p, m, -, hu, -⟩ := h.2.1 r hpr
    rw [hd]
    refine ⟨inUse_of_live (fun i => by
      rw [live_setCurrentmode, live_getusbmode, live_eraseprofile]), ?_⟩
    intro r1 h1
    have hr : r1 ≠ r := fun e => by rw [e, hu] at h1; cases h1
    rw [getProfile_setCurrentmode_ne _ _ hr, getProfile_getusbmode_ne _ _ hr,
      getProfile_eraseprofile_ne _ hr]
  · rw [e]
    exact unused_readcmd_device st word
  · rw [e]
    exact unused_readcmd_mode h word

/-- Every list of words keeps the invariant and leaves the use of every
profile, and every profile that is not in use, as they are. -/
theorem unused_words (env : Env) :
    ∀ (ws : List Str) (st : State), st.inv →
      ∃ st1, readcmd_words env st ws = some st1 ∧ st1.inv ∧
        (∀ r, st1.daemon.inUse r = st.daemon.inUse r) ∧
        (∀ r, st.daemon.inUse r = false →
          getProfile st1.daemon r = getProfile st.daemon r) := by
  intro ws
  induction ws with
  | nil =>
    intro st h
    exact ⟨st, readcmd_words_nil env st, h, fun _ => rfl, fun _ _ => rfl⟩
  | cons w ws ih =>
    intro st h
    obtain ⟨st1, h1, hi1⟩ := inv_word env st w h
    obtain ⟨st1b, h1b, hu1, hg1⟩ := unused_word env st w h
    rw [h1] at h1b
    cases h1b
    obtain ⟨st2, h2, hi2, hu2, hg2⟩ := ih st1 hi1
    refine ⟨st2, by rw [readcmd_words_cons, h1, Option.some_bind, h2], hi2,
      fun r => (hu2 r).trans (hu1 r), ?_⟩
    intro r hr
    rw [hg2 r ((hu1 r).trans hr), hg1 r hr]

/-! ### The frame rate -/

/-- After every argument the rate is between 1 and 60. -/
theorem main_argument_range (st : Params) (argument : Str)
    (h : 1 ≤ st.fps ∧ st.fps ≤ 60) :
    1 ≤ (main_argument st argument).fps ∧ (main_argument st argument).fps ≤ 60 := by
  unfold main_argument
  cases sscanf_fps argument with
  | none => exact h
  | some fps =>
    dsimp only
    by_cases hc : fps > 60 ∨ fps ≤ 0
    · rw [if_pos hc]
      exact ⟨show (1 : Int) ≤ 60 by decide, show (60 : Int) ≤ 60 by decide⟩
    · rw [if_neg hc]
      dsimp only
      omega

/-- After the parameter loop the rate is between 1 and 60. -/
theorem main_params_range (argv : List Str) :
    1 ≤ (main_params argv).fps ∧ (main_params argv).fps ≤ 60 := by
  unfold main_params
  generalize argv.drop 1 = args
  have : ∀ (args : List Str) (st : Params), 1 ≤ st.fps ∧ st.fps ≤ 60 →
      1 ≤ (args.foldl main_argument st).fps ∧ (args.foldl main_argument st).fps ≤ 60 := by
    intro args
    induction args with
    | nil => exact fun st h => h
    | cons a args ih => exact fun st h => ih _ (main_argument_range st a h)
  exact this args _ ⟨show (1 : Int) ≤ 60 by decide, show (60 : Int) ≤ 60 by decide⟩

/-! ### The `connected` file -/

/-- The live slots among a list of slots, slot by slot. -/
theorem liveAmong_cons (d : Daemon) (i : Nat) (slots : List Nat) :
    liveAmong d (i :: slots) =
      (match d.keyboard.get? i with
       | some k => if k.handle then (i, k) :: liveAmong d slots else liveAmong d slots
       | none => liveAmong d slots) := by
  unfold liveAmong
  rw [List.filterMap_cons]
  cases d.keyboard.get? i with
  | none => rfl
  | some k =>
    dsimp only
    by_cases hh : k.handle = true
    · rw [if_pos hh, if_pos hh]
    · rw [if_neg hh, if_neg hh]

/-- The loop of `updateconnected` over a list of slots: the flag is set when a
slot is live, and the text grows by the lines of the live slots. -/
theorem updateconnected_fold (devpath : Str) (d : Daemon) :
    ∀ (slots : List Nat) (acc : Bool × Str),
      slots.foldl (updateconnected_slot devpath d) acc =
        (acc.1 || !(liveAmong d slots).isEmpty,
          acc.2 ++ (liveAmong d slots).flatMap (fun ik => connected_line devpath ik.1 ik.2)) := by
  intro slots
  induction slots with
  | nil =>
    intro acc
    simp [liveAmong]
  | cons i slots ih =>
    intro acc
    rw [List.foldl_cons, ih, liveAmong_cons]
    unfold updateconnected_slot
    cases d.keyboard.get? i with
    | none => rfl
    | some k =>
      dsimp only
      by_cases hh : k.handle = true
      · rw [if_pos hh, if_pos hh]
        simp
      · rw [if_neg hh, if_neg hh]

/-- Membership in the list of live slots. -/
theorem mem_liveSlots (d : Daemon) (i : Nat) (k : usbdevice) :
    (i, k) ∈ liveSlots d ↔
      1 ≤ i ∧ i < DEV_MAX ∧ d.keyboard.get? i = some k ∧ k.handle = true := by
  unfold liveSlots liveAmong
  rw [List.mem_filterMap]
  constructor
  · rintro ⟨j, hj, h⟩
    rw [List.mem_range'_1] at hj
    cases hk : d.keyboard.get? j with
    | none => rw [hk] at h; cases h
    | some k1 =>
      rw [hk] at h
      dsimp only at h
      by_cases hh : k1.handle = true
      · rw [if_pos hh] at h
        cases h
        exact ⟨hj.1, by simp [DEV_MAX] at hj ⊢; omega, hk, hh⟩
      · rw [if_neg hh] at h
        cases h
  · rintro ⟨h1, h2, hk, hh⟩
    refine ⟨i, ?_, ?_⟩
    · rw [List.mem_range'_1]
      simp [DEV_MAX] at h2 ⊢
      omega
    · rw [hk]
      dsimp only
      rw [if_pos hh]

/-- The live slots are listed in ascending order, each once. -/
theorem liveSlots_sublist (d : Daemon) :
    ((liveSlots d).map (fun ik => ik.1)).Sublist (List.range' 1 (DEV_MAX - 1)) := by
  unfold liveSlots liveAmong
  generalize List.range' 1 (DEV_MAX - 1) = slots
  induction slots with
  | nil => simp
  | cons i slots ih =>
    rw [List.filterMap_cons]
    cases hk : d.keyboard.get? i with
    | none =>
      dsimp only
      exact List.Sublist.cons _ ih
    | some k =>
      dsimp only
      by_cases hh : k.handle = true
      · rw [if_pos hh]
        dsimp only
        rw [List.map_cons]
        exact List.Sublist.cons₂ _ ih
      · rw [if_neg hh]
        dsimp only
        exact List.Sublist.cons _ ih

/-! ### The main loop -/

/-- The FIFO pass services a selection of the slots, in their order: every
slot whose FIFO is open throughout, no slot whose FIFO is closed throughout. -/
theorem fifo_pass_calls {W : Type} (M : Machine W) :
    ∀ (slots : List Nat) (w : W),
      ∃ fs : List Nat, fs.Sublist slots ∧ (fifo_pass M slots w).2 = fs.map Call.readlines ∧
        (∀ i ∈ slots, (∀ w, M.fifo w i = true) → i ∈ fs) ∧
        (∀ i, (∀ w, M.fifo w i = false) → i ∉ fs) := by
  intro slots
  induction slots with
  | nil =>
    intro w
    exact ⟨[], List.Sublist.slnil, rfl, fun i hi => absurd hi (List.not_mem_nil i),
      fun i _ => List.not_mem_nil i⟩
  | cons j slots ih =>
    intro w
    unfold fifo_pass
    by_cases hj : M.fifo w j = true
    · rw [if_pos hj]
      obtain ⟨fs, h1, h2, h3, h4⟩ := ih (M.service j w)
      refine ⟨j :: fs, List.Sublist.cons₂ _ h1, by rw [h2]; rfl, ?_, ?_⟩
      · intro i hi hl
        rcases List.mem_cons.mp hi with e | e
        · rw [e]
          exact List.mem_cons_self _ _
        · exact List.mem_cons_of_mem _ (h3 i e hl)
      · intro i hl hi
        rcases List.mem_cons.mp hi with e | e
        · rw [← e, hl w] at hj
          cases hj
        · exact h4 i hl e
    · rw [if_neg hj]
      obtain ⟨fs, h1, h2, h3, h4⟩ := ih w
      refine ⟨fs, List.Sublist.cons _ h1, h2, ?_, h4⟩
      intro i hi hl
      rcases List.mem_cons.mp hi with e | e
      · rw [e] at hl
        exact absurd (hl w) hj
      · exact h3 i e hl

/-- The queue pass calls `usbdequeue` for a selection of the slots, in their
order, each followed on a frame round by `updateindicators`: every slot whose
handle is live throughout, no slot whose handle is null throughout. -/
theorem queue_pass_calls {W : Type} (M : Machine W) (frame : Nat) :
    ∀ (slots : List Nat) (w : W),
      ∃ qs : List Nat, qs.Sublist slots ∧
        (queue_pass M frame slots w).2 =
          qs.flatMap (fun i =>
            Call.usbdequeue i :: (if frame = 0 then [Call.updateindicators i] else [])) ∧
        (∀ i ∈ slots, (∀ w, M.handle w i = true) → i ∈ qs) ∧
        (∀ i, (∀ w, M.handle w i = false) → i ∉ qs) := by
  intro slots
  induction slots with
  | nil =>
    intro w
    exact ⟨[], List.Sublist.slnil, rfl, fun i hi => absurd hi (List.not_mem_nil i),
      fun i _ => List.not_mem_nil i⟩
  | cons j slots ih =>
    intro w
    unfold queue_pass
    by_cases hj : M.handle w j = true
    · rw [if_pos hj]
      have hmem : ∀ (qs : List Nat), (∀ i ∈ slots, (∀ w, M.handle w i = true) → i ∈ qs) →
          ∀ i ∈ j :: slots, (∀ w, M.handle w i = true) → i ∈ j :: qs := by
        intro qs h3 i hi hl
        rcases List.mem_cons.mp hi with e | e
        · rw [e]
          exact List.mem_cons_self _ _
        · exact List.mem_cons_of_mem _ (h3 i e hl)
      have hnot : ∀ (qs : List Nat), (∀ i, (∀ w, M.handle w i = false) → i ∉ qs) →
          ∀ i, (∀ w, M.handle w i = false) → i ∉ j :: qs := by
        intro qs h4 i hl hi
        rcases List.mem_cons.mp hi with e | e
        · rw [← e, hl w] at hj
          cases hj
        · exact h4 i hl e
      by_cases hf : frame = 0
      · rw [if_pos hf]
        obtain ⟨qs, h1, h2, h3, h4⟩ := ih (M.updateindicators j (M.usbdequeue j w))
        refine ⟨j :: qs, List.Sublist.cons₂ _ h1, ?_, hmem qs h3, hnot qs h4⟩
        dsimp only
        rw [h2, List.flatMap_cons, if_pos hf]
        rfl
      · rw [if_neg hf]
        obtain ⟨qs, h1, h2, h3, h4⟩ := ih (M.usbdequeue j w)
        refine ⟨j :: qs, List.Sublist.cons₂ _ h1, ?_, hmem qs h3, hnot qs h4⟩
        dsimp only
        rw [h2, List.flatMap_cons, if_neg hf]
        rfl
    · rw [if_neg hj]
      obtain ⟨qs, h1, h2, h3, h4⟩ := ih w
      refine ⟨qs, List.Sublist.cons _ h1, h2, ?_, h4⟩
      intro i hi hl
      rcases List.mem_cons.mp hi with e | e
      · rw [e] at hl
        exact absurd (hl w) hj
      · exact h3 i e hl

/-- The calls of a round of the main loop, whatever the machine and the state:
they have the shape `tickCalls` for a selection `fs` of the slots
`0 .. DEV_MAX - 1` and a selection `qs` of the slots `1 .. DEV_MAX - 1`, both
in ascending order. -/
theorem main_tick_calls {W : Type} (M : Machine W) (fps : Int) (frame : Nat) (w : W) :
    ∃ fs qs : List Nat, fs.Sublist (List.range DEV_MAX) ∧
      qs.Sublist (List.range' 1 (DEV_MAX - 1)) ∧
      (main_tick M fps frame w).2 = tickCalls fps frame fs qs ∧
      (∀ i, 1 ≤ i → i < DEV_MAX → (∀ w, M.handle w i = true) → i ∈ qs) ∧
      (∀ i, (∀ w, M.handle w i = false) → i ∉ qs) ∧
      (frame = 0 → ∀ i, i < DEV_MAX → (∀ w, M.fifo w i = true) → i ∈ fs) ∧
      (∀ i, (∀ w, M.fifo w i = false) → i ∉ fs) := by
  have hq : ∀ i, 1 ≤ i → i < DEV_MAX → i ∈ List.range' 1 (DEV_MAX - 1) := by
    intro i h1 h2
    rw [List.mem_range'_1]
    omega
  unfold main_tick tickCalls
  by_cases hf : frame = 0
  · rw [if_pos hf]
    dsimp only
    obtain ⟨fs, f1, f2, f3, f4⟩ := fifo_pass_calls M (List.range DEV_MAX) (M.handle_events w)
    obtain ⟨qs, q1, q2, q3, q4⟩ := queue_pass_calls M frame (List.range' 1 (DEV_MAX - 1))
      (fifo_pass M (List.range DEV_MAX) (M.handle_events w)).1
    refine ⟨fs, qs, f1, q1, ?_, fun i h1 h2 hl => q3 i (hq i h1 h2) hl, q4,
      fun _ i h hl => f3 i (List.mem_range.mpr h) hl, f4⟩
    rw [q2, f2, if_pos hf]
  · rw [if_neg hf]
    dsimp only
    obtain ⟨qs, q1, q2, q3, q4⟩ := queue_pass_calls M frame (List.range' 1 (DEV_MAX - 1)) w
    refine ⟨[], qs, List.nil_sublist _, q1, ?_, fun i h1 h2 hl => q3 i (hq i h1 h2) hl, q4,
      fun h => absurd h hf, fun i _ => List.not_mem_nil i⟩
    rw [q2, if_neg hf]

/-- Number of `usbdequeue` calls for a slot in calls of the shape `tickCalls`. -/
theorem tickCalls_count_usbdequeue (fps : Int) (frame : Nat) (fs qs : List Nat) (i : Nat) :
    (tickCalls fps frame fs qs).count (Call.usbdequeue i) = qs.count i := by
  have h1 : ∀ l : List Nat, (l.map Call.readlines).count (Call.usbdequeue i) = 0 := by
    intro l
    induction l with
    | nil => rfl
    | cons a l ih => simp [List.count_cons, ih]
  have h2 : ∀ l : List Nat,
      (l.flatMap (fun j =>
        Call.usbdequeue j :: (if frame = 0 then [Call.updateindicators j] else []))).count
          (Call.usbdequeue i) = l.count i := by
    intro l
    induction l with
    | nil => rfl
    | cons a l ih =>
      rw [List.flatMap_cons, List.count_append, ih]
      by_cases hf : frame = 0 <;> by_cases ha : a = i <;> simp [List.count_cons, hf, ha] <;>
        omega
  unfold tickCalls
  rw [List.count_append, List.count_append, h2]
  by_cases hf : frame = 0
  · rw [if_pos hf]
    simp [List.count_cons, h1]
  · rw [if_neg hf]
    simp

/-- Number of calls of the event pump in calls of the shape `tickCalls`. -/
theorem tickCalls_count_handle_events (fps : Int) (frame : Nat) (fs qs : List Nat) :
    (tickCalls fps frame fs qs).count Call.handle_events = if frame = 0 then 1 else 0 := by
  have h1 : ∀ l : List Nat, (l.map Call.readlines).count Call.handle_events = 0 := by
    intro l
    induction l with
    | nil => rfl
    | cons a l ih => simp [List.count_cons, ih]
  have h2 : ∀ l : List Nat,
      (l.flatMap (fun j =>
        Call.usbdequeue j :: (if frame = 0 then [Call.updateindicators j] else []))).count
          Call.handle_events = 0 := by
    intro l
    induction l with
    | nil => rfl
    | cons a l ih =>
      rw [List.flatMap_cons, List.count_append, ih]
      by_cases hf : frame = 0 <;> simp [List.count_cons, hf]
  unfold tickCalls
  rw [List.count_append, List.count_append, h2]
  by_cases hf : frame = 0
  · rw [if_pos hf, if_pos hf]
    simp [List.count_cons, h1]
  · rw [if_neg hf, if_neg hf]
    simp

/-- Number of services of a FIFO in calls of the shape `tickCalls`. -/
theorem tickCalls_count_readlines (fps : Int) (frame : Nat) (fs qs : List Nat) (i : Nat) :
    (tickCalls fps frame fs qs).count (Call.readlines i) =
      if frame = 0 then fs.count i else 0 := by
  have h1 : ∀ l : List Nat, (l.map Call.readlines).count (Call.readlines i) = l.count i := by
    intro l
    induction l with
    | nil => rfl
    | cons a l ih =>
      by_cases ha : a = i <;> simp [List.count_cons, ih, ha]
  have h2 : ∀ l : List Nat,
      (l.flatMap (fun j =>
        Call.usbdequeue j :: (if frame = 0 then [Call.updateindicators j] else []))).count
          (Call.readlines i) = 0 := by
    intro l
    induction l with
    | nil => rfl
    | cons a l ih =>
      rw [List.flatMap_cons, List.count_append, ih]
      by_cases hf : frame = 0 <;> simp [List.count_cons, hf]
  unfold tickCalls
  rw [List.count_append, List.count_append, h2]
  by_cases hf : frame = 0
  · rw [if_pos hf, if_pos hf]
    simp [List.count_cons, h1]
  · rw [if_neg hf, if_neg hf]
    simp

/-- Number of indicator refreshes of a slot in calls of the shape `tickCalls`. -/
theorem tickCalls_count_updateindicators (fps : Int) (frame : Nat) (fs qs : List Nat)
    (i : Nat) :
    (tickCalls fps frame fs qs).count (Call.updateindicators i) =
      if frame = 0 then qs.count i else 0 := by
  have h1 : ∀ l : List Nat, (l.map Call.readlines).count (Call.updateindicators i) = 0 := by
    intro l
    induction l with
    | nil => rfl
    | cons a l ih => simp [List.count_cons, ih]
  have h2 : ∀ l : List Nat,
      (l.flatMap (fun j =>
        Call.usbdequeue j :: (if frame = 0 then [Call.updateindicators j] else []))).count
          (Call.updateindicators i) = if frame = 0 then l.count i else 0 := by
    intro l
    induction l with
    | nil => simp
    | cons a l ih =>
      rw [List.flatMap_cons, List.count_append, ih]
      by_cases hf : frame = 0
      · by_cases ha : a = i
        · simp [List.count_cons, hf, ha]
          omega
        · simp [List.count_cons, hf, ha]
      · by_cases ha : a = i
        · simp [List.count_cons, hf, ha]
        · simp [List.count_cons, hf, ha]
  unfold tickCalls
  rw [List.count_append, List.count_append, h2]
  by_cases hf : frame = 0
  · rw [if_pos hf, if_pos hf]
    simp [List.count_cons, h1]
  · rw [if_neg hf, if_neg hf]
    simp

/-- A selection of distinct slots holds each slot at most once. -/
theorem count_le_one_of_sublist_range' {qs : List Nat} {a b : Nat}
    (h : qs.Sublist (List.range' a b)) (i : Nat) : qs.count i ≤ 1 :=
  Nat.le_trans (List.Sublist.count_le h i)
    (List.nodup_iff_count_le_one.mp (List.nodup_range' a b) i)

/-- A selection of the slots `0 .. n - 1` holds each slot at most once. -/
theorem count_le_one_of_sublist_range {fs : List Nat} {n : Nat}
    (h : fs.Sublist (List.range n)) (i : Nat) : fs.count i ≤ 1 :=
  Nat.le_trans (List.Sublist.count_le h i)
    (List.nodup_iff_count_le_one.mp (List.nodup_range n) i)

/-- A round calls the event pump once on a frame round and never otherwise. -/
theorem main_tick_count_handle_events {W : Type} (M : Machine W) (fps : Int) (frame : Nat)
    (w : W) :
    (main_tick M fps frame w).2.count Call.handle_events = if frame = 0 then 1 else 0 := by
  obtain ⟨fs, qs, -, -, h, -⟩ := main_tick_calls M fps frame w
  rw [h, tickCalls_count_handle_events]

/-- A round calls `usbdequeue` at most once for a slot. -/
theorem main_tick_count_usbdequeue_le {W : Type} (M : Machine W) (fps : Int) (frame : Nat)
    (w : W) (i : Nat) : (main_tick M fps frame w).2.count (Call.usbdequeue i) ≤ 1 := by
  obtain ⟨fs, qs, -, hq, h, -⟩ := main_tick_calls M fps frame w
  rw [h, tickCalls_count_usbdequeue]
  exact count_le_one_of_sublist_range' hq i

/-- A round calls `usbdequeue` exactly once for a slot from 1 to
`DEV_MAX - 1` whose handle is live throughout. -/
theorem main_tick_count_usbdequeue_live {W : Type} (M : Machine W) (fps : Int) (frame : Nat)
    (w : W) (i : Nat) (h1 : 1 ≤ i) (h2 : i < DEV_MAX) (hl : ∀ w, M.handle w i = true) :
    (main_tick M fps frame w).2.count (Call.usbdequeue i) = 1 := by
  obtain ⟨fs, qs, -, hq, h, hm, -⟩ := main_tick_calls M fps frame w
  rw [h, tickCalls_count_usbdequeue]
  have hpos : 0 < qs.count i := List.count_pos_iff.mpr (hm i h1 h2 hl)
  have hle := count_le_one_of_sublist_range' hq i
  omega

/-- A round services a FIFO at most once, and only on a frame round. -/
theorem main_tick_count_readlines_le {W : Type} (M : Machine W) (fps : Int) (frame : Nat)
    (w : W) (i : Nat) :
    (main_tick M fps frame w).2.count (Call.readlines i) ≤ if frame = 0 then 1 else 0 := by
  obtain ⟨fs, qs, hf, -, h, -⟩ := main_tick_calls M fps frame w
  rw [h, tickCalls_count_readlines]
  by_cases h0 : frame = 0
  · rw [if_pos h0, if_pos h0]
    exact count_le_one_of_sublist_range hf i
  · rw [if_neg h0, if_neg h0]

/-- The rounds from round `n` on. -/
theorem main_loop_drop {W : Type} (M : Machine W) (fps : Int) :
    ∀ (n k frame : Nat) (w : W), frame < 5 → n ≤ k →
      (main_loop M fps k frame w).drop n =
        main_loop M fps (k - n) ((frame + n) % 5) (main_state M fps n frame w) := by
  intro n
  induction n with
  | zero =>
    intro k frame w hf _
    rw [List.drop_zero, Nat.sub_zero, Nat.add_zero, Nat.mod_eq_of_lt hf]
    rfl
  | succ n ih =>
    intro k frame w hf hk
    cases k with
    | zero => omega
    | succ k =>
      rw [main_loop, List.drop_succ_cons, ih k _ _ (Nat.mod_lt _ (by decide)) (by omega),
        main_state]
      have e1 : k + 1 - (n + 1) = k - n := by omega
      have e2 : ((frame + 1) % 5 + n) % 5 = (frame + (n + 1)) % 5 := by omega
      rw [e1, e2]

/-- The first rounds of a longer run. -/
theorem main_loop_take {W : Type} (M : Machine W) (fps : Int) :
    ∀ (a b frame : Nat) (w : W),
      (main_loop M fps (a + b) frame w).take a = main_loop M fps a frame w := by
  intro a
  induction a with
  | zero =>
    intro b frame w
    rw [List.take_zero]
    rfl
  | succ a ih =>
    intro b frame w
    have e : a + 1 + b = (a + b) + 1 := by omega
    rw [e, main_loop, main_loop, List.take_succ_cons, ih]

/-- Five consecutive rounds, from round `n` on. -/
theorem main_loop_window {W : Type} (M : Machine W) (fps : Int) (k n : Nat) (w : W)
    (h : n + 5 ≤ k) :
    ((main_loop M fps k 0 w).drop n).take 5 =
      main_loop M fps 5 (n % 5) (main_state M fps n 0 w) := by
  rw [main_loop_drop M fps n k 0 w (by decide) (by omega), Nat.zero_add]
  have e : k - n = 5 + (k - n - 5) := by omega
  rw [e, main_loop_take]

/-- Round `n` of the main loop runs with `frame = n % 5`. -/
theorem main_loop_get {W : Type} (M : Machine W) (fps : Int) (k n : Nat) (w : W) (h : n < k) :
    (main_loop M fps k 0 w).get? n =
      some (n % 5, (main_tick M fps (n % 5) (main_state M fps n 0 w)).2) := by
  have e : (main_loop M fps k 0 w).get? n = ((main_loop M fps k 0 w).drop n).head? := by
    rw [List.head?_drop, List.get?_eq_getElem?]
  rw [e, main_loop_drop M fps n k 0 w (by decide) (by omega), Nat.zero_add]
  have e2 : k - n = (k - n - 1) + 1 := by omega
  rw [e2, main_loop]
  rfl

/-- In any run the event pump is called once per frame round. -/
theorem main_loop_sum_handle_events {W : Type} (M : Machine W) (fps : Int) :
    ∀ (k frame : Nat) (w : W),
      ((main_loop M fps k frame w).map (fun t => t.2.count Call.handle_events)).sum =
        ((main_loop M fps k frame w).map (fun t => if t.1 = 0 then 1 else 0)).sum := by
  intro k
  induction k with
  | zero => intro frame w; rfl
  | succ k ih =>
    intro frame w
    rw [main_loop, List.map_cons, List.map_cons, List.sum_cons, List.sum_cons, ih,
      main_tick_count_handle_events]

/-- In any run a FIFO is serviced at most once per frame round. -/
theorem main_loop_sum_readlines {W : Type} (M : Machine W) (fps : Int) (i : Nat) :
    ∀ (k frame : Nat) (w : W),
      ((main_loop M fps k frame w).map (fun t => t.2.count (Call.readlines i))).sum ≤
        ((main_loop M fps k frame w).map (fun t => if t.1 = 0 then 1 else 0)).sum := by
  intro k
  induction k with
  | zero => intro frame w; exact Nat.le_refl _
  | succ k ih =>
    intro frame w
    rw [main_loop, List.map_cons, List.map_cons, List.sum_cons, List.sum_cons]
    exact Nat.add_le_add (main_tick_count_readlines_le M fps frame w i) (ih _ _)

/-- In `k` rounds `usbdequeue` is called at most `k` times for a slot. -/
theorem main_loop_sum_usbdequeue_le {W : Type} (M : Machine W) (fps : Int) (i : Nat) :
    ∀ (k frame : Nat) (w : W),
      ((main_loop M fps k frame w).map (fun t => t.2.count (Call.usbdequeue i))).sum ≤ k := by
  intro k
  induction k with
  | zero => intro frame w; exact Nat.le_refl _
  | succ k ih =>
    intro frame w
    rw [main_loop, List.map_cons, List.sum_cons, Nat.add_comm]
    exact Nat.add_le_add (ih _ _) (main_tick_count_usbdequeue_le M fps frame w i)

/-- In `k` rounds `usbdequeue` is called exactly `k` times for a slot from 1
to `DEV_MAX - 1` whose handle is live throughout. -/
theorem main_loop_sum_usbdequeue_live {W : Type} (M : Machine W) (fps : Int) (i : Nat)
    (h1 : 1 ≤ i) (h2 : i < DEV_MAX) (hl : ∀ w, M.handle w i = true) :
    ∀ (k frame : Nat) (w : W),
      ((main_loop M fps k frame w).map (fun t => t.2.count (Call.usbdequeue i))).sum = k := by
  intro k
  induction k with
  | zero => intro frame w; rfl
  | succ k ih =>
    intro frame w
    rw [main_loop, List.map_cons, List.sum_cons, ih,
      main_tick_count_usbdequeue_live M fps frame w i h1 h2 hl, Nat.add_comm]

/-- Five consecutive rounds hold exactly one frame round. -/
theorem main_loop_five_frames {W : Type} (M : Machine W) (fps : Int) (frame : Nat) (w : W)
    (hf : frame < 5) :
    ((main_loop M fps 5 frame w).map (fun t => if t.1 = 0 then 1 else 0)).sum = 1 := by
  simp only [main_loop, List.map_cons, List.map_nil, List.sum_cons, List.sum_nil]
  interval_cases frame <;> rfl

/-! ### Memory cells -/

/-- Number of cells read. -/
theorem cells_length (buffer : Nat → Char) (off n : Nat) : (cells buffer off n).length = n := by
  unfold cells
  rw [List.length_map, List.length_range']

/-- No cells. -/
theorem cells_zero (buffer : Nat → Char) (off : Nat) : cells buffer off 0 = [] := rfl

/-- The cells one by one. -/
theorem cells_succ (buffer : Nat → Char) (off n : Nat) :
    cells buffer off (n + 1) = buffer off :: cells buffer (off + 1) n := by
  unfold cells
  rw [List.range'_succ, List.map_cons]

/-- Two stretches of cells in a row. -/
theorem cells_append (buffer : Nat → Char) (off n m : Nat) :
    cells buffer off (n + m) = cells buffer off n ++ cells buffer (off + n) m := by
  unfold cells
  rw [← List.map_append]
  have h := List.range'_append off n m 1
  rw [Nat.one_mul] at h
  rw [h, Nat.add_comm]

/-- Cells that agree give the same contents. -/
theorem cells_congr {b1 b2 : Nat → Char} {off n : Nat}
    (h : ∀ i, off ≤ i → i < off + n → b1 i = b2 i) : cells b1 off n = cells b2 off n := by
  unfold cells
  apply List.map_congr_left
  intro i hi
  rw [List.mem_range'_1] at hi
  exact h i hi.1 hi.2

/-- A cell outside the written stretch keeps its contents. -/
theorem store_out (buffer : Nat → Char) (off : Nat) (data : Str) (i : Nat)
    (h : i < off ∨ off + data.length ≤ i) : store buffer off data i = buffer i := by
  unfold store
  rw [if_neg (by omega)]

/-- A cell inside the written stretch holds the byte written there. -/
theorem store_in (buffer : Nat → Char) (off : Nat) (data : Str) (i : Nat)
    (h : i < data.length) : store buffer off data (off + i) = data.get ⟨i, h⟩ := by
  unfold store
  rw [if_pos (by omega), Nat.add_sub_cancel_left, List.getD_eq_getElem _ _ h]
  rfl

/-- The written stretch reads back as the data. -/
theorem cells_store_same (buffer : Nat → Char) (off : Nat) (data : Str) :
    cells (store buffer off data) off data.length = data := by
  apply List.ext_getElem
  · rw [cells_length]
  · intro i h1 h2
    unfold cells
    rw [List.getElem_map, List.getElem_range', Nat.one_mul, store_in buffer off data i h2]
    rfl

/-- Cells outside the written stretch read back as before. -/
theorem cells_store_out (buffer : Nat → Char) (off : Nat) (data : Str) (a n : Nat)
    (h : a + n ≤ off ∨ off + data.length ≤ a) :
    cells (store buffer off data) a n = cells buffer a n := by
  apply cells_congr
  intro i h1 h2
  exact store_out buffer off data i (by omega)

/-- The contents of a cell among the cells read. -/
theorem mem_cells {buffer : Nat → Char} {off n : Nat} {c : Char} :
    c ∈ cells buffer off n ↔ ∃ i, off ≤ i ∧ i < off + n ∧ buffer i = c := by
  unfold cells
  rw [List.mem_map]
  constructor
  · rintro ⟨i, hi, e⟩
    rw [List.mem_range'_1] at hi
    exact ⟨i, hi.1, hi.2, e⟩
  · rintro ⟨i, h1, h2, e⟩
    exact ⟨i, List.mem_range'_1.mpr ⟨h1, h2⟩, e⟩

/-- What `memchr` finds is the first newline: the cells before it hold none. -/
theorem memchr_some {buffer : Nat → Char} :
    ∀ (n line nextline : Nat), memchr buffer line n = some nextline →
      line ≤ nextline ∧ nextline < line + n ∧ buffer nextline = '\n' ∧
        '\n' ∉ cells buffer line (nextline - line) := by
  intro n
  induction n with
  | zero =>
    intro line nextline h
    simp [memchr] at h
  | succ n ih =>
    intro line nextline h
    rw [memchr] at h
    by_cases hb : buffer line = '\n'
    · rw [if_pos hb] at h
      cases h
      refine ⟨Nat.le_refl _, by omega, hb, ?_⟩
      rw [Nat.sub_self, cells_zero]
      exact List.not_mem_nil _
    · rw [if_neg hb] at h
      obtain ⟨h1, h2, h3, h4⟩ := ih (line + 1) nextline h
      refine ⟨by omega, by omega, h3, ?_⟩
      have e : nextline - line = (nextline - (line + 1)) + 1 := by omega
      rw [e, cells_succ, List.mem_cons, not_or]
      exact ⟨fun e => hb e.symm, h4⟩

/-! ### The descriptor -/

/-- The bytes delivered by a `read` and the bytes still to come are the bytes
that were to come. -/
theorem read_flatten (fd : Fd) (count : Nat) :
    (read fd count).1 ++ (read fd count).2.flatten = fd.flatten := by
  unfold read
  cases fd with
  | nil => rfl
  | cons c rest =>
    dsimp only
    by_cases h : c.length ≤ count
    · rw [if_pos h]
      rfl
    · rw [if_neg h]
      dsimp only
      rw [List.flatten_cons, List.flatten_cons, ← List.append_assoc, List.take_append_drop]

/-- A `read` delivers at most `count` bytes. -/
theorem read_length_le (fd : Fd) (count : Nat) : (read fd count).1.length ≤ count := by
  unfold read
  cases fd with
  | nil => exact Nat.zero_le _
  | cons c rest =>
    dsimp only
    by_cases h : c.length ≤ count
    · rw [if_pos h]
      exact h
    · rw [if_neg h]
      dsimp only
      rw [List.length_take]
      exact Nat.min_le_left _ _

/-- The bytes delivered by a `read` are no longer to come. -/
theorem read_avail (fd : Fd) (count : Nat) :
    (read fd count).1.length + avail (read fd count).2 = avail fd := by
  unfold avail
  rw [← List.length_append, read_flatten]

/-! ### The loop that breaks the input into lines -/

/-- The loop ends when no newline is left. -/
theorem readlines_split_none (length fuel line : Nat) (linebuffer : List Nat)
    (buffer : Nat → Char) (hm : memchr buffer line (length - line) = none) :
    readlines_split length (fuel + 1) line linebuffer buffer =
      some (linebuffer, line, length - line, buffer) := by
  rw [readlines_split, hm]

/-- The loop ends when the line buffer holds `MAX_LINES - 1` lines. -/
theorem readlines_split_cap (length fuel line nextline : Nat) (linebuffer : List Nat)
    (buffer : Nat → Char) (hm : memchr buffer line (length - line) = some nextline)
    (hc : linebuffer.length = MAX_LINES - 1) :
    readlines_split length (fuel + 1) line linebuffer buffer =
      some (linebuffer, line, length - line, buffer) := by
  rw [readlines_split, hm]
  dsimp only
  rw [if_pos hc]

/-- The loop ends when the newline found is the last byte. -/
theorem readlines_split_last (length fuel line nextline : Nat) (linebuffer : List Nat)
    (buffer : Nat → Char) (hm : memchr buffer line (length - line) = some nextline)
    (hc : linebuffer.length ≠ MAX_LINES - 1) (he : nextline + 1 = length) :
    readlines_split length (fuel + 1) line linebuffer buffer =
      some (linebuffer ++ [line], 0, 0, store buffer nextline [ NUL]) := by
  rw [readlines_split, hm]
  dsimp only
  rw [if_neg hc, if_pos he]

/-- The loop goes on behind the newline found. -/
theorem readlines_split_next (length fuel line nextline : Nat) (linebuffer : List Nat)
    (buffer : Nat → Char) (hm : memchr buffer line (length - line) = some nextline)
    (hc : linebuffer.length ≠ MAX_LINES - 1) (he : nextline + 1 ≠ length) :
    readlines_split length (fuel + 1) line linebuffer buffer =
      readlines_split length fuel (nextline + 1) (linebuffer ++ [line])
        (store buffer nextline [ NUL]) := by
  rw [readlines_split, hm]
  dsimp only
  rw [if_neg hc, if_neg he]

/-- The string at `line` once the newline at `nextline` has been replaced by
a 0: the bytes in between, when none of them is 0. -/
theorem cstr_line {b1 b2 : Nat → Char} {line nextline bound : Nat} (h1 : line ≤ nextline)
    (h2 : nextline < bound) (hsame : ∀ i, line ≤ i → i < nextline → b2 i = b1 i)
    (hnul : b2 nextline = NUL) (hno : NUL ∉ cells b1 line (nextline - line)) :
    cstr b2 line bound = cells b1 line (nextline - line) := by
  unfold cstr
  have e : bound - line = (nextline - line) + ((bound - nextline - 1) + 1) := by omega
  have e2 : line + (nextline - line) = nextline := by omega
  rw [e, cells_append, cells_succ, e2, hnul,
    List.takeWhile_append_of_pos, List.takeWhile_cons,
    if_neg (by decide), List.append_nil]
  · apply cells_congr
    intro i hi1 hi2
    exact hsame i hi1 (by omega)
  · intro a ha
    have hc : cells b2 line (nextline - line) = cells b1 line (nextline - line) := by
      apply cells_congr
      intro i hi1 hi2
      exact hsame i hi1 (by omega)
    rw [hc] at ha
    have hne : a ≠ NUL := fun e => hno (e ▸ ha)
    simpa using hne

/-- A byte that is in no cell of a stretch is in no cell of a part of it. -/
theorem not_mem_cells_sub {buffer : Nat → Char} {c : Char} {a n a1 n1 : Nat}
    (h : c ∉ cells buffer a n) (h1 : a ≤ a1) (h2 : a1 + n1 ≤ a + n) :
    c ∉ cells buffer a1 n1 := by
  intro hc
  obtain ⟨i, hi1, hi2, e⟩ := mem_cells.mp hc
  exact h (mem_cells.mpr ⟨i, by omega, by omega, e⟩)

/-- The cell that `*nextline = 0` writes. -/
theorem store_nul (buffer : Nat → Char) (nextline : Nat) :
    store buffer nextline [ NUL] nextline = NUL := by
  have h := store_in buffer nextline [ NUL] 0 (by decide)
  rw [Nat.add_zero] at h
  exact h

/-- The loop that breaks the input into lines, on data without a 0 byte: it
ends; it hands out at most `MAX_LINES - 1` lines; the strings at the offsets
it adds to the line buffer, each followed by a newline, followed by the
left-over bytes, are the bytes from `line` to the end of the data; no string
holds a newline; and the cells before `line` are not touched. -/
theorem readlines_split_spec (length bound : Nat) (hb : length < bound) :
    ∀ (fuel line : Nat) (linebuffer : List Nat) (buffer : Nat → Char),
      MAX_LINES ≤ fuel + linebuffer.length → linebuffer.length ≤ MAX_LINES - 1 →
      line ≤ length → NUL ∉ cells buffer line (length - line) →
      ∃ (offs : List Nat) (lo ll : Nat) (buffer1 : Nat → Char),
        readlines_split length fuel line linebuffer buffer =
          some (linebuffer ++ offs, lo, ll, buffer1) ∧
        linebuffer.length + offs.length ≤ MAX_LINES - 1 ∧
        (∀ i, i < line → buffer1 i = buffer i) ∧
        lo + ll ≤ length ∧
        (offs.map (fun o => cstr buffer1 o bound)).flatMap (fun l => l ++ ['\n']) ++
            cells buffer1 lo ll = cells buffer line (length - line) ∧
        (∀ o ∈ offs, '\n' ∉ cstr buffer1 o bound) := by
  intro fuel
  induction fuel with
  | zero =>
    intro line linebuffer buffer h1 h2
    simp only [MAX_LINES] at h1 h2
    omega
  | succ fuel ih =>
    intro line linebuffer buffer hfuel hcap hline hnul
    have hstop : ∃ (offs : List Nat) (lo ll : Nat) (buffer1 : Nat → Char),
        some (linebuffer, line, length - line, buffer) =
          some (linebuffer ++ offs, lo, ll, buffer1) ∧
        linebuffer.length + offs.length ≤ MAX_LINES - 1 ∧
        (∀ i, i < line → buffer1 i = buffer i) ∧
        lo + ll ≤ length ∧
        (offs.map (fun o => cstr buffer1 o bound)).flatMap (fun l => l ++ ['\n']) ++
            cells buffer1 lo ll = cells buffer line (length - line) ∧
        (∀ o ∈ offs, '\n' ∉ cstr buffer1 o bound) :=
      ⟨[], line, length - line, buffer, by rw [List.append_nil], by simpa using hcap,
        fun _ _ => rfl, by omega, rfl, fun o ho => absurd ho (List.not_mem_nil o)⟩
    cases hm : memchr buffer line (length - line) with
    | none =>
      rw [readlines_split_none length fuel line linebuffer buffer hm]
      exact hstop
    | some nextline =>
      obtain ⟨m1, m2, m3, m4⟩ := memchr_some _ _ _ hm
      by_cases hc : linebuffer.length = MAX_LINES - 1
      · rw [readlines_split_cap length fuel line nextline linebuffer buffer hm hc]
        exact hstop
      · have hstr : ∀ b2 : Nat → Char, (∀ i, i < nextline + 1 → b2 i = store buffer nextline [ NUL] i) →
            cstr b2 line bound = cells buffer line (nextline - line) := by
          intro b2 hb2
          apply cstr_line m1 (by omega)
          · intro i hi1 hi2
            rw [hb2 i (by omega), store_out buffer nextline [ NUL] i (Or.inl hi2)]
          · rw [hb2 nextline (by omega), store_nul]
          · exact not_mem_cells_sub hnul (Nat.le_refl _) (by omega)
        have hsplit : cells buffer line (length - line) =
            cells buffer line (nextline - line) ++ '\n' ::
              cells buffer (nextline + 1) (length - (nextline + 1)) := by
          have e : length - line = (nextline - line) + ((length - (nextline + 1)) + 1) := by
            omega
          have e2 : line + (nextline - line) = nextline := by omega
          rw [e, cells_append, cells_succ, e2, m3]
        by_cases he : nextline + 1 = length
        · rw [readlines_split_last length fuel line nextline linebuffer buffer hm hc he]
          refine ⟨[line], 0, 0, store buffer nextline [ NUL], rfl, ?_, ?_, by omega, ?_, ?_⟩
          · rw [List.length_singleton]
            omega
          · intro i hi
            exact store_out buffer nextline [ NUL] i (Or.inl (by omega))
          · rw [hsplit, List.map_singleton, List.flatMap_singleton, hstr _ (fun _ _ => rfl),
              cells_zero, List.append_nil, he, Nat.sub_self, cells_zero]
          · intro o ho
            rw [List.mem_singleton] at ho
            rw [ho, hstr _ (fun _ _ => rfl)]
            exact m4
        · rw [readlines_split_next length fuel line nextline linebuffer buffer hm hc he]
          have hrest : cells (store buffer nextline [ NUL]) (nextline + 1)
              (length - (nextline + 1)) =
              cells buffer (nextline + 1) (length - (nextline + 1)) :=
            cells_store_out buffer nextline [ NUL] _ _ (Or.inr (by simp))
          obtain ⟨offs, lo, ll, buffer1, e1, e2, e3, e4, e5, e6⟩ :=
            ih (nextline + 1) (linebuffer ++ [line]) (store buffer nextline [ NUL])
              (by rw [List.length_append, List.length_singleton]; omega)
              (by rw [List.length_append, List.length_singleton]; omega)
              (by omega)
              (by rw [hrest]; exact not_mem_cells_sub hnul (by omega) (by omega))
          rw [List.length_append, List.length_singleton] at e2
          refine ⟨line :: offs, lo, ll, buffer1, ?_, ?_, ?_, e4, ?_, ?_⟩
          · rw [e1, List.append_assoc]
            rfl
          · rw [List.length_cons]
            omega
          · intro i hi
            rw [e3 i (by omega)]
            exact store_out buffer nextline [ NUL] i (Or.inl (by omega))
          · rw [hsplit, List.map_cons, List.flatMap_cons, hstr _ e3, List.append_assoc, e5,
              hrest]
            simp
          · intro o ho
            rcases List.mem_cons.mp ho with e | e
            · rw [e, hstr _ e3]
              exact m4
            · exact e6 o e

/-- The loop that breaks the input into lines always ends, and it hands out at
most `MAX_LINES - 1` lines. -/
theorem readlines_split_total (length : Nat) :
    ∀ (fuel line : Nat) (linebuffer : List Nat) (buffer : Nat → Char),
      MAX_LINES ≤ fuel + linebuffer.length → linebuffer.length ≤ MAX_LINES - 1 →
      ∃ r, readlines_split length fuel line linebuffer buffer = some r ∧
        r.1.length ≤ MAX_LINES - 1 := by
  intro fuel
  induction fuel with
  | zero =>
    intro line linebuffer buffer h1 h2
    simp only [MAX_LINES] at h1 h2
    omega
  | succ fuel ih =>
    intro line linebuffer buffer hfuel hcap
    cases hm : memchr buffer line (length - line) with
    | none =>
      rw [readlines_split_none length fuel line linebuffer buffer hm]
      exact ⟨_, rfl, hcap⟩
    | some nextline =>
      by_cases hc : linebuffer.length = MAX_LINES - 1
      · rw [readlines_split_cap length fuel line nextline linebuffer buffer hm hc]
        exact ⟨_, rfl, hcap⟩
      · have hlen : (linebuffer ++ [line]).length ≤ MAX_LINES - 1 := by
          rw [List.length_append, List.length_singleton]
          omega
        by_cases he : nextline + 1 = length
        · rw [readlines_split_last length fuel line nextline linebuffer buffer hm hc he]
          exact ⟨_, rfl, hlen⟩
        · rw [readlines_split_next length fuel line nextline linebuffer buffer hm hc he]
          exact ih _ _ _ (by rw [List.length_append, List.length_singleton]; omega) hlen

/-! ### The loop that grows the buffer -/

/-- The loop does not run when its condition is false. -/
theorem readlines_grow_stop (fuel buffersize length : Nat) (buffer : Nat → Char) (fd : Fd)
    (h : ¬ (length = buffersize ∨ buffersize ≥ MAX_BUFFER)) :
    readlines_grow (fuel + 1) buffersize length buffer fd =
      some (buffersize, length, buffer, fd) := by
  rw [readlines_grow, if_neg h]

/-- One round of the loop whose `read` delivers nothing: the buffer has grown
and the loop is left. -/
theorem readlines_grow_break (fuel buffersize length : Nat) (buffer : Nat → Char) (fd : Fd)
    (h : length = buffersize ∨ buffersize ≥ MAX_BUFFER) (hr : (read fd 4096).1 = []) :
    readlines_grow (fuel + 1) buffersize length buffer fd =
      some (buffersize + 4096, length, buffer, (read fd 4096).2) := by
  rw [readlines_grow, if_pos h]
  dsimp only
  rw [Nat.add_sub_cancel_left, hr, if_pos (show ([] : Str).length ≤ 0 from Nat.le_refl 0)]

/-- One round of the loop whose `read` delivers bytes: the buffer has grown,
the bytes are stored from the old `buffersize` on, and the loop goes on. -/
theorem readlines_grow_more (fuel buffersize length : Nat) (buffer : Nat → Char) (fd : Fd)
    (h : length = buffersize ∨ buffersize ≥ MAX_BUFFER) (hr : (read fd 4096).1 ≠ []) :
    readlines_grow (fuel + 1) buffersize length buffer fd =
      readlines_grow fuel (buffersize + 4096) (length + (read fd 4096).1.length)
        (store buffer buffersize (read fd 4096).1) (read fd 4096).2 := by
  rw [readlines_grow, if_pos h]
  dsimp only
  rw [Nat.add_sub_cancel_left, if_neg]
  intro hle
  exact hr (List.length_eq_zero.mp (Nat.le_zero.mp hle))

/-- The loop always ends.  It never shrinks the buffer; when it leaves
`buffersize` as it was it has done nothing; and when its condition holds on
entry the buffer has grown by at least 4096. -/
theorem readlines_grow_total :
    ∀ (fuel buffersize length : Nat) (buffer : Nat → Char) (fd : Fd), avail fd < fuel →
      ∃ r, readlines_grow fuel buffersize length buffer fd = some r ∧ buffersize ≤ r.1 ∧
        (r.1 = buffersize → r = (buffersize, length, buffer, fd)) ∧
        (length = buffersize ∨ buffersize ≥ MAX_BUFFER → buffersize + 4096 ≤ r.1) := by
  intro fuel
  induction fuel with
  | zero =>
    intro buffersize length buffer fd h
    omega
  | succ fuel ih =>
    intro buffersize length buffer fd hfuel
    by_cases hc : length = buffersize ∨ buffersize ≥ MAX_BUFFER
    · by_cases hr : (read fd 4096).1 = []
      · rw [readlines_grow_break fuel buffersize length buffer fd hc hr]
        exact ⟨_, rfl, Nat.le_add_right _ _, fun e => absurd e (by simp), fun _ => Nat.le_refl _⟩
      · rw [readlines_grow_more fuel buffersize length buffer fd hc hr]
        have hpos : 0 < (read fd 4096).1.length := List.length_pos.mpr hr
        have hav := read_avail fd 4096
        obtain ⟨r, e, h1, -, -⟩ := ih (buffersize + 4096) (length + (read fd 4096).1.length)
          (store buffer buffersize (read fd 4096).1) (read fd 4096).2 (by omega)
        exact ⟨r, e, by omega, fun e2 => by omega, fun _ => h1⟩
    · rw [readlines_grow_stop fuel buffersize length buffer fd hc]
      exact ⟨_, rfl, Nat.le_refl _, fun _ => rfl, fun h => absurd h hc⟩

/-- The result of the loop does not depend on the fuel, once it suffices. -/
theorem readlines_grow_fuel :
    ∀ (n : Nat) (fd : Fd) (f1 f2 buffersize length : Nat) (buffer : Nat → Char),
      avail fd ≤ n → avail fd < f1 → avail fd < f2 →
      readlines_grow f1 buffersize length buffer fd =
        readlines_grow f2 buffersize length buffer fd := by
  intro n
  induction n with
  | zero =>
    intro fd f1 f2 buffersize length buffer hn h1 h2
    cases f1 with
    | zero => omega
    | succ f1 =>
      cases f2 with
      | zero => omega
      | succ f2 =>
        have hav := read_avail fd 4096
        by_cases hc : length = buffersize ∨ buffersize ≥ MAX_BUFFER
        · have hr : (read fd 4096).1 = [] := List.length_eq_zero.mp (by omega)
          rw [readlines_grow_break _ _ _ _ _ hc hr, readlines_grow_break _ _ _ _ _ hc hr]
        · rw [readlines_grow_stop _ _ _ _ _ hc, readlines_grow_stop _ _ _ _ _ hc]
  | succ n ih =>
    intro fd f1 f2 buffersize length buffer hn h1 h2
    cases f1 with
    | zero => omega
    | succ f1 =>
      cases f2 with
      | zero => omega
      | succ f2 =>
        have hav := read_avail fd 4096
        by_cases hc : length = buffersize ∨ buffersize ≥ MAX_BUFFER
        · by_cases hr : (read fd 4096).1 = []
          · rw [readlines_grow_break _ _ _ _ _ hc hr, readlines_grow_break _ _ _ _ _ hc hr]
          · have hpos : 0 < (read fd 4096).1.length := List.length_pos.mpr hr
            rw [readlines_grow_more _ _ _ _ _ hc hr, readlines_grow_more _ _ _ _ _ hc hr]
            exact ih _ _ _ _ _ _ (by omega) (by omega) (by omega)
        · rw [readlines_grow_stop _ _ _ _ _ hc, readlines_grow_stop _ _ _ _ _ hc]

/-! ### One call of `readlines` -/

/-- After the move and the first `read` the buffer starts with the left-over
bytes followed by the bytes read. -/
theorem cells_readlines_buffer1 (s : Statics) (fd : Fd) :
    cells (readlines_buffer1 s fd) 0
        (s.leftoverlen + (read fd (s.buffersize - s.leftoverlen)).1.length) =
      retained s ++ (read fd (s.buffersize - s.leftoverlen)).1 := by
  unfold readlines_buffer1
  rw [cells_append, Nat.zero_add, cells_store_same, cells_store_out _ _ _ _ _ (Or.inl (by omega))]
  congr 1
  by_cases h : s.leftover ≠ 0
  · rw [if_pos h]
    have e := cells_store_same s.buffer 0 (cells s.buffer s.leftover s.leftoverlen)
    rw [cells_length] at e
    exact e
  · rw [if_neg h]
    have h0 : s.leftover = 0 := by omega
    unfold retained
    rw [h0]

/-- Lines 117-136 always reach line 137: with `buffersize` not smaller than
before; when `buffersize` is as before, `length` is the number of left-over
bytes and bytes read, the memory is that after the first `read`, and no
further `read` was made.  When there are bytes and the loop condition holds
for them, the buffer has grown by at least 4096. -/
theorem readlines_fill_spec (s : Statics) (fd : Fd) :
    ∃ bs len buf fd1, readlines_fill s fd = some (bs, len, buf, fd1) ∧ s.buffersize ≤ bs ∧
      (bs = s.buffersize →
        len = s.leftoverlen + (read fd (s.buffersize - s.leftoverlen)).1.length ∧
        buf = readlines_buffer1 s fd ∧ fd1 = (read fd (s.buffersize - s.leftoverlen)).2) ∧
      (0 < s.leftoverlen + (read fd (s.buffersize - s.leftoverlen)).1.length →
        (s.leftoverlen + (read fd (s.buffersize - s.leftoverlen)).1.length = s.buffersize ∨
          s.buffersize ≥ MAX_BUFFER) → s.buffersize + 4096 ≤ bs) := by
  by_cases h0 : (read fd (s.buffersize - s.leftoverlen)).1.length + s.leftoverlen ≤ 0
  · refine ⟨s.buffersize, 0, readlines_buffer1 s fd, (read fd (s.buffersize - s.leftoverlen)).2,
      ?_, Nat.le_refl _, fun _ => ⟨by omega, rfl, rfl⟩, fun h => by omega⟩
    unfold readlines_fill
    dsimp only
    rw [if_pos h0]
    rfl
  · obtain ⟨r, e, h1, h2, h3⟩ := readlines_grow_total
      (avail (read fd (s.buffersize - s.leftoverlen)).2 + 1) s.buffersize
      ((read fd (s.buffersize - s.leftoverlen)).1.length + s.leftoverlen)
      (readlines_buffer1 s fd) (read fd (s.buffersize - s.leftoverlen)).2 (Nat.lt_succ_self _)
    refine ⟨r.1, r.2.1, r.2.2.1, r.2.2.2, ?_, h1, ?_, ?_⟩
    · unfold readlines_fill
      dsimp only
      rw [if_neg h0]
      exact e
    · intro hb
      have := h2 hb
      rw [this]
      exact ⟨Nat.add_comm _ _, rfl, rfl⟩
    · intro _ hc
      apply h3
      rcases hc with hc | hc
      · exact Or.inl (by omega)
      · exact Or.inr hc

/-- From line 137 on: with no bytes the call returns no line; with bytes it
breaks them into lines, at most `MAX_LINES - 1`. -/
theorem readlines_of_fill {s : Statics} {fd : Fd} {bs len : Nat} {buf : Nat → Char} {fd1 : Fd}
    (h : readlines_fill s fd = some (bs, len, buf, fd1)) :
    (len = 0 →
      readlines s fd =
        some ([], { buffersize := bs, leftover := 0, leftoverlen := 0, buffer := buf }, fd1)) ∧
    (0 < len →
      ∃ lb lo ll buf1,
        readlines_split len MAX_LINES 0 [] (store buf len [ NUL]) = some (lb, lo, ll, buf1) ∧
        readlines s fd =
          some (lb, { buffersize := bs, leftover := lo, leftoverlen := ll, buffer := buf1 },
            fd1) ∧
        lb.length ≤ MAX_LINES - 1) := by
  constructor
  · intro h0
    unfold readlines
    rw [h]
    dsimp only
    rw [if_pos (by omega)]
  · intro h0
    obtain ⟨r, e, hl⟩ := readlines_split_total len MAX_LINES 0 [] (store buf len [ NUL])
      (Nat.le_refl _) (Nat.zero_le _)
    refine ⟨r.1, r.2.1, r.2.2.1, r.2.2.2, e, ?_, hl⟩
    unfold readlines
    rw [h]
    dsimp only
    rw [if_neg (by omega), e]

/-- Every call of `readlines` returns, with at most `MAX_LINES - 1` lines and
a buffer that is not smaller than before. -/
theorem readlines_total (s : Statics) (fd : Fd) :
    ∃ r, readlines s fd = some r ∧ s.buffersize ≤ r.2.1.buffersize ∧
      r.1.length ≤ MAX_LINES - 1 := by
  obtain ⟨bs, len, buf, fd1, h, hbs, -, -⟩ := readlines_fill_spec s fd
  obtain ⟨h1, h2⟩ := readlines_of_fill h
  by_cases h0 : len = 0
  · exact ⟨_, h1 h0, hbs, Nat.zero_le _⟩
  · obtain ⟨lb, lo, ll, buf1, -, e, hl⟩ := h2 (by omega)
    exact ⟨_, e, hbs, hl⟩

/-- One call on data without a 0 byte that does not grow the buffer: the
lines handed out, each followed by a newline, the bytes kept for the next
call and the bytes still to come are the bytes kept before the call and the
bytes that were to come; no line holds a newline. -/
theorem readlines_call (s : Statics) (fd : Fd) (hs : s.ok) (hfd : NUL ∉ fd.flatten) :
    ∃ r, readlines s fd = some r ∧ s.buffersize ≤ r.2.1.buffersize ∧
      r.1.length ≤ MAX_LINES - 1 ∧
      (r.2.1.buffersize = s.buffersize →
        r.2.1.ok ∧ NUL ∉ r.2.2.flatten ∧
        (readlines_lines r).flatMap (fun l => l ++ ['\n']) ++ retained r.2.1 ++
            r.2.2.flatten = retained s ++ fd.flatten ∧
        ∀ l ∈ readlines_lines r, '\n' ∉ l) := by
  obtain ⟨bs, len, buf, fd1, h, hbs, hsame, -⟩ := readlines_fill_spec s fd
  obtain ⟨h1, h2⟩ := readlines_of_fill h
  have hread := read_flatten fd (s.buffersize - s.leftoverlen)
  have hle := read_length_le fd (s.buffersize - s.leftoverlen)
  have hcells := cells_readlines_buffer1 s fd
  have hD : NUL ∉ (read fd (s.buffersize - s.leftoverlen)).1 := by
    intro hm
    apply hfd
    rw [← hread]
    exact List.mem_append_left _ hm
  have hfd1 : NUL ∉ (read fd (s.buffersize - s.leftoverlen)).2.flatten := by
    intro hm
    apply hfd
    rw [← hread]
    exact List.mem_append_right _ hm
  by_cases h0 : len = 0
  · refine ⟨_, h1 h0, hbs, Nat.zero_le _, ?_⟩
    intro hb
    obtain ⟨e1, -, e3⟩ := hsame hb
    dsimp only at hb ⊢
    have hll : s.leftoverlen = 0 := by omega
    have hDn : (read fd (s.buffersize - s.leftoverlen)).1 = [] :=
      List.length_eq_zero.mp (by omega)
    have hR : retained s = [] := by
      unfold retained
      rw [hll]
      rfl
    refine ⟨⟨Nat.zero_le _, List.not_mem_nil _⟩, by rw [e3]; exact hfd1, ?_,
      fun l hl => absurd hl (List.not_mem_nil l)⟩
    rw [hR, ← hread, hDn, e3]
    rfl
  · obtain ⟨lb, lo, ll, buf1, es, e, hl⟩ := h2 (by omega)
    refine ⟨_, e, hbs, hl, ?_⟩
    intro hb
    obtain ⟨e1, e2, e3⟩ := hsame hb
    dsimp only at hb ⊢
    have hlen : len ≤ bs := by
      have := hs.1
      omega
    have hX : cells (store buf len [ NUL]) 0 (len - 0) =
        retained s ++ (read fd (s.buffersize - s.leftoverlen)).1 := by
      rw [Nat.sub_zero, cells_store_out _ _ _ _ _ (Or.inl (by omega)), e2, e1]
      exact hcells
    have hXn : NUL ∉ cells (store buf len [ NUL]) 0 (len - 0) := by
      rw [hX]
      intro hm
      rcases List.mem_append.mp hm with hm | hm
      · exact hs.2 hm
      · exact hD hm
    obtain ⟨offs, lo1, ll1, buf2, q1, -, -, q4, q5, q6⟩ :=
      readlines_split_spec len (bs + 1) (by omega) MAX_LINES 0 [] (store buf len [ NUL])
        (Nat.le_refl _) (Nat.zero_le _) (Nat.zero_le _) hXn
    rw [es, List.nil_append] at q1
    cases q1
    have hlines : readlines_lines
        (lb, { buffersize := bs, leftover := lo, leftoverlen := ll, buffer := buf1 }, fd1) =
        lb.map (fun o => cstr buf1 o (bs + 1)) := rfl
    have hret : retained { buffersize := bs, leftover := lo, leftoverlen := ll, buffer := buf1 } =
        cells buf1 lo ll := rfl
    rw [hlines, hret]
    refine ⟨⟨?_, ?_⟩, by rw [e3]; exact hfd1, ?_, ?_⟩
    · show lo + ll ≤ bs
      omega
    · show NUL ∉ cells buf1 lo ll
      intro hm
      apply hXn
      rw [← q5]
      exact List.mem_append_right _ hm
    · rw [q5, hX, e3, List.append_assoc, hread]
    · intro l hl2
      obtain ⟨o, ho, rfl⟩ := List.mem_map.mp hl2
      exact q6 o ho

/-! ### Successive calls of `readlines` -/

/-- Every sequence of calls returns, and the buffer never shrinks. -/
theorem readlines_run_total :
    ∀ (k : Nat) (s : Statics) (fd : Fd),
      ∃ q, readlines_run k s fd = some q ∧ s.buffersize ≤ q.2.1.buffersize := by
  intro k
  induction k with
  | zero =>
    intro s fd
    exact ⟨_, rfl, Nat.le_refl _⟩
  | succ k ih =>
    intro s fd
    obtain ⟨r, e, h1, -⟩ := readlines_total s fd
    obtain ⟨q, e2, h2⟩ := ih r.2.1 r.2.2
    refine ⟨(readlines_lines r ++ q.1, q.2), ?_, Nat.le_trans h1 h2⟩
    rw [readlines_run, e]
    dsimp only
    rw [e2]

/-- A sequence of calls on data without a 0 byte during which the buffer does
not grow: the lines handed out, each followed by a newline, the bytes kept
after the last call and the bytes still to come are the bytes kept before the
first call and the bytes that were to come; no line holds a newline. -/
theorem readlines_run_spec :
    ∀ (k : Nat) (s : Statics) (fd : Fd), s.ok → NUL ∉ fd.flatten →
      ∃ q, readlines_run k s fd = some q ∧ s.buffersize ≤ q.2.1.buffersize ∧
        (q.2.1.buffersize = s.buffersize →
          q.1.flatMap (fun l => l ++ ['\n']) ++ retained q.2.1 ++ q.2.2.flatten =
              retained s ++ fd.flatten ∧
            ∀ l ∈ q.1, '\n' ∉ l) := by
  intro k
  induction k with
  | zero =>
    intro s fd _ _
    exact ⟨_, rfl, Nat.le_refl _, fun _ => ⟨rfl, fun l hl => absurd hl (List.not_mem_nil l)⟩⟩
  | succ k ih =>
    intro s fd hs hfd
    obtain ⟨r, e, h1, -, h3⟩ := readlines_call s fd hs hfd
    have hrun : ∀ q, readlines_run k r.2.1 r.2.2 = some q →
        readlines_run (k + 1) s fd = some (readlines_lines r ++ q.1, q.2) := by
      intro q e2
      rw [readlines_run, e]
      dsimp only
      rw [e2]
    by_cases hb : r.2.1.buffersize = s.buffersize
    · obtain ⟨hok, hfd1, hcons, hnl⟩ := h3 hb
      obtain ⟨q, e2, g1, g2⟩ := ih r.2.1 r.2.2 hok hfd1
      refine ⟨_, hrun q e2, Nat.le_trans h1 g1, ?_⟩
      intro hq
      dsimp only at hq ⊢
      obtain ⟨c2, n2⟩ := g2 (by omega)
      refine ⟨?_, ?_⟩
      · rw [List.flatMap_append, List.append_assoc, List.append_assoc, ← hcons,
          List.append_assoc, ← c2, List.append_assoc]
      · intro l hl
        rcases List.mem_append.mp hl with h | h
        · exact hnl l h
        · exact n2 l h
    · obtain ⟨q, e2, g1⟩ := readlines_run_total k r.2.1 r.2.2
      refine ⟨_, hrun q e2, Nat.le_trans h1 g1, ?_⟩
      intro hq
      dsimp only at hq
      omega

/-! ### A descriptor that fills the buffer -/

/-- One round of the growing loop on a chunk of at most 4096 bytes: the whole
chunk is stored from the old `buffersize` on. -/
theorem readlines_grow_chunk (buffersize length : Nat) (buffer : Nat → Char) (c : Str)
    (fd : Fd) (h : length = buffersize ∨ buffersize ≥ MAX_BUFFER) (hc : c ≠ [])
    (hl : c.length ≤ 4096) :
    readlines_grow (avail (c :: fd) + 1) buffersize length buffer (c :: fd) =
      readlines_grow (avail fd + 1) (buffersize + 4096) (length + c.length)
        (store buffer buffersize c) fd := by
  have hr : read (c :: fd) 4096 = (c, fd) := by
    show (if c.length ≤ 4096 then (c, fd) else (c.take 4096, c.drop 4096 :: fd)) = (c, fd)
    rw [if_pos hl]
  have hpos : 0 < c.length := List.length_pos.mpr hc
  have hav : avail (c :: fd) = c.length + avail fd := by
    unfold avail
    rw [List.flatten_cons, List.length_append]
  rw [readlines_grow_more _ _ _ _ _ h (by rw [hr]; exact hc), hr]
  exact readlines_grow_fuel (avail fd) fd _ _ _ _ _ (Nat.le_refl _) (by omega) (by omega)

/-- The round of the growing loop on a descriptor that has nothing more: the
buffer grows once more and the loop is left. -/
theorem readlines_grow_nil (buffersize length : Nat) (buffer : Nat → Char)
    (h : length = buffersize ∨ buffersize ≥ MAX_BUFFER) :
    readlines_grow (avail [] + 1) buffersize length buffer [] =
      some (buffersize + 4096, length, buffer, []) :=
  readlines_grow_break _ _ _ _ _ h rfl

/-- A first call whose reads deliver 4095, 4096, 4096 and 4096 bytes and then
nothing: at line 137 `buffersize` is 20479 and `length` is 16383. -/
theorem readlines_fill_saturate (junk : Nat → Char) (c1 c2 c3 c4 : Str)
    (h1 : c1.length = 4095) (h2 : c2.length = 4096) (h3 : c3.length = 4096)
    (h4 : c4.length = 4096) :
    readlines_fill (readlines_init junk) [c1, c2, c3, c4] =
      some (20479, 16383,
        store (store (store (store junk 0 c1) 4095 c2) 8191 c3) 12287 c4, []) := by
  have hr : read [c1, c2, c3, c4] (4095 - 0) = (c1, [c2, c3, c4]) := by
    show (if c1.length ≤ 4095 - 0 then (c1, [c2, c3, c4])
      else (c1.take (4095 - 0), c1.drop (4095 - 0) :: [c2, c3, c4])) = (c1, [c2, c3, c4])
    rw [if_pos (by omega)]
  have hne : ∀ c : Str, c.length = 4096 → c ≠ [] := by
    intro c hc e
    rw [e] at hc
    cases hc
  have e0 : readlines_fill (readlines_init junk) [c1, c2, c3, c4] =
      readlines_grow (avail [c2, c3, c4] + 1) 4095 4095 (store junk 0 c1) [c2, c3, c4] := by
    unfold readlines_fill
    dsimp only [readlines_init]
    rw [hr]
    dsimp only
    rw [h1, if_neg (show ¬ (4095 + 0 ≤ 0) by decide),
      if_neg (show ¬ ((0 : Nat) ≠ 0) by decide)]
  rw [e0, readlines_grow_chunk _ _ _ c2 _ (Or.inl rfl) (hne c2 h2) (by omega), h2,
    readlines_grow_chunk _ _ _ c3 _ (Or.inl rfl) (hne c3 h3) (by omega), h3,
    readlines_grow_chunk _ _ _ c4 _ (Or.inl rfl) (hne c4 h4) (by omega), h4,
    readlines_grow_nil _ _ _ (Or.inl rfl)]

/-- Once `buffersize` has reached `MAX_BUFFER`, every call that has bytes
grows the buffer by at least 4096 more. -/
theorem readlines_grows_on (s : Statics) (fd : Fd) (hs : MAX_BUFFER ≤ s.buffersize)
    (hd : 0 < s.leftoverlen + (read fd (s.buffersize - s.leftoverlen)).1.length) :
    ∃ r, readlines s fd = some r ∧ s.buffersize + 4096 ≤ r.2.1.buffersize := by
  obtain ⟨bs, len, buf, fd1, h, -, -, hgrow⟩ := readlines_fill_spec s fd
  have hbs := hgrow hd (Or.inr hs)
  obtain ⟨h1, h2⟩ := readlines_of_fill h
  by_cases h0 : len = 0
  · exact ⟨_, h1 h0, hbs⟩
  · obtain ⟨lb, lo, ll, buf1, -, e, -⟩ := h2 (by omega)
    exact ⟨_, e, hbs⟩

/-- The calls of the colon-parameter part: for `macro` the one `cmd_macro`
call, otherwise per-key calls with the handler of the line. -/
theorem readcmd_colon_events (env : Env) (st : State) (mode : ModeRef) (word : Str) :
    ∃ evs, readcmd_colon env st mode word = some (st.emit evs) ∧
      (st.command = cmd.MACRO → ∀ e ∈ evs, e.handlerArg = none) ∧
      (∀ e ∈ evs, ∀ h, e.handlerArg = some h → h = st.handler) ∧
      ∀ e ∈ evs, e.deviceArg = none := by
  unfold readcmd_colon
  simp only []
  by_cases hl : sscanf_left word ≤ 0
  · exact ⟨[], by simp [hl, State.emit], by simp, by simp, by simp⟩
  · simp only [hl, if_false]
    by_cases hm : st.command = cmd.MACRO
    · simp only [hm, if_true]
      refine ⟨_, rfl, ?_, ?_, ?_⟩
      · intro _ e he
        rw [List.mem_singleton] at he
        rw [he]
        rfl
      · intro e he h hh
        rw [List.mem_singleton] at he
        rw [he] at hh
        cases hh
      · intro e he
        rw [List.mem_singleton] at he
        rw [he]
        rfl
    · simp only [hm, if_false]
      obtain ⟨evs, hevs⟩ := keyloop_total env st.handler mode word (sscanf_left word).toNat
        (rightOf word (sscanf_left word).toNat) ((sscanf_left word).toNat + 1) 0 (by omega)
      refine ⟨evs, by rw [hevs]; rfl, fun h => False.elim h, ?_, ?_⟩
      · intro e he h hh
        obtain ⟨k, -, rfl⟩ := mem_keyloop _ _ _ hevs e he
        cases hh
        rfl
      · intro e he
        obtain ⟨k, -, rfl⟩ := mem_keyloop _ _ _ hevs e he
        rfl

/-- A word that is no verb, on a line whose handler is the one of its
command: it keeps command and handler; a per-key call is made only while the
command is `bind`, `unbind`, `rebind` or `rgb`, with the handler of that
command; and no device-level call is made. -/
theorem readcmd_param_events (env : Env) (st : State) (word : Str)
    (hp : st.handler = handlerOf st.command) :
    ∃ st1 evs, readcmd_param env st word = some st1 ∧ st1.trace = st.trace ++ evs ∧
      st1.command = st.command ∧ st1.handler = st.handler ∧
      (∀ e ∈ evs, ∀ h, e.handlerArg = some h →
        st.command ∈ keyCommands ∧ h = handlerOf st.command) ∧
      ∀ e ∈ evs, e.deviceArg = none := by
  have hnil : ∃ st1 evs, some st = some st1 ∧ st1.trace = st.trace ++ evs ∧
      st1.command = st.command ∧ st1.handler = st.handler ∧
      (∀ e ∈ evs, ∀ h, e.handlerArg = some h →
        st.command ∈ keyCommands ∧ h = handlerOf st.command) ∧
      ∀ e ∈ evs, e.deviceArg = none :=
    ⟨st, [], rfl, by simp, rfl, rfl, by simp, by simp⟩
  have hone : ∀ ev : Event, ev.handlerArg = none → ev.deviceArg = none →
      ∃ st1 evs, some (st.emit [ev]) = some st1 ∧ st1.trace = st.trace ++ evs ∧
      st1.command = st.command ∧ st1.handler = st.handler ∧
      (∀ e ∈ evs, ∀ h, e.handlerArg = some h →
        st.command ∈ keyCommands ∧ h = handlerOf st.command) ∧
      ∀ e ∈ evs, e.deviceArg = none := by
    intro ev h1 h2
    refine ⟨_, [ev], rfl, rfl, rfl, rfl, ?_, ?_⟩
    · intro e he h hh
      rw [List.mem_singleton] at he
      rw [he, h1] at hh
      cases hh
    · intro e he
      rw [List.mem_singleton] at he
      rw [he]
      exact h2
  have hcolon : ∀ mode, st.command ∈ keyCommands ∨ st.command = cmd.MACRO →
      ∃ st1 evs, readcmd_colon env st mode word = some st1 ∧ st1.trace = st.trace ++ evs ∧
      st1.command = st.command ∧ st1.handler = st.handler ∧
      (∀ e ∈ evs, ∀ h, e.handlerArg = some h →
        st.command ∈ keyCommands ∧ h = handlerOf st.command) ∧
      ∀ e ∈ evs, e.deviceArg = none := by
    intro mode hc
    obtain ⟨evs, e1, e2, e3, e4⟩ := readcmd_colon_events env st mode word
    refine ⟨_, evs, e1, rfl, rfl, rfl, ?_, e4⟩
    intro e he h hh
    rcases hc with hc | hc
    · exact ⟨hc, by rw [e3 e he h hh, hp]⟩
    · rw [e2 hc e he] at hh
      cases hh
  unfold readcmd_param
  by_cases h1 : st.command = cmd.NONE
  · rw [if_pos h1]; exact hnil
  rw [if_neg h1]
  by_cases h2 : st.command = cmd.DEVICE
  · rw [if_pos h2]
    unfold readcmd_device
    split
    · split
      · exact ⟨_, [], rfl, by simp, rfl, rfl, by simp, by simp⟩
      · refine ⟨_, [Event.addstore word], rfl, rfl, rfl, rfl, ?_, ?_⟩
        · intro e he h hh
          rw [List.mem_singleton] at he
          rw [he] at hh
          cases hh
        · intro e he
          rw [List.mem_singleton] at he
          rw [he]
          rfl
    · exact hnil
  rw [if_neg h2]
  cases hm : st.mode with
  | none => exact hnil
  | some mode =>
    simp only []
    by_cases h3 : st.command = cmd.MODE
    · rw [if_pos h3]
      unfold readcmd_mode
      split
      · split
        · refine ⟨_, [Event.getusbmode _ st.profile], rfl, rfl, rfl, rfl, ?_, ?_⟩
          · intro e he h hh
            rw [List.mem_singleton] at he
            rw [he] at hh
            cases hh
          · intro e he
            rw [List.mem_singleton] at he
            rw [he]
            rfl
        · exact hnil
      · exact hnil
    rw [if_neg h3]
    by_cases h4 : st.command = cmd.NAME
    · rw [if_pos h4]; exact hone _ rfl rfl
    rw [if_neg h4]
    by_cases h5 : st.command = cmd.PROFILENAME
    · rw [if_pos h5]; exact hone _ rfl rfl
    rw [if_neg h5]
    by_cases h6 : st.command = cmd.RGB
    · rw [if_pos h6]
      by_cases h7 : word = "on".toList
      · rw [if_pos h7]; exact hone _ rfl rfl
      rw [if_neg h7]
      by_cases h8 : word = "off".toList
      · rw [if_pos h8]; exact hone _ rfl rfl
      rw [if_neg h8]
      by_cases h9 : sscanf_rgb3 word = true
      · rw [if_pos h9]
        refine ⟨_, _, rfl, rfl, rfl, rfl, ?_, ?_⟩
        · intro e he h hh
          obtain ⟨k, -, rfl⟩ := mem_allKeys he
          cases hh
          rw [h6]
          exact ⟨by decide, rfl⟩
        · intro e he
          obtain ⟨k, -, rfl⟩ := mem_allKeys he
          rfl
      rw [if_neg h9]
      exact hcolon mode (Or.inl (by rw [h6]; decide))
    rw [if_neg h6]
    by_cases h10 : st.command = cmd.MACRO ∧ word = "clear".toList
    · rw [if_pos h10]; exact hone _ rfl rfl
    rw [if_neg h10]
    apply hcolon mode
    cases hc : st.command with
    | NONE => exact absurd hc h1
    | DEVICE => exact absurd hc h2
    | MODE => exact absurd hc h3
    | NAME => exact absurd hc h4
    | PROFILENAME => exact absurd hc h5
    | RGB => exact absurd hc h6
    | MACRO => exact Or.inr rfl
    | BIND => exact Or.inl (by decide)
    | UNBIND => exact Or.inl (by decide)
    | REBIND => exact Or.inl (by decide)

/-- One word on a line whose handler is the one of its command: the handler
still is the one of the command afterwards; a per-key call is made only by a
word that is no verb while the command is `bind`, `unbind`, `rebind` or
`rgb`, with the handler of that command; and a device-level call is made only
by `hwload` or `hwsave` on a line with a profile, with the device pointer of
the line. -/
theorem readcmd_word_events (env : Env) (st : State) (word : Str)
    (hp : st.handler = handlerOf st.command) :
    ∃ st1 evs, readcmd_word env st word = some st1 ∧ st1.trace = st.trace ++ evs ∧
      st1.handler = handlerOf st1.command ∧
      (∀ e ∈ evs, ∀ h, e.handlerArg = some h →
        word ∉ verbs ∧ st.command ∈ keyCommands ∧ h = handlerOf st.command) ∧
      ∀ e ∈ evs, ∀ k, e.deviceArg = some k → k = st.kb ∧ st.profile.isSome = true := by
  have hverb : ∀ (st1 : State) (evs : List Event), st1.trace = st.trace ++ evs →
      st1.handler = handlerOf st1.command → (∀ e ∈ evs, e.handlerArg = none) →
      (∀ e ∈ evs, ∀ k, e.deviceArg = some k → k = st.kb ∧ st.profile.isSome = true) →
      ∃ st2 evs, some st1 = some st2 ∧ st2.trace = st.trace ++ evs ∧
        st2.handler = handlerOf st2.command ∧
        (∀ e ∈ evs, ∀ h, e.handlerArg = some h →
          word ∉ verbs ∧ st.command ∈ keyCommands ∧ h = handlerOf st.command) ∧
        ∀ e ∈ evs, ∀ k, e.deviceArg = some k → k = st.kb ∧ st.profile.isSome = true := by
    intro st1 evs h1 h2 h3 h4
    refine ⟨st1, evs, rfl, h1, h2, ?_, h4⟩
    intro e he h hh
    rw [h3 e he] at hh
    cases hh
  have hnone : ∀ e ∈ ([] : List Event), e.handlerArg = none :=
    fun e he => absurd he (List.not_mem_nil e)
  have hnod : ∀ e ∈ ([] : List Event), ∀ k, e.deviceArg = some k →
      k = st.kb ∧ st.profile.isSome = true :=
    fun e he => absurd he (List.not_mem_nil e)
  by_cases h1 : word = "device".toList
  · subst h1
    rw [readcmd_word_device]
    exact hverb _ [] (List.append_nil _).symm rfl hnone hnod
  by_cases h2 : word = "mode".toList
  · subst h2
    rw [readcmd_word_mode]
    exact hverb _ [] (List.append_nil _).symm rfl hnone hnod
  by_cases h3 : word = "switch".toList
  · subst h3
    rw [readcmd_word_switch]
    exact hverb _ [] (List.append_nil _).symm rfl hnone hnod
  by_cases h4 : word = "hwload".toList
  · subst h4
    rw [readcmd_word_hwload]
    refine hverb _ _ rfl rfl ?_ ?_
    · intro e he
      split at he
      · rw [List.mem_singleton] at he
        rw [he]
        rfl
      · exact absurd he (List.not_mem_nil e)
    · intro e he k hk
      split at he
      · rename_i hprof
        rw [List.mem_singleton] at he
        rw [he] at hk
        cases hk
        exact ⟨rfl, hprof⟩
      · exact absurd he (List.not_mem_nil e)
  by_cases h5 : word = "hwsave".toList
  · subst h5
    rw [readcmd_word_hwsave]
    refine hverb _ _ rfl rfl ?_ ?_
    · intro e he
      split at he
      · rw [List.mem_singleton] at he
        rw [he]
        rfl
      · exact absurd he (List.not_mem_nil e)
    · intro e he k hk
      split at he
      · rename_i hprof
        rw [List.mem_singleton] at he
        rw [he] at hk
        cases hk
        exact ⟨rfl, hprof⟩
      · exact absurd he (List.not_mem_nil e)
  by_cases h6 : word = "erase".toList
  · subst h6
    rw [readcmd_word_erase]
    refine hverb _ _ rfl rfl ?_ ?_
    · intro e he
      split at he
      · rw [List.mem_singleton] at he
        rw [he]
        rfl
      · exact absurd he (List.not_mem_nil e)
    · intro e he k hk
      split at he
      · rw [List.mem_singleton] at he
        rw [he] at hk
        cases hk
      · exact absurd he (List.not_mem_nil e)
  by_cases h7 : word = "eraseprofile".toList
  · subst h7
    rw [readcmd_word_eraseprofile]
    cases hpr : st.profile with
    | none =>
      exact ⟨_, [], rfl, (List.append_nil _).symm, rfl,
        fun e he => absurd he (List.not_mem_nil e), fun e he => absurd he (List.not_mem_nil e)⟩
    | some p =>
      refine ⟨_, [Event.eraseprofile p, Event.getusbmode 0 (some p)], rfl, rfl, rfl, ?_, ?_⟩
      · intro e he h hh
        simp only [List.mem_cons, List.mem_singleton, List.not_mem_nil, or_false] at he
        rcases he with he | he <;> rw [he] at hh <;> cases hh
      · intro e he k hk
        simp only [List.mem_cons, List.mem_singleton, List.not_mem_nil, or_false] at he
        rcases he with he | he <;> rw [he] at hk <;> cases hk
  by_cases h8 : word = "name".toList
  · subst h8
    rw [readcmd_word_name]
    refine hverb _ _ rfl rfl ?_ ?_
    · intro e he
      split at he
      · rw [List.mem_singleton] at he
        rw [he]
        rfl
      · exact absurd he (List.not_mem_nil e)
    · intro e he k hk
      split at he
      · rw [List.mem_singleton] at he
        rw [he] at hk
        cases hk
      · exact absurd he (List.not_mem_nil e)
  by_cases h9 : word = "profilename".toList
  · subst h9
    rw [readcmd_word_profilename]
    refine hverb _ _ rfl rfl ?_ ?_
    · intro e he
      split at he
      · rw [List.mem_singleton] at he
        rw [he]
        rfl
      · exact absurd he (List.not_mem_nil e)
    · intro e he k hk
      split at he
      · rw [List.mem_singleton] at he
        rw [he] at hk
        cases hk
      · exact absurd he (List.not_mem_nil e)
  by_cases h10 : word = "bind".toList
  · subst h10
    rw [readcmd_word_bind]
    exact hverb _ [] (List.append_nil _).symm rfl hnone hnod
  by_cases h11 : word = "unbind".toList
  · subst h11
    rw [readcmd_word_unbind]
    exact hverb _ [] (List.append_nil _).symm rfl hnone hnod
  by_cases h12 : word = "rebind".toList
  · subst h12
    rw [readcmd_word_rebind]
    exact hverb _ [] (List.append_nil _).symm rfl hnone hnod
  by_cases h13 : word = "macro".toList
  · subst h13
    rw [ readcmd_word_macro]
    exact hverb _ [] (List.append_nil _).symm rfl hnone hnod
  by_cases h14 : word = "rgb".toList
  · subst h14
    rw [readcmd_word_rgb]
    refine hverb _ _ rfl rfl ?_ ?_
    · intro e he
      split at he
      · rw [List.mem_singleton] at he
        rw [he]
        rfl
      · exact absurd he (List.not_mem_nil e)
    · intro e he k hk
      split at he
      · rw [List.mem_singleton] at he
        rw [he] at hk
        cases hk
      · exact absurd he (List.not_mem_nil e)
  have hv : word ∉ verbs := by
    simp only [verbs, List.mem_cons, List.mem_singleton, List.not_mem_nil, or_false, not_or]
    exact ⟨h1, h2, h3, h4, h5, h6, h7, h8, h9, h10, h11, h12, h13, h14⟩
  rw [readcmd_word_of_not_verb env st hv]
  obtain ⟨st1, evs, e1, e2, e3, e4, e5, e6⟩ := readcmd_param_events env st word hp
  refine ⟨st1, evs, e1, e2, by rw [e4, e3, hp], ?_, ?_⟩
  · intro e he h hh
    exact ⟨hv, e5 e he h hh⟩
  · intro e he k hk
    rw [e6 e he] at hk
    cases hk

/-- The handlers of the commands with a per-key handler. -/
theorem handlerOf_keyCommands :
    ∀ c ∈ keyCommands,
      (handlerOf c).isSome = true ∧
        handlerOf c ∈ [some cmdhandler.cmd_bind, some cmdhandler.cmd_unbind,
          some cmdhandler.cmd_rebind, some cmdhandler.cmd_ledrgb] := by
  decide

/-- After a verb that installs no handler the command is none of `bind`,
`unbind`, `rebind`, `rgb`, and the handler is null. -/
theorem readcmd_word_handlerless (env : Env) (st : State) (v : Str)
    (hv : v ∈ handlerlessVerbs) :
    ∃ st1, readcmd_word env st v = some st1 ∧ st1.command ∉ keyCommands ∧
      st1.handler = none := by
  simp only [handlerlessVerbs, List.mem_cons, List.mem_singleton, List.not_mem_nil,
    or_false] at hv
  rcases hv with rfl | rfl | rfl | rfl | rfl | rfl | rfl | rfl | rfl | rfl
  · rw [readcmd_word_device]
    exact ⟨_, rfl, show cmd.DEVICE ∉ keyCommands by decide, rfl⟩
  · rw [readcmd_word_mode]
    exact ⟨_, rfl, show cmd.MODE ∉ keyCommands by decide, rfl⟩
  · rw [readcmd_word_name]
    exact ⟨_, rfl, show cmd.NAME ∉ keyCommands by decide, rfl⟩
  · rw [readcmd_word_profilename]
    exact ⟨_, rfl, show cmd.PROFILENAME ∉ keyCommands by decide, rfl⟩
  · rw [ readcmd_word_macro]
    exact ⟨_, rfl, show cmd.MACRO ∉ keyCommands by decide, rfl⟩
  · rw [readcmd_word_switch]
    exact ⟨_, rfl, show cmd.NONE ∉ keyCommands by decide, rfl⟩
  · rw [readcmd_word_hwload]
    exact ⟨_, rfl, show cmd.NONE ∉ keyCommands by decide, rfl⟩
  · rw [readcmd_word_hwsave]
    exact ⟨_, rfl, show cmd.NONE ∉ keyCommands by decide, rfl⟩
  · rw [readcmd_word_erase]
    exact ⟨_, rfl, show cmd.NONE ∉ keyCommands by decide, rfl⟩
  · rw [readcmd_word_eraseprofile]
    cases st.profile with
    | none => exact ⟨_, rfl, show cmd.NONE ∉ keyCommands by decide, rfl⟩
    | some p => exact ⟨_, rfl, show cmd.NONE ∉ keyCommands by decide, rfl⟩

/-- On a line whose handler is the one of its command, every per-key call of
a list of words is made with one of the four handlers. -/
theorem readcmd_words_handlers (env : Env) :
    ∀ (ws : List Str) (st : State), st.handler = handlerOf st.command →
      ∃ st1 evs, readcmd_words env st ws = some st1 ∧ st1.trace = st.trace ++ evs ∧
        ∀ e ∈ evs, ∀ h, e.handlerArg = some h → ∃ c ∈ keyCommands, h = handlerOf c := by
  intro ws
  induction ws with
  | nil =>
    intro st _
    exact ⟨st, [], readcmd_words_nil env st, (List.append_nil _).symm,
      fun e he => absurd he (List.not_mem_nil e)⟩
  | cons w ws ih =>
    intro st hp
    obtain ⟨st1, evs1, e1, t1, p1, c1, -⟩ := readcmd_word_events env st w hp
    obtain ⟨st2, evs2, e2, t2, c2⟩ := ih st1 p1
    refine ⟨st2, evs1 ++ evs2, ?_, by rw [t2, t1, List.append_assoc], ?_⟩
    · rw [readcmd_words_cons, e1, Option.some_bind, e2]
    · intro e he h hh
      rcases List.mem_append.mp he with he | he
      · exact ⟨st.command, (c1 e he h hh).2.1, (c1 e he h hh).2.2⟩
      · exact c2 e he h hh

/-! ### The device pointer of a line -/

/-- The device pointer when `readcmd` enters its word loop. -/
theorem target_readcmd_init (d : Daemon) (kb : Nat) : (readcmd_init d kb).target d := by
  refine ⟨fun _ => rfl, ?_, ?_⟩
  · intro hp i hi
    have hi2 : i = kb := (Option.some.inj hi).symm
    rw [hi2]
    unfold readcmd_init at hp
    dsimp only at hp
    by_cases hh : ((d.keyboard.get? kb).map (fun k => k.handle)).getD false = true
    · exact hh
    · rw [if_neg hh] at hp
      cases hp
  · intro hp
    unfold readcmd_init at hp ⊢
    dsimp only at hp ⊢
    rw [hp]
    rfl

/-- The word after `device` keeps the device pointer sound: it is the device
found, which is plugged in, or null. -/
theorem target_readcmd_device {d : Daemon} {st : State} (h : st.target d) (word : Str) :
    (readcmd_device st word).target d := by
  obtain ⟨ha, hb, hc⟩ := h
  unfold readcmd_device
  by_cases hl : word.length = SERIAL_LEN - 1
  · rw [if_pos hl]
    cases hf : findusb st.daemon word with
    | some j =>
      dsimp only
      obtain ⟨k, hk, hh, -⟩ := findusb_some hf
      refine ⟨ha, ?_, fun e => by cases e⟩
      intro _ i hi
      have hi2 : i = j := (Option.some.inj hi).symm
      rw [hi2, ← ha j]
      unfold live
      rw [hk]
      exact hh
    | none =>
      dsimp only
      refine ⟨fun i => by rw [← ha i]; exact live_addstore st.daemon word i, ?_, ?_⟩
      · intro _ i hi
        cases hi
      · intro e
        have e1 : (addstore st.daemon word).2 = none := e
        show currentmodeOf (addstore st.daemon word).1 (addstore st.daemon word).2 = none
        rw [e1]
        rfl
  · rw [if_neg hl]
    exact ⟨ha, hb, hc⟩

/-- The word after `mode` keeps the device pointer sound. -/
theorem target_readcmd_mode {d : Daemon} {st : State} (h : st.target d) (word : Str) :
    (readcmd_mode st word).target d := by
  obtain ⟨ha, hb, hc⟩ := h
  unfold readcmd_mode
  split
  · split
    · refine ⟨fun i => by rw [← ha i]; exact live_getusbmode _ _ _ i, hb, ?_⟩
      intro e
      have e1 : st.profile = none := e
      show (getusbmode st.daemon _ st.profile).2 = none
      rw [e1]
      rfl
    · exact ⟨ha, hb, hc⟩
  · exact ⟨ha, hb, hc⟩

/-- Every word keeps the device pointer of the line sound. -/
theorem target_word (env : Env) (d : Daemon) (st : State) (word : Str) (h : st.target d) :
    ∃ st1, readcmd_word env st word = some st1 ∧ st1.target d := by
  obtain ⟨st1, h1, -, hcase⟩ := readcmd_word_cases env st word
  refine ⟨st1, h1, ?_⟩
  obtain ⟨ha, hb, hc⟩ := h
  rcases hcase with hs | ⟨e, hp, hm, hd⟩ | ⟨e, p, hpr, hp, hm, hd⟩ | ⟨-, -, e⟩ | ⟨-, e⟩
  · obtain ⟨s1, s2, -, s4, s5⟩ := hs
    unfold State.target
    rw [s1, s2, s4, s5]
    exact ⟨ha, hb, hc⟩
  · have hkb : st1.kb = st.kb := by
      rw [e, readcmd_word_switch] at h1
      rw [← Option.some.inj h1]
    unfold State.target
    rw [hkb, hp, hm, hd]
    refine ⟨?_, hb, hc⟩
    intro i
    rw [← ha i]
    cases st.profile with
    | none => rfl
    | some q => exact live_setCurrentmode _ _ _ i
  · have hkb : st1.kb = st.kb := by
      rw [e, readcmd_word_eraseprofile, hpr] at h1
      rw [← Option.some.inj h1]
    unfold State.target
    rw [hkb, hp, hd]
    refine ⟨?_, ?_, fun e2 => by cases e2⟩
    · intro i
      rw [← ha i, live_setCurrentmode, live_getusbmode, live_eraseprofile]
    · intro _ i hi
      exact hb (by rw [hpr]; rfl) i hi
  · rw [e]
    exact target_readcmd_device ⟨ha, hb, hc⟩ word
  · rw [e]
    exact target_readcmd_mode ⟨ha, hb, hc⟩ word

/-- Every list of words keeps the device pointer of the line sound, and makes
its device-level calls with a plugged-in device or with the null device. -/
theorem target_words (env : Env) (d : Daemon) :
    ∀ (ws : List Str) (st : State), st.target d → st.handler = handlerOf st.command →
      ∃ st1 evs, readcmd_words env st ws = some st1 ∧ st1.trace = st.trace ++ evs ∧
        st1.target d ∧
        ∀ e ∈ evs, ∀ k, e.deviceArg = some k → k = none ∨ ∃ i, k = some i ∧ live d i = true := by
  intro ws
  induction ws with
  | nil =>
    intro st h _
    exact ⟨st, [], readcmd_words_nil env st, (List.append_nil _).symm, h,
      fun e he => absurd he (List.not_mem_nil e)⟩
  | cons w ws ih =>
    intro st h hp
    obtain ⟨st1, evs1, e1, t1, p1, -, c1⟩ := readcmd_word_events env st w hp
    obtain ⟨st1b, e1b, g1⟩ := target_word env d st w h
    rw [e1] at e1b
    have hst : st1b = st1 := (Option.some.inj e1b).symm
    rw [hst] at g1
    obtain ⟨st2, evs2, e2, t2, g2, c2⟩ := ih st1 g1 p1
    refine ⟨st2, evs1 ++ evs2, ?_, by rw [t2, t1, List.append_assoc], g2, ?_⟩
    · rw [readcmd_words_cons, e1, Option.some_bind, e2]
    · intro e he k hk
      rcases List.mem_append.mp he with he | he
      · obtain ⟨hk1, hk2⟩ := c1 e he k hk
        cases hkb : st.kb with
        | none =>
          left
          rw [hk1, hkb]
        | some i =>
          right
          exact ⟨i, by rw [hk1, hkb], h.2.1 hk2 i hkb⟩
      · exact c2 e he k hk

/-! ## The claims -/

/-- C10: for every command line that is empty, consists only of white space,
or has no word equal to one of the fourteen verbs, `readcmd` ends in the
state it started from: the tables are unchanged and the call trace is empty
(no handler call, no mode or storage entry created, no modification counter
bumped, no LED refresh). -/
theorem C10_unknown_words_change_nothing (env : Env) (d : Daemon) (kb : Nat) (line : Str)
    (h : line = [] ∨ (∀ c ∈ line, isspace c = true) ∨ (∀ w ∈ words line, w ∉ verbs)) :
    readcmd env d kb line = some (readcmd_init d kb) ∧
      (readcmd_init d kb).daemon = d ∧ (readcmd_init d kb).trace = [] := by
  have hw : ∀ w ∈ words line, w ∉ verbs := by
    rcases h with h | h | h
    · subst h
      intro w hw
      have : words [] = [] := by decide
      rw [this] at hw
      simp at hw
    · rw [words_of_spaces h]
      intro w hw
      simp at hw
    · exact h
  refine ⟨?_, rfl, rfl⟩
  rw [readcmd_eq_words, readcmd_words_unknown env _ _ hw rfl]
  simp only [Option.map_some']
  rw [readcmd_finish_of_not_rgbchange rfl]

/-- C10 at a concrete line of unknown words. -/
theorem C10_unknown_words_change_nothing_witness :
    (∀ w ∈ words "hello key:value  42".toList, w ∉ verbs) ∧
      readcmd sampleEnv sampleDaemon 1 "hello key:value  42".toList =
        some (readcmd_init sampleDaemon 1) :=
  ⟨by decide,
    (C10_unknown_words_change_nothing sampleEnv sampleDaemon 1 "hello key:value  42".toList
      (Or.inr (Or.inr (by decide)))).1⟩

/-- C7: for every command line, the words themselves request no LED refresh;
after the last word `readcmd` requests exactly one (`updateleds(kb)`, the
last call of the trace) if the line contains one of the words `switch`,
`hwload`, `erase`, `eraseprofile`, `rgb` and the mode selected at the end is
present, and none otherwise.  `st` is the state after the last word. -/
theorem C7_led_refresh_once_at_end (env : Env) (d : Daemon) (kb : Nat) (line : Str) :
    ∃ st, readcmd_words env (readcmd_init d kb) (words line) = some st ∧
      (∀ e ∈ st.trace, ∀ k, e ≠ Event.updateleds k) ∧
      ((st.mode.isSome = true ∧ ∃ w ∈ words line, w ∈ ledVerbs) →
        readcmd env d kb line = some (st.emit [Event.updateleds st.kb])) ∧
      (¬ (st.mode.isSome = true ∧ ∃ w ∈ words line, w ∈ ledVerbs) →
        readcmd env d kb line = some st) := by
  obtain ⟨st, evs, hst, hrgb, htr, hev⟩ := readcmd_words_frame env (words line) (readcmd_init d kb)
  have hrgb2 : st.rgbchange = true ↔ ∃ w ∈ words line, w ∈ ledVerbs := by
    rw [hrgb]
    simp [readcmd_init, List.any_eq_true]
  refine ⟨st, hst, ?_, ?_, ?_⟩
  · intro e he k
    rw [htr] at he
    simp only [readcmd_init, List.nil_append] at he
    exact hev e he k
  · intro h
    rw [readcmd_eq_words, hst]
    simp only [Option.map_some', readcmd_finish]
    rw [if_pos ⟨h.1, hrgb2.mpr h.2⟩]
  · intro h
    rw [readcmd_eq_words, hst]
    simp only [Option.map_some', readcmd_finish]
    rw [if_neg (fun hc => h ⟨hc.1, hrgb2.mp hc.2⟩)]

/-- C5: after `macro`, on a line with a live mode, a word `L:R` (`L` not
empty and without colon) makes exactly one call, `cmd_macro(mode, L, R)`,
with `R` everything after the first colon, and no per-key handler call; the
word `clear` makes the one call `cmd_macroclear(mode)`.  The verb itself
installs no handler.  So the lines `macro clear` and `macro g1+g2:abc`,
read one after the other from a device whose current mode is `m`, yield
one clear and then one `cmd_macro` call with `g1+g2` and `abc`. -/
theorem C5_macro_parameters (env : Env) (st : State) (mode : ModeRef) (L R : Str)
    (d : Daemon) (kb : Nat) (m : ModeRef)
    (hcmd : st.command = cmd.MACRO) (hmode : st.mode = some mode)
    (hL : L ≠ []) (hcolon : ∀ c ∈ L, c ≠ ':')
    (hlive : (readcmd_init d kb).mode = some m) :
    readcmd_word env st (L ++ ':' :: R) = some (st.emit [ Event.cmd_macro_call mode L R]) ∧
      readcmd_word env st "clear".toList = some (st.emit [Event.cmd_macroclear mode]) ∧
      readcmd_word env st "macro".toList = some { st with command := cmd.MACRO, handler := none } ∧
      ∃ st1 st2,
        readcmd env d kb "macro clear".toList = some st1 ∧
          st1.trace = [Event.cmd_macroclear m] ∧ st1.daemon = d ∧
          readcmd env st1.daemon kb "macro g1+g2:abc".toList = some st2 ∧
          st2.trace = [ Event.cmd_macro_call m "g1+g2".toList "abc".toList] ∧ st2.daemon = d := by
  refine ⟨?_, ?_, readcmd_word_macro env st, ?_⟩
  · rw [readcmd_word_of_not_verb env st (not_verb_of_colon (by simp))]
    exact readcmd_param_macro env st mode L R hcmd hmode hL hcolon
  · rw [readcmd_word_of_not_verb env st (show "clear".toList ∉ verbs by decide)]
    exact readcmd_param_macro_clear env st mode hcmd hmode
  · have hw1 : words "macro clear".toList = ["macro".toList, "clear".toList] := by decide
    have hw2 : words "macro g1+g2:abc".toList = ["macro".toList, "g1+g2:abc".toList] := by
      decide
    have e1 : readcmd env d kb "macro clear".toList =
        some (({ readcmd_init d kb with command := cmd.MACRO, handler := none } : State).emit
          [Event.cmd_macroclear m]) := by
      rw [readcmd_eq_words, hw1, readcmd_words_cons, readcmd_word_macro]
      simp only [Option.some_bind]
      rw [readcmd_words_cons,
        readcmd_word_of_not_verb env _ (show "clear".toList ∉ verbs by decide),
        readcmd_param_macro_clear env
          ({ readcmd_init d kb with command := cmd.MACRO, handler := none } : State) m rfl hlive]
      simp only [Option.some_bind, readcmd_words_nil, Option.map_some']
      rw [readcmd_finish_of_not_rgbchange rfl]
    have e2 : readcmd env d kb "macro g1+g2:abc".toList =
        some (({ readcmd_init d kb with command := cmd.MACRO, handler := none } : State).emit
          [ Event.cmd_macro_call m "g1+g2".toList "abc".toList]) := by
      rw [readcmd_eq_words, hw2, readcmd_words_cons, readcmd_word_macro]
      simp only [Option.some_bind]
      rw [readcmd_words_cons,
        readcmd_word_of_not_verb env _ (show "g1+g2:abc".toList ∉ verbs by decide)]
      have := readcmd_param_macro env
        ({ readcmd_init d kb with command := cmd.MACRO, handler := none } : State) m
        "g1+g2".toList "abc".toList rfl hlive (by decide) (by decide)
      rw [show "g1+g2:abc".toList = "g1+g2".toList ++ ':' :: "abc".toList by decide, this]
      simp only [Option.some_bind, readcmd_words_nil, Option.map_some']
      rw [readcmd_finish_of_not_rgbchange rfl]
    exact ⟨_, _, e1, rfl, rfl, e2, rfl, rfl⟩

/-- C5 at concrete input: after `macro` on the example keyboard, the word
`g1+g2:abc`. -/
theorem C5_macro_parameters_witness :
    readcmd_word sampleEnv (sampleState cmd.MACRO none) "g1+g2:abc".toList =
      some ((sampleState cmd.MACRO none).emit
        [ Event.cmd_macro_call sampleMode "g1+g2".toList "abc".toList]) :=
  (C5_macro_parameters sampleEnv (sampleState cmd.MACRO none) sampleMode "g1+g2".toList
    "abc".toList sampleDaemon 1 sampleMode rfl (by decide) (by decide) (by decide)
    (by decide)).1

/-- C6: after `rgb`, on a line with a live mode, a bare word `w` of exactly
six hexadecimal digits makes the calls `cmd_ledrgb(mode, i, w)` for
`i = 0 .. N_KEYS - 1`, once each, in ascending order, with the raw word as
the colour string, and nothing else (it is not split at a colon); the words
`on` and `off` make the one call `cmd_ledon(mode)`, `cmd_ledoff(mode)`. -/
theorem C6_rgb_bare_words (env : Env) (st : State) (mode : ModeRef) (w : Str)
    (hcmd : st.command = cmd.RGB) (hmode : st.mode = some mode)
    (hlen : w.length = 6) (hhex : ∀ c ∈ w, (hexVal c).isSome = true) :
    readcmd_word env st w =
        some (st.emit ((List.range env.N_KEYS).map
          (fun i => Event.call (some cmdhandler.cmd_ledrgb) mode i w))) ∧
      readcmd_word env st "on".toList = some (st.emit [Event.cmd_ledon mode]) ∧
      readcmd_word env st "off".toList = some (st.emit [Event.cmd_ledoff mode]) := by
  have hon : w ≠ "on".toList := by
    intro h; rw [h] at hlen; revert hlen; decide
  have hoff : w ≠ "off".toList := by
    intro h; rw [h] at hlen; revert hlen; decide
  refine ⟨?_, ?_, ?_⟩
  · rw [readcmd_word_of_not_verb env st (not_verb_of_hex hhex)]
    exact readcmd_param_rgb_broadcast env st mode w hcmd hmode hon hoff
      (sscanf_rgb3_hex6 hlen hhex)
  · rw [readcmd_word_of_not_verb env st (show "on".toList ∉ verbs by decide)]
    exact (readcmd_param_rgb_on_off env st mode hcmd hmode).1
  · rw [readcmd_word_of_not_verb env st (show "off".toList ∉ verbs by decide)]
    exact (readcmd_param_rgb_on_off env st mode hcmd hmode).2

/-- C6 at concrete input: after `rgb` on the example keyboard, the word
`00FF7f`. -/
theorem C6_rgb_bare_words_witness :
    readcmd_word sampleEnv (sampleState cmd.RGB (some cmdhandler.cmd_ledrgb)) "00FF7f".toList =
      some ((sampleState cmd.RGB (some cmdhandler.cmd_ledrgb)).emit
        ((List.range 144).map
          (fun i => Event.call (some cmdhandler.cmd_ledrgb) sampleMode i "00FF7f".toList))) :=
  (C6_rgb_bare_words sampleEnv (sampleState cmd.RGB (some cmdhandler.cmd_ledrgb)) sampleMode
    "00FF7f".toList rfl (by decide) (by decide) (by decide)).1

/-- C3 as stated fails: the selector `#0000000005` is a `#<decimal>` for
index 5, which is below `N_KEYS`, but after `bind` the word `#0000000005:x`
calls the handler for key 0 (the first ten characters are scanned as
`#000000000`) and not for key 5. -/
theorem C3_counterexample :
    (Selector.dec "0000000005".toList).wf ∧
      (Selector.dec "0000000005".toList).resolve sampleEnv = [5] ∧
      readcmd_word sampleEnv (sampleState cmd.BIND (some cmdhandler.cmd_bind))
          "#0000000005:x".toList =
        some ((sampleState cmd.BIND (some cmdhandler.cmd_bind)).emit
          [Event.call (some cmdhandler.cmd_bind) sampleMode 0 "x".toList]) := by
  decide

/-- C3 (amended): for every word `s1,...,sk:RHS` after `bind`, `unbind`,
`rebind` or `rgb` on a line with a live mode, where every selector is
well-formed (`all`, `#<decimal>`, `#x<hex>` or a key name) and at most ten
characters long, with a sane key map, and where after `rgb` the word does
not scan as three hexadecimal bytes, under neither reading of a `0x` that
the field width cuts off from its digits (a matching failure in ISO C, the
number 0 in glibc; the hypothesis is stated for the second reading, which
scans every word that the first one scans): the active handler is called
with the selected mode and the string `RHS` once per resolved key, in
selector order and nothing else is done.  The four verbs install the
handlers `cmd_bind`, `cmd_unbind`, `cmd_rebind`, `cmd_ledrgb`.  In particular
the line `mode 1 rgb all:ff0000 switch`, read from a device with a current
mode, calls `cmd_ledrgb` for every key of mode 0 with `ff0000`. -/
theorem C3_selectors_resolved_in_order (env : Env) (hs : env.sane) (st : State)
    (mode : ModeRef) (sels : List Selector) (rhs : Str) (d : Daemon) (kb : Nat) (m : ModeRef)
    (hmode : st.mode = some mode)
    (hcmd : st.command = cmd.BIND ∨ st.command = cmd.UNBIND ∨ st.command = cmd.REBIND ∨
      st.command = cmd.RGB)
    (hne : sels ≠ [])
    (hwf : ∀ s ∈ sels, s.wf ∧ s.text.length ≤ 10)
    (hrgb : st.command = cmd.RGB → sscanf_rgb3_lax (lhsText sels ++ ':' :: rhs) = false)
    (hlive : (readcmd_init d kb).mode = some m) :
    readcmd_word env st (lhsText sels ++ ':' :: rhs) =
        some (st.emit (selectorCalls env st.handler mode rhs sels)) ∧
      ((readcmd_word env st "bind".toList).map (fun s => (s.command, s.handler)) =
          some (cmd.BIND, some cmdhandler.cmd_bind) ∧
        (readcmd_word env st "unbind".toList).map (fun s => (s.command, s.handler)) =
          some (cmd.UNBIND, some cmdhandler.cmd_unbind) ∧
        (readcmd_word env st "rebind".toList).map (fun s => (s.command, s.handler)) =
          some (cmd.REBIND, some cmdhandler.cmd_rebind) ∧
        (readcmd_word env st "rgb".toList).map (fun s => (s.command, s.handler)) =
          some (cmd.RGB, some cmdhandler.cmd_ledrgb)) ∧
      ∃ st1, readcmd env d kb "mode 1 rgb all:ff0000 switch".toList = some st1 ∧
        st1.trace =
          [Event.getusbmode 0 (some (SetRef.dev kb)),
            Event.updatemod_mode { owner := SetRef.dev kb, index := 0 }] ++
          (List.range env.N_KEYS).map
            (fun i => Event.call (some cmdhandler.cmd_ledrgb)
              { owner := SetRef.dev kb, index := 0 } i "ff0000".toList) ++
          [Event.updateleds (some kb)] := by
  refine ⟨readcmd_word_selectors env hs st mode sels rhs hmode hcmd hne hwf
      (fun hc => sscanf_rgb3_of_lax_false _ (hrgb hc)),
    ⟨?_, ?_, ?_, ?_⟩, ?_⟩
  · rw [readcmd_word_bind]; rfl
  · rw [readcmd_word_unbind]; rfl
  · rw [readcmd_word_rebind]; rfl
  · rw [readcmd_word_rgb]; rfl
  · obtain ⟨hprof, p, hp, -⟩ := readcmd_init_live hlive
    have hw : words "mode 1 rgb all:ff0000 switch".toList =
        ["mode".toList, "1".toList, "rgb".toList, "all:ff0000".toList, "switch".toList] := by
      decide
    rw [readcmd_eq_words, hw, readcmd_words_cons, readcmd_word_mode]
    simp only [Option.some_bind]
    rw [readcmd_words_cons, readcmd_word_of_not_verb env _ (show "1".toList ∉ verbs by decide),
      readcmd_param_mode env _ m "1".toList (by rfl) (by exact hlive),
      readcmd_mode_accept _ "1".toList 1 (SetRef.dev kb) p (by decide) (by decide) (by decide)
        (by exact hprof) (by exact hp)]
    simp only [Option.some_bind]
    rw [readcmd_words_cons, readcmd_word_rgb]
    simp only [Option.some_bind]
    rw [readcmd_words_cons,
      show "all:ff0000".toList = lhsText [Selector.all] ++ ':' :: "ff0000".toList by decide,
      readcmd_word_selectors env hs _ { owner := SetRef.dev kb, index := 0 } [Selector.all]
        "ff0000".toList (by rfl) (Or.inr (Or.inr (Or.inr (by rfl)))) (by decide)
        (by decide) (fun _ => by decide)]
    simp only [Option.some_bind]
    rw [readcmd_words_cons, readcmd_word_switch]
    simp only [Option.some_bind, readcmd_words_nil, Option.map_some']
    unfold readcmd_finish
    rw [if_pos ⟨rfl, rfl⟩]
    refine ⟨_, rfl, ?_⟩
    simp [State.emit, selectorCalls, Selector.resolve, readcmd_init]

/-- C3 (amended) at concrete input: the word `esc,#5,#x1f,all:a` on the
example keyboard, after `bind` and after `rgb`; the word is no broadcast
colour under either reading of the scan. -/
theorem C3_selectors_resolved_in_order_witness :
    readcmd_word sampleEnv (sampleState cmd.BIND (some cmdhandler.cmd_bind))
        "esc,#5,#x1f,all:a".toList =
      some ((sampleState cmd.BIND (some cmdhandler.cmd_bind)).emit
        (selectorCalls sampleEnv (some cmdhandler.cmd_bind) sampleMode "a".toList
          [Selector.name "esc".toList, Selector.dec "5".toList, Selector.hex "1f".toList,
            Selector.all])) ∧
    sscanf_rgb3 "esc,#5,#x1f,all:a".toList = false ∧
    sscanf_rgb3_lax "esc,#5,#x1f,all:a".toList = false ∧
    readcmd_word sampleEnv (sampleState cmd.RGB (some cmdhandler.cmd_ledrgb))
        "esc,#5,#x1f,all:a".toList =
      some ((sampleState cmd.RGB (some cmdhandler.cmd_ledrgb)).emit
        (selectorCalls sampleEnv (some cmdhandler.cmd_ledrgb) sampleMode "a".toList
          [Selector.name "esc".toList, Selector.dec "5".toList, Selector.hex "1f".toList,
            Selector.all])) :=
  ⟨(C3_selectors_resolved_in_order sampleEnv sampleEnv_sane
      (sampleState cmd.BIND (some cmdhandler.cmd_bind)) sampleMode
      [Selector.name "esc".toList, Selector.dec "5".toList, Selector.hex "1f".toList,
        Selector.all]
      "a".toList sampleDaemon 1 sampleMode (by decide) (Or.inl rfl) (by decide) (by decide)
      (fun h => absurd h (by decide)) (by decide)).1,
    by decide, by decide,
    (C3_selectors_resolved_in_order sampleEnv sampleEnv_sane
      (sampleState cmd.RGB (some cmdhandler.cmd_ledrgb)) sampleMode
      [Selector.name "esc".toList, Selector.dec "5".toList, Selector.hex "1f".toList,
        Selector.all]
      "a".toList sampleDaemon 1 sampleMode (by decide) (Or.inr (Or.inr (Or.inr rfl)))
      (by decide) (by decide) (fun _ => by decide) (by decide)).1⟩

/-- C1 as stated fails: on the example keyboard the line
`rgb #0:00ff00,#1:0000ff` makes one handler call, for key 0 with the string
`00ff00,#1:0000ff`; the handler is called neither for key 0 with `00ff00`
nor for key 1 with `0000ff`. -/
theorem C1_counterexample :
    (readcmd sampleEnv sampleDaemon 1 "rgb #0:00ff00,#1:0000ff".toList).map
        (fun st => st.trace) =
      some [Event.updatemod_mode sampleMode,
        Event.call (some cmdhandler.cmd_ledrgb) sampleMode 0 "00ff00,#1:0000ff".toList,
        Event.updateleds (some 1)] ∧
      ∀ st, readcmd sampleEnv sampleDaemon 1 "rgb #0:00ff00,#1:0000ff".toList = some st →
        Event.call (some cmdhandler.cmd_ledrgb) sampleMode 0 "00ff00".toList ∉ st.trace ∧
          Event.call (some cmdhandler.cmd_ledrgb) sampleMode 1 "0000ff".toList ∉ st.trace := by
  have h : (readcmd sampleEnv sampleDaemon 1 "rgb #0:00ff00,#1:0000ff".toList).map
        (fun st => st.trace) =
      some [Event.updatemod_mode sampleMode,
        Event.call (some cmdhandler.cmd_ledrgb) sampleMode 0 "00ff00,#1:0000ff".toList,
        Event.updateleds (some 1)] := by decide
  refine ⟨h, ?_⟩
  intro st hst
  rw [hst] at h
  simp only [Option.map_some', Option.some.injEq] at h
  rw [h]
  decide

/-- C1 (amended): read from a device with a live mode `m` (and at least two
keys), the line `rgb #0:00ff00,#1:0000ff` bumps the mode's modification
counter, calls the RGB handler exactly once, for key 0 with the string
after the first colon, `00ff00,#1:0000ff`, and requests one LED refresh at
the end of the line; the tables are unchanged.  Written as two parameters,
`rgb #0:00ff00 #1:0000ff`, the line calls the handler for key 0 with
`00ff00` and for key 1 with `0000ff`, and requests one LED refresh. -/
theorem C1_rgb_two_keys (env : Env) (d : Daemon) (kb : Nat) (m : ModeRef)
    (hkeys : 2 ≤ env.N_KEYS) (hlive : (readcmd_init d kb).mode = some m) :
    (∃ st, readcmd env d kb "rgb #0:00ff00,#1:0000ff".toList = some st ∧
        st.trace =
          [Event.updatemod_mode m,
            Event.call (some cmdhandler.cmd_ledrgb) m 0 "00ff00,#1:0000ff".toList,
            Event.updateleds (some kb)] ∧
        st.daemon = d) ∧
      ∃ st, readcmd env d kb "rgb #0:00ff00 #1:0000ff".toList = some st ∧
        st.trace =
          [Event.updatemod_mode m,
            Event.call (some cmdhandler.cmd_ledrgb) m 0 "00ff00".toList,
            Event.call (some cmdhandler.cmd_ledrgb) m 1 "0000ff".toList,
            Event.updateleds (some kb)] ∧
        st.daemon = d := by
  have hw1 : words "rgb #0:00ff00,#1:0000ff".toList =
      ["rgb".toList, '#' :: "0".toList ++ ':' :: "00ff00,#1:0000ff".toList] := by decide
  have hw2 : words "rgb #0:00ff00 #1:0000ff".toList =
      ["rgb".toList, '#' :: "0".toList ++ ':' :: "00ff00".toList,
        '#' :: "1".toList ++ ':' :: "0000ff".toList] := by decide
  have hv0 : digitsValue 10 "0".toList = 0 := by decide
  have hv1 : digitsValue 10 "1".toList = 1 := by decide
  have ht : (readcmd_init d kb).trace = [] := rfl
  have hkb : (readcmd_init d kb).kb = some kb := rfl
  have hdm : (readcmd_init d kb).daemon = d := rfl
  constructor
  · rw [readcmd_eq_words, hw1, readcmd_words_cons, readcmd_word_rgb]
    simp only [Option.some_bind]
    rw [readcmd_words_cons,
      readcmd_word_dec_key env _ m "0".toList "00ff00,#1:0000ff".toList (by exact hlive)
        (Or.inr (Or.inr (Or.inr (by rfl)))) (by decide) (by decide) (by decide)
        (by rw [hv0]; omega) (fun _ => by decide)]
    simp only [Option.some_bind, readcmd_words_nil, Option.map_some']
    unfold readcmd_finish
    rw [if_pos ⟨by exact (congrArg Option.isSome hlive), rfl⟩]
    refine ⟨_, rfl, ?_, hdm⟩
    simp only [State.emit, hlive, ht, hkb, hv0, List.nil_append, List.cons_append]
  · rw [readcmd_eq_words, hw2, readcmd_words_cons, readcmd_word_rgb]
    simp only [Option.some_bind]
    rw [readcmd_words_cons,
      readcmd_word_dec_key env _ m "0".toList "00ff00".toList (by exact hlive)
        (Or.inr (Or.inr (Or.inr (by rfl)))) (by decide) (by decide) (by decide)
        (by rw [hv0]; omega) (fun _ => by decide)]
    simp only [Option.some_bind]
    rw [readcmd_words_cons,
      readcmd_word_dec_key env _ m "1".toList "0000ff".toList (by exact hlive)
        (Or.inr (Or.inr (Or.inr (by rfl)))) (by decide) (by decide) (by decide)
        (by rw [hv1]; omega) (fun _ => by decide)]
    simp only [Option.some_bind, readcmd_words_nil, Option.map_some']
    unfold readcmd_finish
    rw [if_pos ⟨by exact (congrArg Option.isSome hlive), rfl⟩]
    refine ⟨_, rfl, ?_, hdm⟩
    simp only [State.emit, hlive, ht, hkb, hv0, hv1, List.nil_append, List.cons_append]

/-- C1 (amended) on the example keyboard. -/
theorem C1_rgb_two_keys_witness :
    2 ≤ sampleEnv.N_KEYS ∧ (readcmd_init sampleDaemon 1).mode = some sampleMode ∧
      ∃ st, readcmd sampleEnv sampleDaemon 1 "rgb #0:00ff00,#1:0000ff".toList = some st ∧
        st.trace =
          [Event.updatemod_mode sampleMode,
            Event.call (some cmdhandler.cmd_ledrgb) sampleMode 0 "00ff00,#1:0000ff".toList,
            Event.updateleds (some 1)] ∧
        st.daemon = sampleDaemon :=
  ⟨by decide, by decide,
    (C1_rgb_two_keys sampleEnv sampleDaemon 1 sampleMode (by decide) (by decide)).1⟩

/-- C2: the code at the failing input.  On the example keyboard `mode 16` is
ignored: after `mode 16 name x` no mode was fetched, the selected mode is
still mode 0 and the name went to mode 0.  `mode 15` is the largest number
accepted: it fetches and selects mode index 14. -/
theorem C2_mode_16_is_ignored :
    (readcmd sampleEnv sampleDaemon 1 "mode 16 name x".toList).map
        (fun st => (st.trace, st.mode, st.daemon)) =
      some ([Event.updatemod_mode sampleMode, Event.setmodename sampleMode "x".toList],
        some sampleMode, sampleDaemon) ∧
    (readcmd sampleEnv sampleDaemon 1 "mode 15 name x".toList).map
        (fun st => (st.trace, st.mode)) =
      some ([Event.getusbmode 14 (some (SetRef.dev 1)),
          Event.updatemod_mode { owner := SetRef.dev 1, index := 14 },
          Event.setmodename { owner := SetRef.dev 1, index := 14 } "x".toList],
        some { owner := SetRef.dev 1, index := 14 }) := by
  decide

/-- C4: the code at the failing inputs.  On the example keyboard, where no
key is named `unknownkeyall`, the line `bind unknownkeyall:a` calls
`cmd_bind` for every key (the selector is scanned as `unknownkey` and then
`all`); the line `bind ,esc:a` makes no call although `esc` names key 0
(the scan stops at the empty selector); and `bind #5abc:a` calls `cmd_bind`
for key 5. -/
theorem C4_unknown_selector_not_skipped :
    keymapFind sampleEnv "unknownkeyall".toList = none ∧
    (readcmd sampleEnv sampleDaemon 1 "bind unknownkeyall:a".toList).map (fun st => st.trace) =
      some ((List.range 144).map
        (fun i => Event.call (some cmdhandler.cmd_bind) sampleMode i "a".toList)) ∧
    keymapFind sampleEnv "esc".toList = some 0 ∧
    (readcmd sampleEnv sampleDaemon 1 "bind ,esc:a".toList).map (fun st => st.trace) =
      some [] ∧
    (readcmd sampleEnv sampleDaemon 1 "bind #5abc:a".toList).map (fun st => st.trace) =
      some [Event.call (some cmdhandler.cmd_bind) sampleMode 5 "a".toList] := by
  decide

/-- C9: in tables whose plugged-in devices all have a current mode (the
invariant that the specification states for the profiles and that the word
loop keeps), for every command line without the word `device`, if no mode
is selected when the line starts, then
`readcmd` ignores every verb and argument: it returns, the tables are
unchanged (no profile, mode, name, modification counter, binding, macro or
lighting state) and nothing is called (no hardware load or save, no LED
refresh).  Such a line starts without a profile as well, so the branches of
`hwload`, `hwsave`, `eraseprofile` and `profilename`, which test `profile`
and not `mode`, are not taken either. -/
theorem C9_no_mode_line_ignored (env : Env) (d : Daemon) (kb : Nat) (line : Str)
    (hcur : ∀ i p, live d i = true → getProfile d (SetRef.dev i) = some p →
      p.currentmode ≠ none)
    (hdev : "device".toList ∉ words line)
    (hmode : (readcmd_init d kb).mode = none) :
    ∃ st, readcmd env d kb line = some st ∧ st.daemon = d ∧ st.trace = [] := by
  obtain ⟨st1, h1, hm1, hd1, ht1⟩ := nomode_words env (words line) (readcmd_init d kb) hmode
    (by decide : cmd.NONE ≠ cmd.DEVICE) hdev (Or.inl (readcmd_init_profile_none hcur hmode)) hmode
  refine ⟨st1, ?_, hd1, ht1⟩
  rw [readcmd_eq_words, h1]
  simp only [Option.map_some']
  unfold readcmd_finish
  rw [if_neg (by rw [hm1]; simp)]

/-- C9 at concrete input: in the example tables, whose one plugged-in device
(slot 1) has a current mode, a line read from the root device (slot 0), which
has no USB handle and so no mode; the line has `hwload` and `switch` in it. -/
theorem C9_no_mode_line_ignored_witness :
    (∀ i p, live sampleDaemon i = true → getProfile sampleDaemon (SetRef.dev i) = some p →
        p.currentmode ≠ none) ∧
      live sampleDaemon 1 = true ∧
      "device".toList ∉ words "mode 2 rgb all:ff0000 hwload switch".toList ∧
      (readcmd_init sampleDaemon 0).mode = none ∧
      ∃ st, readcmd sampleEnv sampleDaemon 0 "mode 2 rgb all:ff0000 hwload switch".toList =
          some st ∧ st.daemon = sampleDaemon ∧ st.trace = [] :=
  ⟨sampleDaemon_currentmode, by decide, by decide, by decide,
    C9_no_mode_line_ignored sampleEnv sampleDaemon 0
      "mode 2 rgb all:ff0000 hwload switch".toList sampleDaemon_currentmode (by decide)
      (by decide)⟩

/-- C8: after `device`, a word `s` of 32 characters retargets the line.  If
a plugged-in device has serial `s` (`findusb`), `kb`, `set`, `profile` become
that device and its profile and `mode` its current mode; otherwise the
storage entry for `s` is found or created (`addstore`), `kb` becomes null and
`set`, `profile`, `mode` become that entry, its profile and its current
mode, the device table staying as it is.  Every later word is processed in
that state.  A word `w` whose length is not 32 (verb or not) leaves `kb`,
`set`, `profile` as they are and creates no storage entry.  So for a serial
that is neither plugged in nor stored, the line
`device <s> rgb all:ff0000` appends a storage entry for `s` and calls
`cmd_ledrgb` with `ff0000` for every key of that entry's mode 0; no call is
made for a mode of the device whose FIFO produced the line, and the device
table is unchanged. -/
theorem C8_device_retargets (env : Env) (st : State) (s w : Str) (d : Daemon) (kb : Nat)
    (hcmd : st.command = cmd.DEVICE) (hs : s.length = 32) (hw : w.length ≠ 32)
    (hsp : ∀ c ∈ s, isspace c = false)
    (hunplugged : findusb d s = none) (hunknown : findstore d s = none) :
    (∀ i, findusb st.daemon s = some i →
        readcmd_word env st s =
          some { st with
            kb := some i, set := some (SetRef.dev i), profile := some (SetRef.dev i),
            mode := currentmodeOf st.daemon (some (SetRef.dev i)) } ∧
        ∃ k, st.daemon.keyboard.get? i = some k ∧ k.handle = true ∧ k.setting.serial = s) ∧
      (findusb st.daemon s = none →
        ∃ j, readcmd_word env st s =
            some { st with
              daemon := (addstore st.daemon s).1, kb := none,
              set := some (SetRef.stored j), profile := some (SetRef.stored j),
              mode := currentmodeOf (addstore st.daemon s).1 (some (SetRef.stored j)),
              trace := st.trace ++ [Event.addstore s] } ∧
          ((addstore st.daemon s).1.store.get? j).map (fun e => e.serial) = some s ∧
          (addstore st.daemon s).1.keyboard = st.daemon.keyboard ∧
          (findstore st.daemon s = some j → (addstore st.daemon s).1 = st.daemon) ∧
          (findstore st.daemon s = none →
            j = st.daemon.store.length ∧
            (addstore st.daemon s).1.store =
              st.daemon.store ++
                [{ profile := newprofile st.daemon.store.length, serial := s }])) ∧
      (∃ st1, readcmd_word env st w = some st1 ∧ st1.kb = st.kb ∧ st1.set = st.set ∧
        st1.profile = st.profile ∧ st1.daemon.store.length = st.daemon.store.length) ∧
      ∃ st2, readcmd env d kb ("device".toList ++ ' ' :: (s ++ ' ' :: "rgb all:ff0000".toList)) =
          some st2 ∧
        st2.daemon.keyboard = d.keyboard ∧
        st2.daemon.store = d.store ++ [{ profile := newprofile d.store.length, serial := s }] ∧
        st2.trace =
          [Event.addstore s,
            Event.updatemod_mode { owner := SetRef.stored d.store.length, index := 0 }] ++
          (List.range env.N_KEYS).map
            (fun i => Event.call (some cmdhandler.cmd_ledrgb)
              { owner := SetRef.stored d.store.length, index := 0 } i "ff0000".toList) ++
          [Event.updateleds none] := by
  have hnv : s ∉ verbs := not_verb_of_length hs
  have hsne : s ≠ [] := by
    intro h; rw [h] at hs; simp at hs
  refine ⟨?_, ?_, device_other_word env st w hcmd hw, ?_⟩
  · intro i hi
    refine ⟨?_, findusb_some hi⟩
    rw [readcmd_word_of_not_verb env st hnv, readcmd_param_device env st s hcmd]
    unfold readcmd_device
    rw [if_pos (by rw [hs]; rfl), hi]
  · intro hnone
    obtain ⟨j, h1, h2, h3, h4, h5⟩ := addstore_spec st.daemon s
    refine ⟨j, ?_, h2, h3, h4, h5⟩
    rw [readcmd_word_of_not_verb env st hnv, readcmd_param_device env st s hcmd]
    unfold readcmd_device
    rw [if_pos (by rw [hs]; rfl), hnone]
    dsimp only
    rw [h1]
  · have hw1 : words ("device".toList ++ ' ' :: (s ++ ' ' :: "rgb all:ff0000".toList)) =
        ["device".toList, s, "rgb".toList, "all".toList ++ ':' :: "ff0000".toList] := by
      rw [words_append _ (by decide) (by decide), words_append _ hsne hsp]
      have : words "rgb all:ff0000".toList =
          ["rgb".toList, "all".toList ++ ':' :: "ff0000".toList] := by decide
      rw [this]
    rw [readcmd_eq_words, hw1, readcmd_words_cons, readcmd_word_device]
    simp only [Option.some_bind]
    rw [readcmd_words_cons, readcmd_word_of_not_verb env _ hnv,
      readcmd_param_device env _ s (by rfl),
      readcmd_device_unknown _ s hs (by exact hunplugged) (by exact hunknown)]
    simp only [Option.some_bind]
    rw [readcmd_words_cons, readcmd_word_rgb]
    simp only [Option.some_bind]
    rw [readcmd_words_cons,
      readcmd_word_all env _ { owner := SetRef.stored d.store.length, index := 0 }
        "ff0000".toList (by rfl) (Or.inr (Or.inr (Or.inr (by rfl))))
        (fun _ => sscanf_rgb3_all _)]
    simp only [Option.some_bind, readcmd_words_nil, Option.map_some']
    unfold readcmd_finish
    rw [if_pos ⟨rfl, rfl⟩]
    refine ⟨_, rfl, rfl, rfl, ?_⟩
    simp [State.emit, readcmd_init]

/-- C8 at concrete input: after `device` on the example tables, the serial of
the keyboard in slot 1, the word `short`, and an unknown serial. -/
theorem C8_device_retargets_witness :
    findusb sampleDaemon "ABCDEF0123456789ABCDEF0123456789".toList = some 1 ∧
      readcmd_word sampleEnv (sampleState cmd.DEVICE none)
          "ABCDEF0123456789ABCDEF0123456789".toList =
        some { sampleState cmd.DEVICE none with
          kb := some 1, set := some (SetRef.dev 1), profile := some (SetRef.dev 1),
          mode := some sampleMode } :=
  ⟨by decide,
    ((C8_device_retargets sampleEnv (sampleState cmd.DEVICE none)
      "ABCDEF0123456789ABCDEF0123456789".toList "short".toList
      { sampleDaemon with keyboard := [sampleRoot] } 0 rfl (by decide) (by decide) (by decide)
      (by decide) (by decide)).1 1 (by decide)).1⟩

/-- C20: `readcmd` terminates on every command line and processes it to its
end.  It returns a final state for every line; that state is the result of
applying the loop body to all the words of the line, one after the other,
and the words contain every character of the line that is not white space.
Each round of the word loop consumes at least one character, each round of
the selector loop advances by the length of the key name scanned, which is
at least one, every single word is processed to the end, and the selector
loop finishes within the length of the left-hand side. -/
theorem C20_readcmd_terminates (env : Env) (d : Daemon) (kb : Nat) (line : Str) :
    (∃ st, readcmd env d kb line = some st) ∧
      readcmd env d kb line =
        (readcmd_words env (readcmd_init d kb) (words line)).map readcmd_finish ∧
      (words line).flatten = line.filter (fun c => !isspace c) ∧
      (∀ (rest word : Str) (wordlen : Nat), sscanf_word rest = some (word, wordlen) →
        1 ≤ wordlen ∧ wordlen ≤ rest.length) ∧
      (∀ (s keyname : Str) (field : Nat), sscanf_keyname s = some (keyname, field) →
        1 ≤ field ∧ field = keyname.length) ∧
      (∀ (st : State) (word : Str), ∃ st1, readcmd_word env st word = some st1) ∧
      (∀ (handler : Option cmdhandler) (mode : ModeRef) (word : Str) (left : Nat) (right : Str),
        ∃ evs, keyloop env handler mode word left right (left + 1) 0 = some evs) := by
  refine ⟨?_, readcmd_eq_words env d kb line, wordsOf_flatten _ line (Nat.lt_succ_self _),
    fun _ _ _ h => sscanf_word_consumes h, fun _ _ _ h => sscanf_keyname_field h, ?_, ?_⟩
  · obtain ⟨st, _, h, _⟩ := readcmd_words_frame env (words line) (readcmd_init d kb)
    exact ⟨readcmd_finish st, by rw [readcmd_eq_words, h]; rfl⟩
  · intro st word
    obtain ⟨st1, _, h, _⟩ := readcmd_word_frame env st word
    exact ⟨st1, h⟩
  · intro handler mode word left right
    exact keyloop_total env handler mode word left right (left + 1) 0 (by omega)

/-- C11: on a profile that exists, whatever its modes and whichever mode is
selected, the words `eraseprofile name W` (with `W` a name, not a verb) leave
the profile with exactly one mode, index 0, which is the profile's
`currentmode` and the selected mode; the calls made are `eraseprofile`,
`getusbmode(0, profile)`, one `updatemod` on mode 0 and `setmodename` on
mode 0 with `W`, in this order. -/
theorem C11_eraseprofile_name (env : Env) (st : State) (r : SetRef) (p0 : usbprofile) (W : Str)
    (hprof : st.profile = some r) (hp : getProfile st.daemon r = some p0) (hW : W ∉ verbs) :
    ∃ st1, readcmd_words env st ["eraseprofile".toList, "name".toList, W] = some st1 ∧
      getProfile st1.daemon r =
        some { modecount := 1, currentmode := some { owner := r, index := 0 } } ∧
      st1.mode = some { owner := r, index := 0 } ∧ st1.profile = some r ∧
      st1.trace = st.trace ++
        [Event.eraseprofile r, Event.getusbmode 0 (some r),
          Event.updatemod_mode { owner := r, index := 0 },
          Event.setmodename { owner := r, index := 0 } W] := by
  obtain ⟨st1, h1, hd, hm, hpr, _, _, _, _, ht⟩ := readcmd_word_eraseprofile_live env st hprof hp
  rw [readcmd_words_cons, h1, Option.some_bind, readcmd_words_cons, readcmd_word_name,
    Option.some_bind, readcmd_words_cons, readcmd_word_of_not_verb env _ hW,
    readcmd_param_name env _ { owner := r, index := 0 } W (by rfl) (by exact hm),
    Option.some_bind, readcmd_words_nil]
  refine ⟨_, rfl, hd, hm, hpr, ?_⟩
  show (st1.trace ++ _) ++ _ = _
  rw [ht, hm]
  simp

/-- C11 at work: the line `eraseprofile name Default` on the example keyboard,
which has two modes. -/
theorem C11_eraseprofile_name_witness :
    (readcmd_init sampleDaemon 1).profile = some (SetRef.dev 1) ∧
      getProfile (readcmd_init sampleDaemon 1).daemon (SetRef.dev 1) =
        some { modecount := 2, currentmode := some sampleMode } ∧
      words "eraseprofile name Default".toList =
        ["eraseprofile".toList, "name".toList, "Default".toList] ∧
      ∃ st1, readcmd_words sampleEnv (readcmd_init sampleDaemon 1)
          ["eraseprofile".toList, "name".toList, "Default".toList] = some st1 ∧
        getProfile st1.daemon (SetRef.dev 1) =
          some { modecount := 1, currentmode := some { owner := SetRef.dev 1, index := 0 } } ∧
        st1.mode = some { owner := SetRef.dev 1, index := 0 } ∧
        st1.profile = some (SetRef.dev 1) ∧
        st1.trace = (readcmd_init sampleDaemon 1).trace ++
          [Event.eraseprofile (SetRef.dev 1), Event.getusbmode 0 (some (SetRef.dev 1)),
            Event.updatemod_mode { owner := SetRef.dev 1, index := 0 },
            Event.setmodename { owner := SetRef.dev 1, index := 0 } "Default".toList] :=
  ⟨rfl, rfl, by decide,
    C11_eraseprofile_name sampleEnv (readcmd_init sampleDaemon 1) (SetRef.dev 1) _ "Default".toList rfl rfl
      (by decide)⟩

/-- C12: `switch` commits the selected mode as the current mode of the
profile: after the words `mode n switch`, with `n` from 1 to 15 and a mode
selected before, the current mode of the profile is mode `n - 1`.
Conversely a line with none of the words `switch`, `eraseprofile`, `hwload`,
`device` ends with every profile's current mode as it was before the line. -/
theorem C12_switch_commits (env : Env) :
    (∀ (st : State) (r : SetRef) (p : usbprofile) (m0 : ModeRef) (w : Str) (n : Int),
      st.profile = some r → getProfile st.daemon r = some p → st.mode = some m0 →
      sscanf_u w = some n → 0 < n → n < 16 →
      ∃ st1, readcmd_words env st ["mode".toList, w, "switch".toList] = some st1 ∧
        currentIndex st1.daemon r = some (some { owner := r, index := (n - 1).toNat }) ∧
        st1.mode = some { owner := r, index := (n - 1).toNat }) ∧
    (∀ (d : Daemon) (kb : Nat) (line : Str), (∀ w ∈ words line, w ∉ switchVerbs) →
      ∃ st, readcmd env d kb line = some st ∧
        ∀ r, currentIndex st.daemon r = currentIndex d r) := by
  constructor
  · intro st r p m0 w n hprof hp hm hscan h0 h1
    rw [readcmd_words_cons, readcmd_word_mode, Option.some_bind, readcmd_words_cons,
      readcmd_word_of_not_verb env _ (not_verb_of_number hscan),
      readcmd_param_mode env _ m0 w (by rfl) (by exact hm), Option.some_bind,
      readcmd_mode_accept _ w n r p hscan h0 h1 (by exact hprof) (by exact hp),
      readcmd_words_cons, readcmd_word_switch, Option.some_bind, readcmd_words_nil]
    refine ⟨_, rfl, ?_, rfl⟩
    dsimp only
    rw [hprof]
    dsimp only
    rw [getusbmode_eq (n - 1) hp (by omega) (by omega)]
    dsimp only
    unfold currentIndex
    rw [getProfile_setCurrentmode _ (getProfile_setProfile _ hp)]
    rfl
  · intro d kb line hws
    obtain ⟨st, h, hr⟩ := currentIndex_words env (words line) (readcmd_init d kb) hws
      (by unfold readcmd_init; simp)
    refine ⟨readcmd_finish st, ?_, ?_⟩
    · rw [readcmd_eq_words, h]
      rfl
    · intro r
      rw [readcmd_finish_daemon, hr r]
      rfl

/-- C12 at work on the example keyboard, whose current mode is mode 0:
`mode 2 switch` makes mode 1 current, `mode 2 rgb ff0000` leaves mode 0
current. -/
theorem C12_switch_commits_witness :
    (∃ st1, readcmd_words sampleEnv (readcmd_init sampleDaemon 1)
        ["mode".toList, "2".toList, "switch".toList] = some st1 ∧
      currentIndex st1.daemon (SetRef.dev 1) =
        some (some { owner := SetRef.dev 1, index := 1 }) ∧
      st1.mode = some { owner := SetRef.dev 1, index := 1 }) ∧
    (∃ st, readcmd sampleEnv sampleDaemon 1 "mode 2 rgb ff0000".toList = some st ∧
      ∀ r, currentIndex st.daemon r = currentIndex sampleDaemon r) :=
  ⟨(C12_switch_commits sampleEnv).1 (readcmd_init sampleDaemon 1) (SetRef.dev 1) _
      sampleMode "2".toList 2 rfl rfl rfl (by decide) (by decide) (by decide),
    (C12_switch_commits sampleEnv).2 sampleDaemon 1 "mode 2 rgb ff0000".toList (by decide)⟩

/-- C13: when the `currentmode` of every profile in use, that is of every
plugged-in device and of every storage entry, is one of that profile's own
modes `modes[0..modecount-1]` before a command line, then after every word of
a line without `hwload` the `currentmode` of every profile in use still is
one of its own modes, the selected mode of the line is absent or a mode of
the line's profile, and the profiles that are not in use (the zeroed root
slot and the slots without a USB handle) are what they were, so that those
which had one of their own modes as `currentmode` still have it; the same
holds when `readcmd` returns.  Lines with `hwload` are left out because the
effect of `hwloadprofile` on the tables is outside this model. -/
theorem C13_currentmode_stays_seated (env : Env) (d : Daemon) (kb : Nat) (line : Str)
    (hd : d.seated) (_hl : "hwload".toList ∉ words line) :
    (∀ pre, pre <+: words line →
      ∃ st, readcmd_words env (readcmd_init d kb) pre = some st ∧ st.daemon.seated ∧
        st.modeOk ∧ ∀ r, d.inUse r = false → getProfile st.daemon r = getProfile d r) ∧
    ∃ st, readcmd env d kb line = some st ∧ st.daemon.seated ∧ st.modeOk ∧
      ∀ r, d.inUse r = false → getProfile st.daemon r = getProfile d r := by
  constructor
  · intro pre _
    obtain ⟨st, h, hi, -, hg⟩ :=
      unused_words env pre (readcmd_init d kb) (inv_readcmd_init hd kb)
    exact ⟨st, h, hi.1, modeOk_of_inv hi, hg⟩
  · obtain ⟨st, h, hi, -, hg⟩ :=
      unused_words env (words line) (readcmd_init d kb) (inv_readcmd_init hd kb)
    have hf : (readcmd_finish st).inv := by
      refine inv_of_eq hi (readcmd_finish_daemon st) ?_ ?_
      · unfold readcmd_finish
        split <;> rfl
      · unfold readcmd_finish
        split <;> rfl
    refine ⟨readcmd_finish st, by rw [readcmd_eq_words, h]; rfl, hf.1, modeOk_of_inv hf, ?_⟩
    intro r hr
    rw [readcmd_finish_daemon]
    exact hg r hr

/-- C13 at work on the example tables, whose slot 0 is the zeroed root and
whose slot 1 is a plugged-in keyboard with mode 0 of two modes as current
mode: a line for that keyboard that selects mode 3, commits it and then erases
the profile. -/
theorem C13_currentmode_stays_seated_witness :
    sampleDaemon.seated ∧ live sampleDaemon 1 = true ∧
      (readcmd_init sampleDaemon 1).profile = some (SetRef.dev 1) ∧
      "hwload".toList ∉ words "mode 3 switch eraseprofile".toList ∧
      (∀ pre, pre <+: words "mode 3 switch eraseprofile".toList →
        ∃ st, readcmd_words sampleEnv (readcmd_init sampleDaemon 1) pre = some st ∧
          st.daemon.seated ∧ st.modeOk ∧
          ∀ r, sampleDaemon.inUse r = false → getProfile st.daemon r = getProfile sampleDaemon r) ∧
      ∃ st, readcmd sampleEnv sampleDaemon 1 "mode 3 switch eraseprofile".toList = some st ∧
        st.daemon.seated ∧ st.modeOk ∧
        ∀ r, sampleDaemon.inUse r = false → getProfile st.daemon r = getProfile sampleDaemon r :=
  ⟨sampleDaemon_seated, by decide, by decide, by decide,
    C13_currentmode_stays_seated sampleEnv sampleDaemon 1 "mode 3 switch eraseprofile".toList
      sampleDaemon_seated (by decide)⟩

/-- C18, counterexample: `--fps=0` and `--fps=-5` are not rejected; `main`
prints the cap warning, continues with 60 and enters the frame loop, where
it sleeps 3333 microseconds per tick. -/
theorem C18_counterexample :
    sscanf_fps "--fps=0".toList = some 0 ∧
      main_params ["ckb-daemon".toList, "--fps=0".toList] = { fps := 60, warnings := [0] } ∧
      main_startup ["ckb-daemon".toList, "--fps=0".toList] 0 = Startup.loops 60 3333 ∧
      main_params ["ckb-daemon".toList, "--fps=-5".toList] =
        { fps := 60, warnings := [-5] } ∧
      main_startup ["ckb-daemon".toList, "--fps=-5".toList] 0 = Startup.loops 60 3333 := by
  decide

/-- C18, amended: with no flag the rate is 60; a flag that reads as `n` with
`1 <= n <= 60` sets the rate to `n` without a warning; a flag that reads as
`n > 60` or as `n <= 0` prints the cap warning with `n` and sets the rate to
60.  Whatever the arguments, the rate is between 1 and 60 after the parameter
loop and `main` enters the frame loop with it unless `libusb_init` fails: no
value of the flag makes `main` return. -/
theorem C18_fps_policy :
    (∀ prog : Str, main_params [prog] = { fps := 60, warnings := [] }) ∧
    (∀ (prog argument : Str) (n : Int), sscanf_fps argument = some n → 1 ≤ n → n ≤ 60 →
      main_params [prog, argument] = { fps := n, warnings := [] }) ∧
    (∀ (prog argument : Str) (n : Int), sscanf_fps argument = some n → (60 < n ∨ n ≤ 0) →
      main_params [prog, argument] = { fps := 60, warnings := [n] }) ∧
    (∀ argv : List Str, 1 ≤ (main_params argv).fps ∧ (main_params argv).fps ≤ 60) ∧
    (∀ argv : List Str, main_startup argv 0 =
      Startup.loops (main_params argv).fps (1000000 / (main_params argv).fps / 5)) := by
  refine ⟨fun _ => rfl, ?_, ?_, main_params_range, fun _ => rfl⟩
  · intro prog argument n hs h1 h60
    show main_argument { fps := 60, warnings := [] } argument = _
    unfold main_argument
    rw [hs]
    dsimp only
    rw [if_neg (by omega)]
  · intro prog argument n hs hn
    show main_argument { fps := 60, warnings := [] } argument = _
    unfold main_argument
    rw [hs]
    dsimp only
    rw [if_pos (by omega)]
    rfl

/-- C18 at work: `--fps=30` runs at 30, `--fps=144` and `--fps=0` run at 60
after a warning. -/
theorem C18_fps_policy_witness :
    main_params ["ckb-daemon".toList, "--fps=30".toList] = { fps := 30, warnings := [] } ∧
      main_params ["ckb-daemon".toList, "--fps=144".toList] =
        { fps := 60, warnings := [144] } ∧
      main_params ["ckb-daemon".toList, "--fps=0".toList] = { fps := 60, warnings := [0] } :=
  ⟨C18_fps_policy.2.1 "ckb-daemon".toList "--fps=30".toList 30 (by decide) (by decide)
      (by decide),
    C18_fps_policy.2.2.1 "ckb-daemon".toList "--fps=144".toList 144 (by decide)
      (Or.inl (by decide)),
    C18_fps_policy.2.2.1 "ckb-daemon".toList "--fps=0".toList 0 (by decide)
      (Or.inr (by decide))⟩

/-- C17: the contents that `updateconnected` writes are the lines
`<devpath><i> <serial> <name>` of the slots `i = 1 .. DEV_MAX - 1` whose USB
handle is live, in ascending order, one line per live slot and none for any
other slot; when no slot is live the contents are the single byte `'\n'`.
The contents are never empty.  (When `fopen` fails nothing is written.) -/
theorem C17_connected_contents (devpath : Str) (d : Daemon) :
    updateconnected devpath d true =
        some (if (liveSlots d).isEmpty then ['\n']
          else (liveSlots d).flatMap (fun ik => connected_line devpath ik.1 ik.2)) ∧
      (∀ i k, (i, k) ∈ liveSlots d ↔
        1 ≤ i ∧ i < DEV_MAX ∧ d.keyboard.get? i = some k ∧ k.handle = true) ∧
      ((liveSlots d).map (fun ik => ik.1)).Sublist (List.range' 1 (DEV_MAX - 1)) ∧
      (∀ contents, updateconnected devpath d true = some contents → contents ≠ []) ∧
      updateconnected devpath d false = none := by
  have h1 : updateconnected devpath d true =
      some (if (liveSlots d).isEmpty then ['\n']
        else (liveSlots d).flatMap (fun ik => connected_line devpath ik.1 ik.2)) := by
    unfold updateconnected
    rw [if_pos rfl]
    dsimp only
    rw [updateconnected_fold]
    dsimp only
    unfold liveSlots
    cases hl : liveAmong d (List.range' 1 (DEV_MAX - 1)) with
    | nil => rfl
    | cons a l => rfl
  refine ⟨h1, mem_liveSlots d, liveSlots_sublist d, ?_, rfl⟩
  intro contents hc
  rw [h1] at hc
  cases hl : liveSlots d with
  | nil =>
    rw [hl] at hc
    cases hc
    exact List.cons_ne_nil _ _
  | cons a l =>
    rw [hl] at hc
    cases hc
    intro he
    have := congrArg List.length he
    simp [connected_line] at this

/-- C17 at work: the example table with the keyboard of slot 1 plugged in, and
a table without any live slot. -/
theorem C17_connected_contents_witness :
    updateconnected "/dev/input/ckb".toList sampleDaemon true =
        some "/dev/input/ckb1 ABCDEF0123456789ABCDEF0123456789 K70\n".toList ∧
      updateconnected "/dev/input/ckb".toList { keyboard := [sampleRoot], store := [] } true =
        some "\n".toList :=
  ⟨(C17_connected_contents "/dev/input/ckb".toList sampleDaemon).1.trans (by decide),
    (C17_connected_contents "/dev/input/ckb".toList
      { keyboard := [sampleRoot], store := [] }).1.trans (by decide)⟩

/-- C19: round `n` of the main loop (counted from 0) runs with
`frame = n % 5` and its calls have the shape `tickCalls`: on a frame round
(`n % 5 = 0`) first the event pump, then the service of a selection of the
FIFOs of slots `0 .. DEV_MAX - 1` in ascending order; on every round one
`usbdequeue` for a selection of the slots `1 .. DEV_MAX - 1` in ascending
order, holding every slot live throughout and no slot dead throughout, each
followed on a frame round by its indicator refresh; then the sleep.  So
`usbdequeue` is called at most once per slot and round, the pump, the FIFO
pass and the indicator refresh happen exactly on the frame rounds, and in any
five consecutive rounds there is exactly one pump and FIFO pass and exactly
five `usbdequeue` calls for a slot that is live throughout (never more than
five for any slot). -/
theorem C19_frame_structure {W : Type} (M : Machine W) (fps : Int) (w0 : W) :
    (∀ k n, n < k →
      ∃ fs qs : List Nat, fs.Sublist (List.range DEV_MAX) ∧
        qs.Sublist (List.range' 1 (DEV_MAX - 1)) ∧
        (main_loop M fps k 0 w0).get? n = some (n % 5, tickCalls fps (n % 5) fs qs) ∧
        (∀ i, 1 ≤ i → i < DEV_MAX → (∀ w, M.handle w i = true) → i ∈ qs) ∧
        (∀ i, (∀ w, M.handle w i = false) → i ∉ qs) ∧
        (n % 5 = 0 → ∀ i, i < DEV_MAX → (∀ w, M.fifo w i = true) → i ∈ fs) ∧
        (∀ i, (∀ w, M.fifo w i = false) → i ∉ fs) ∧
        (∀ i, (tickCalls fps (n % 5) fs qs).count (Call.usbdequeue i) ≤ 1) ∧
        (∀ i, 1 ≤ i → i < DEV_MAX → (∀ w, M.handle w i = true) →
          (tickCalls fps (n % 5) fs qs).count (Call.usbdequeue i) = 1) ∧
        (tickCalls fps (n % 5) fs qs).count Call.handle_events =
          (if n % 5 = 0 then 1 else 0) ∧
        (∀ i, (tickCalls fps (n % 5) fs qs).count (Call.readlines i) ≤
          if n % 5 = 0 then 1 else 0) ∧
        (∀ i, (tickCalls fps (n % 5) fs qs).count (Call.updateindicators i) =
          if n % 5 = 0 then (tickCalls fps (n % 5) fs qs).count (Call.usbdequeue i) else 0)) ∧
    (∀ k n, n + 5 ≤ k →
      ((((main_loop M fps k 0 w0).drop n).take 5).map
          (fun t => t.2.count Call.handle_events)).sum = 1 ∧
        (∀ i, ((((main_loop M fps k 0 w0).drop n).take 5).map
          (fun t => t.2.count (Call.readlines i))).sum ≤ 1) ∧
        (∀ i, ((((main_loop M fps k 0 w0).drop n).take 5).map
          (fun t => t.2.count (Call.usbdequeue i))).sum ≤ 5) ∧
        (∀ i, 1 ≤ i → i < DEV_MAX → (∀ w, M.handle w i = true) →
          ((((main_loop M fps k 0 w0).drop n).take 5).map
            (fun t => t.2.count (Call.usbdequeue i))).sum = 5)) := by
  constructor
  · intro k n hn
    obtain ⟨fs, qs, hf, hq, h, hm, hd, hfm, hfd⟩ :=
      main_tick_calls M fps (n % 5) (main_state M fps n 0 w0)
    have hle : ∀ i, qs.count i ≤ 1 := count_le_one_of_sublist_range' hq
    refine ⟨fs, qs, hf, hq, ?_, hm, hd, hfm, hfd, ?_, ?_,
      tickCalls_count_handle_events _ _ _ _, ?_, ?_⟩
    · rw [main_loop_get M fps k n w0 hn, h]
    · intro i
      rw [tickCalls_count_usbdequeue]
      exact hle i
    · intro i h1 h2 hl
      rw [tickCalls_count_usbdequeue]
      have hpos : 0 < qs.count i := List.count_pos_iff.mpr (hm i h1 h2 hl)
      have := hle i
      omega
    · intro i
      rw [tickCalls_count_readlines]
      by_cases h0 : n % 5 = 0
      · rw [if_pos h0, if_pos h0]
        exact count_le_one_of_sublist_range hf i
      · rw [if_neg h0, if_neg h0]
    · intro i
      rw [tickCalls_count_updateindicators, tickCalls_count_usbdequeue]
  · intro k n hk
    rw [main_loop_window M fps k n w0 hk]
    have h5 := main_loop_five_frames M fps (n % 5) (main_state M fps n 0 w0)
      (Nat.mod_lt _ (by decide))
    refine ⟨?_, ?_, ?_, ?_⟩
    · rw [main_loop_sum_handle_events, h5]
    · intro i
      exact Nat.le_trans (main_loop_sum_readlines M fps i 5 _ _) (Nat.le_of_eq h5)
    · intro i
      exact main_loop_sum_usbdequeue_le M fps i 5 _ _
    · intro i h1 h2 hl
      exact main_loop_sum_usbdequeue_live M fps i h1 h2 hl 5 _ _

/-- C19 at work on the example machine (slots 1 and 3 plugged in, FIFOs on
slots 0, 1 and 3): the first six rounds, and the rounds 3 to 7. -/
theorem C19_frame_structure_witness :
    main_loop sampleMachine 60 6 0 () =
        [(0, [Call.handle_events, Call.readlines 0, Call.readlines 1, Call.readlines 3,
              Call.usbdequeue 1, Call.updateindicators 1, Call.usbdequeue 3,
              Call.updateindicators 3, Call.usleep 3333]),
         (1, [Call.usbdequeue 1, Call.usbdequeue 3, Call.usleep 3333]),
         (2, [Call.usbdequeue 1, Call.usbdequeue 3, Call.usleep 3333]),
         (3, [Call.usbdequeue 1, Call.usbdequeue 3, Call.usleep 3333]),
         (4, [Call.usbdequeue 1, Call.usbdequeue 3, Call.usleep 3333]),
         (0, [Call.handle_events, Call.readlines 0, Call.readlines 1, Call.readlines 3,
              Call.usbdequeue 1, Call.updateindicators 1, Call.usbdequeue 3,
              Call.updateindicators 3, Call.usleep 3333])] ∧
      ((((main_loop sampleMachine 60 10 0 ()).drop 3).take 5).map
        (fun t => t.2.count Call.handle_events)).sum = 1 ∧
      ((((main_loop sampleMachine 60 10 0 ()).drop 3).take 5).map
        (fun t => t.2.count (Call.usbdequeue 3))).sum = 5 :=
  ⟨by decide, ((C19_frame_structure sampleMachine 60 ()).2 10 3 (by decide)).1,
    ((C19_frame_structure sampleMachine 60 ()).2 10 3 (by decide)).2.2.2 3 (by decide)
      (by decide) (fun _ => rfl)⟩

/-- C14, counterexample: a `read` that delivers the four bytes `a`, 0, `b`,
newline.  The call hands out the one line `a` and keeps nothing, so the bytes
0 and `b` are neither returned nor retained. -/
theorem C14_counterexample :
    (readlines_run 1 (readlines_init (fun _ => 'x')) ["a\x00b\n".toList]).map
        (fun q => (q.1, retained q.2.1, q.2.2, q.2.1.buffersize)) =
      some (["a".toList], [], [], 4095) := by
  rfl

/-- C14, amended: for data without a 0 byte, every sequence of calls of
`readlines` on one descriptor returns, and when the buffer has not grown
during it (`buffersize` is still 4095) the lines handed out over all calls,
in order and each followed by a newline, followed by the bytes retained after
the last call and the bytes not yet read, are all the bytes of the
descriptor; no line holds a newline. -/
theorem C14_bytes_retained (junk : Nat → Char) (k : Nat) (fd : Fd)
    (hnul : NUL ∉ fd.flatten) :
    ∃ q, readlines_run k (readlines_init junk) fd = some q ∧
      (q.2.1.buffersize = 4095 →
        q.1.flatMap (fun l => l ++ ['\n']) ++ retained q.2.1 ++ q.2.2.flatten = fd.flatten ∧
          ∀ l ∈ q.1, '\n' ∉ l) := by
  obtain ⟨q, e, -, h⟩ := readlines_run_spec k (readlines_init junk) fd
    ⟨Nat.zero_le _, List.not_mem_nil _⟩ hnul
  exact ⟨q, e, h⟩

/-- C14 at work: three calls on a descriptor that delivers `mode 2\nrg`, then
nothing, then `b ff0000\nsw`. -/
theorem C14_bytes_retained_witness :
    NUL ∉ List.flatten ["mode 2\nrg".toList, [], "b ff0000\nsw".toList] ∧
      (readlines_run 3 (readlines_init (fun _ => 'x'))
          ["mode 2\nrg".toList, [], "b ff0000\nsw".toList]).map
          (fun q => (q.1, retained q.2.1, q.2.2, q.2.1.buffersize)) =
        some (["mode 2".toList, "rgb ff0000".toList], "sw".toList, [], 4095) ∧
      ∃ q, readlines_run 3 (readlines_init (fun _ => 'x'))
          ["mode 2\nrg".toList, [], "b ff0000\nsw".toList] = some q ∧
        (q.2.1.buffersize = 4095 →
          q.1.flatMap (fun l => l ++ ['\n']) ++ retained q.2.1 ++ q.2.2.flatten =
              List.flatten ["mode 2\nrg".toList, [], "b ff0000\nsw".toList] ∧
            ∀ l ∈ q.1, '\n' ∉ l) :=
  ⟨by decide, rfl,
    C14_bytes_retained (fun _ => 'x') 3 ["mode 2\nrg".toList, [], "b ff0000\nsw".toList]
      (by decide)⟩

/-- C15: the buffer does not stay within `MAX_BUFFER`.  A first call whose
reads deliver 4095, 4096, 4096 and 4096 bytes (16383 bytes are waiting in the
FIFO) leaves `buffersize` at 20479, above `MAX_BUFFER = 16383`; and once
`buffersize` has reached `MAX_BUFFER`, every call that has any byte grows the
buffer by at least another 4096, whether or not a read has filled it. -/
theorem C15_buffer_exceeds_cap (junk : Nat → Char) (c1 c2 c3 c4 : Str)
    (h1 : c1.length = 4095) (h2 : c2.length = 4096) (h3 : c3.length = 4096)
    (h4 : c4.length = 4096) :
    (∃ r, readlines (readlines_init junk) [c1, c2, c3, c4] = some r ∧
      r.2.1.buffersize = 20479 ∧ MAX_BUFFER < r.2.1.buffersize) ∧
    (∀ (s : Statics) (fd : Fd), MAX_BUFFER ≤ s.buffersize →
      0 < s.leftoverlen + (read fd (s.buffersize - s.leftoverlen)).1.length →
      ∃ r, readlines s fd = some r ∧ s.buffersize + 4096 ≤ r.2.1.buffersize) := by
  refine ⟨?_, readlines_grows_on⟩
  obtain ⟨lb, lo, ll, buf1, -, e, -⟩ :=
    (readlines_of_fill (readlines_fill_saturate junk c1 c2 c3 c4 h1 h2 h3 h4)).2 (by decide)
  exact ⟨_, e, rfl, show MAX_BUFFER < 20479 by decide⟩

/-- C15 at work: 16383 bytes `a` in the FIFO. -/
theorem C15_buffer_exceeds_cap_witness :
    ∃ r, readlines (readlines_init (fun _ => 'x'))
        [List.replicate 4095 'a', List.replicate 4096 'a', List.replicate 4096 'a',
          List.replicate 4096 'a'] = some r ∧
      r.2.1.buffersize = 20479 ∧ MAX_BUFFER < r.2.1.buffersize :=
  (C15_buffer_exceeds_cap (fun _ => 'x') (List.replicate 4095 'a') (List.replicate 4096 'a')
    (List.replicate 4096 'a') (List.replicate 4096 'a') (List.length_replicate _ _)
    (List.length_replicate _ _) (List.length_replicate _ _) (List.length_replicate _ _)).1

/-- C21: whenever `readcmd` makes a per-key handler call, the handler is set.
On every state in which the handler is the one of the command (as it is when
`readcmd` starts, and remains after every word), a word makes per-key calls
only if it is no verb and the command is `BIND`, `UNBIND`, `REBIND` or `RGB`,
and then with the matching handler `cmd_bind`, `cmd_unbind`, `cmd_rebind` or
`cmd_ledrgb`.  After `device`, `mode`, `name`, `profilename`, `macro`,
`switch`, `hwload`, `hwsave`, `erase` or `eraseprofile` the command is none
of these four, so the words that follow make no per-key call.  In the calls
of a whole line every per-key call has one of the four handlers. -/
theorem C21_handler_is_set (env : Env) :
    (∀ (st : State) (word : Str), st.handler = handlerOf st.command →
      ∃ st1 evs, readcmd_word env st word = some st1 ∧ st1.trace = st.trace ++ evs ∧
        st1.handler = handlerOf st1.command ∧
        (∀ e ∈ evs, ∀ h, e.handlerArg = some h →
          word ∉ verbs ∧ st.command ∈ keyCommands ∧ h = handlerOf st.command ∧
            h.isSome = true) ∧
        (st.command ∉ keyCommands → ∀ e ∈ evs, e.handlerArg = none)) ∧
    (∀ (st : State) (v : Str), v ∈ handlerlessVerbs →
      ∃ st1, readcmd_word env st v = some st1 ∧ st1.command ∉ keyCommands ∧
        st1.handler = none) ∧
    (∀ (d : Daemon) (kb : Nat) (line : Str),
      (readcmd_init d kb).handler = handlerOf (readcmd_init d kb).command ∧
      ∃ st, readcmd env d kb line = some st ∧
        ∀ e ∈ st.trace, ∀ h, e.handlerArg = some h →
          h ∈ [some cmdhandler.cmd_bind, some cmdhandler.cmd_unbind,
            some cmdhandler.cmd_rebind, some cmdhandler.cmd_ledrgb]) := by
  refine ⟨?_, fun st v hv => readcmd_word_handlerless env st v hv, ?_⟩
  · intro st word hp
    obtain ⟨st1, evs, e1, t1, p1, c1, -⟩ := readcmd_word_events env st word hp
    refine ⟨st1, evs, e1, t1, p1, ?_, ?_⟩
    · intro e he h hh
      obtain ⟨a, b, c⟩ := c1 e he h hh
      exact ⟨a, b, c, by rw [c]; exact (handlerOf_keyCommands _ b).1⟩
    · intro hn e he
      cases hh : e.handlerArg with
      | none => rfl
      | some h => exact absurd (c1 e he h hh).2.1 hn
  · intro d kb line
    refine ⟨rfl, ?_⟩
    obtain ⟨st, evs, e, t, c⟩ := readcmd_words_handlers env (words line) (readcmd_init d kb) rfl
    have ht : st.trace = evs := by
      rw [t]
      rfl
    refine ⟨readcmd_finish st, by rw [readcmd_eq_words, e]; rfl, ?_⟩
    intro ev hev h hh
    have hmem : ev ∈ evs := by
      unfold readcmd_finish at hev
      split at hev
      · rcases List.mem_append.mp hev with h1 | h1
        · rw [← ht]
          exact h1
        · rw [List.mem_singleton] at h1
          rw [h1] at hh
          cases hh
      · rw [← ht]
        exact hev
    obtain ⟨c0, hc0, rfl⟩ := c ev hmem h hh
    exact (handlerOf_keyCommands c0 hc0).2

/-- C21 at work on the example keyboard: after `bind` a colon-parameter
reaches `cmd_bind`, after `macro` it reaches no per-key handler, and every
per-key call of a mixed line has a handler. -/
theorem C21_handler_is_set_witness :
    (∃ st1 evs, readcmd_word sampleEnv (sampleState cmd.BIND (some cmdhandler.cmd_bind))
        "a:b".toList = some st1 ∧
      st1.trace = (sampleState cmd.BIND (some cmdhandler.cmd_bind)).trace ++ evs ∧
      st1.handler = handlerOf st1.command ∧
      (∀ e ∈ evs, ∀ h, e.handlerArg = some h →
        "a:b".toList ∉ verbs ∧
          (sampleState cmd.BIND (some cmdhandler.cmd_bind)).command ∈ keyCommands ∧
          h = handlerOf (sampleState cmd.BIND (some cmdhandler.cmd_bind)).command ∧
          h.isSome = true) ∧
      ((sampleState cmd.BIND (some cmdhandler.cmd_bind)).command ∉ keyCommands →
        ∀ e ∈ evs, e.handlerArg = none)) ∧
    (readcmd sampleEnv sampleDaemon 1 "bind a:b macro g1:x name rgb".toList).map
        (fun st => st.trace) =
      some [Event.call (some cmdhandler.cmd_bind) sampleMode 4 "b".toList,
        Event.cmd_macro_call sampleMode "g1".toList "x".toList,
        Event.updatemod_mode sampleMode, Event.updatemod_mode sampleMode,
        Event.updateleds (some 1)] :=
  ⟨(C21_handler_is_set sampleEnv).1 (sampleState cmd.BIND (some cmdhandler.cmd_bind))
      "a:b".toList rfl,
    by decide⟩

/-- C22, counterexample: on the FIFO of the example keyboard, a line that
retargets to a serial that is not plugged in and then says `hwload hwsave`.
`readcmd` calls `hwloadprofile`, `hwsaveprofile` and `updateleds` with the
null device; the same happens to `updateleds` after `rgb on`. -/
theorem C22_counterexample :
    (readcmd sampleEnv sampleDaemon 1
        "device 00000000000000000000000000000001 hwload hwsave".toList).map
        (fun st => st.trace) =
      some [Event.addstore "00000000000000000000000000000001".toList,
        Event.hwloadprofile none, Event.hwsaveprofile none, Event.updateleds none] ∧
    (readcmd sampleEnv sampleDaemon 1
        "device 00000000000000000000000000000001 rgb on".toList).map
        (fun st => st.trace) =
      some [Event.addstore "00000000000000000000000000000001".toList,
        Event.updatemod_mode { owner := SetRef.stored 0, index := 0 },
        Event.cmd_ledon { owner := SetRef.stored 0, index := 0 },
        Event.updateleds none] := by
  decide

/-- C22, amended: for every command line, `hwloadprofile`, `hwsaveprofile`
and `updateleds` are called with the device pointer of the line, which is a
plugged-in device or null, never a slot without a live handle.  After the
word after `device` has retargeted the line to a storage entry the pointer is
null and the line has a profile; from then on `hwload` calls
`hwloadprofile(0)`, `hwsave` calls `hwsaveprofile(0)`, and the final test
calls `updateleds(0)` when a mode is selected and an LED change is pending. -/
theorem C22_device_calls (env : Env) :
    (∀ (d : Daemon) (kb : Nat) (line : Str),
      ∃ st, readcmd env d kb line = some st ∧
        ∀ e ∈ st.trace, ∀ k, e.deviceArg = some k →
          k = none ∨ ∃ i, k = some i ∧ live d i = true) ∧
    (∀ (st : State) (word : Str), word.length = SERIAL_LEN - 1 →
      findusb st.daemon word = none →
      (readcmd_device st word).kb = none ∧ (readcmd_device st word).profile.isSome = true) ∧
    (∀ st : State, st.kb = none → st.profile.isSome = true →
      (∃ st1, readcmd_word env st "hwload".toList = some st1 ∧
        st1.trace = st.trace ++ [Event.hwloadprofile none]) ∧
      (∃ st1, readcmd_word env st "hwsave".toList = some st1 ∧
        st1.trace = st.trace ++ [Event.hwsaveprofile none])) ∧
    (∀ st : State, st.kb = none → st.mode.isSome = true → st.rgbchange = true →
      (readcmd_finish st).trace = st.trace ++ [Event.updateleds none]) := by
  refine ⟨?_, ?_, ?_, ?_⟩
  · intro d kb line
    obtain ⟨st, evs, e, t, g, c⟩ :=
      target_words env d (words line) (readcmd_init d kb) (target_readcmd_init d kb) rfl
    have ht : st.trace = evs := by
      rw [t]
      rfl
    refine ⟨readcmd_finish st, by rw [readcmd_eq_words, e]; rfl, ?_⟩
    intro ev hev k hk
    unfold readcmd_finish at hev
    split at hev
    · rename_i hfin
      rcases List.mem_append.mp hev with h1 | h1
      · rw [ht] at h1
        exact c ev h1 k hk
      · rw [List.mem_singleton] at h1
        rw [h1] at hk
        cases hk
        have hprof : st.profile.isSome = true := by
          cases hp : st.profile with
          | none =>
            rw [g.2.2 hp] at hfin
            exact absurd hfin.1 (by decide)
          | some r => rfl
        cases hkb : st.kb with
        | none => exact Or.inl rfl
        | some i => exact Or.inr ⟨i, rfl, g.2.1 hprof i hkb⟩
    · rw [ht] at hev
      exact c ev hev k hk
  · intro st word hl hf
    obtain ⟨j, hj, -⟩ := addstore_spec st.daemon word
    unfold readcmd_device
    rw [if_pos hl, hf]
    dsimp only
    rw [hj]
    exact ⟨rfl, rfl⟩
  · intro st hkb hp
    constructor
    · rw [readcmd_word_hwload, hkb, if_pos hp]
      exact ⟨_, rfl, rfl⟩
    · rw [readcmd_word_hwsave, hkb, if_pos hp]
      exact ⟨_, rfl, rfl⟩
  · intro st hkb hm hr
    unfold readcmd_finish
    rw [if_pos ⟨hm, hr⟩, hkb]
    rfl

/-- C22 at work on the example keyboard: `hwload` on its own FIFO calls
`hwloadprofile` and `updateleds` with the plugged-in device of slot 1. -/
theorem C22_device_calls_witness :
    live sampleDaemon 1 = true ∧
      (readcmd sampleEnv sampleDaemon 1 "hwload".toList).map (fun st => st.trace) =
        some [Event.hwloadprofile (some 1), Event.updateleds (some 1)] ∧
      ∃ st, readcmd sampleEnv sampleDaemon 1 "hwload".toList = some st ∧
        ∀ e ∈ st.trace, ∀ k, e.deviceArg = some k →
          k = none ∨ ∃ i, k = some i ∧ live sampleDaemon i = true :=
  ⟨by decide, by decide, (C22_device_calls sampleEnv).1 sampleDaemon 1 "hwload".toList⟩

end Ckb
